import Mathlib

/-! # JtagDue console firmware: shallow embedding of `BusPirateConsole.cpp`

The console keeps its state in file-level statics; here they are the fields of `World`,
together with the two USB ring buffers the entry point borrows on every call and a trace
`calls` of the routines invoked on external collaborators.

Conventions of the embedding.

* A `const char *` into a NUL-terminated string is the list of the characters from the
  pointer up to, and excluding, the terminating NUL: `*p == 0` is `p = []`, and `p + 1`
  is the tail.  A pair of pointers `[begin, end)` into one string is `span begin end`.
* `unsigned`, `uint32_t` and `size_t` are 32 bits wide on the target (`STATIC_ASSERT` in
  `ParseUnsignedIntArg`), `uint64_t` is 64 bits wide; they are natural numbers reduced
  modulo `2 ^ 32` or `2 ^ 64` wherever the C arithmetic can wrap.
* `assert` is compiled out (release build); what the assertions demand is stated in
  theorems instead.
* A C++ exception is a value: routines that can throw return an `Outcome`, which carries
  the state reached when the routine stopped and how it stopped.
-/

namespace JtagDue

/-! ## Text and parsing helpers -/

/-- Modelled from the spec: the macro `EOL` is declared outside `src/`; the spec calls it a
fixed sequence of two or more characters used for all printed lines.  Carriage return and
line feed are taken here; no theorem below depends on the choice unless it says so. -/
def EOL : List Char := [Char.ofNat 13, Char.ofNat 10]

/-- The double quote character, printed around quoted tokens in diagnostics. -/
def dquote : Char := Char.ofNat 34

/-- The constant array SPACE_AND_TAB of the source. -/
def SPACE_AND_TAB : List Char := [' ', Char.ofNat 9]

/-- Modelled from the spec: the constant `BIN_MODE_CHAR` is declared in
`BusPirateBinaryMode.h`, outside `src/`; the glossary gives the escape byte as 0x00. -/
def BIN_MODE_CHAR : Char := Char.ofNat 0

/-- Modelled from the spec: `IsCharInSet` of `TextParsingUtils.h` (outside `src/`),
membership of a character in a NUL-terminated set of characters. -/
def IsCharInSet (c : Char) (set : List Char) : Bool := decide (c ∈ set)

/-- Modelled from the spec: `SkipCharsInSet` of `TextParsingUtils.h` (outside `src/`),
"skip leading whitespace": the pointer is advanced over the characters of the set. -/
def SkipCharsInSet (p : List Char) (set : List Char) : List Char :=
  p.dropWhile (fun c => IsCharInSet c set)

/-- Modelled from the spec: `SkipCharsNotInSet` of `TextParsingUtils.h` (outside `src/`),
the pointer is advanced to the end of the "whitespace-delimited token". -/
def SkipCharsNotInSet (p : List Char) (set : List Char) : List Char :=
  p.dropWhile (fun c => !IsCharInSet c set)

/-- The characters in `[b, e)`, where `e` points into the string that starts at `b`. -/
def span (b e : List Char) : List Char := b.take (b.length - e.length)

/-- The C string a `char` buffer denotes: everything before the first NUL. -/
def cstr (buf : List Char) : List Char := buf.takeWhile (fun c => c != Char.ofNat 0)

/-- The C library routine toupper in the "C" locale. -/
def toupper (c : Char) : Char := c.toUpper

/-- DoesStrMatch: `str` is the token `[strBegin, strEnd)`, `pattern` the NUL-terminated
string `match`.  The loop walks both at once; running out of `pattern` first, or having
pattern characters left over after the token, is a mismatch. -/
def DoesStrMatch : List Char → List Char → Bool → Bool
  | [], [], _ => true
  | [], _ :: _, _ => false
  | _ :: _, [], _ => false
  | c :: str, m :: pattern, isCaseSensitive =>
    if c = m then DoesStrMatch str pattern isCaseSensitive
    else if !isCaseSensitive && toupper c = toupper m then
      DoesStrMatch str pattern isCaseSensitive
    else false

/-- IsCmd: the result is the returned flag paired with the value of `*extraParamsFound`
after the call (`cmd` is `[cmdBegin, cmdEnd)`). -/
def IsCmd (cmd cmdEnd : List Char) (cmdName : String) (isCaseSensitive allowExtraParams : Bool)
    (extraParamsFound : Bool) : Bool × Bool :=
  if !DoesStrMatch cmd cmdName.toList isCaseSensitive then (false, extraParamsFound)
  else if !allowExtraParams then
    if SkipCharsInSet cmdEnd SPACE_AND_TAB ≠ [] then (false, true)
    else (true, extraParamsFound)
  else (true, extraParamsFound)

/-! ### `strtoul` and the numeric argument parser -/

/-- The C library routine isspace in the "C" locale. -/
def isspace (c : Char) : Bool :=
  c = ' ' || (9 ≤ c.toNat && c.toNat ≤ 13)

/-- Value of a character as a digit, for bases up to 36. -/
def digitValue (c : Char) : Option Nat :=
  if 48 ≤ c.toNat ∧ c.toNat ≤ 57 then some (c.toNat - 48)
  else if 97 ≤ c.toNat ∧ c.toNat ≤ 122 then some (c.toNat - 97 + 10)
  else if 65 ≤ c.toNat ∧ c.toNat ≤ 90 then some (c.toNat - 65 + 10)
  else none

/-- Digit loop of strtoul: the value read so far, whether a digit was seen, and the
first character that is not a digit of the base. -/
def strtoulDigits (base : Nat) : List Char → Nat → Bool → Nat × Bool × List Char
  | [], acc, any => (acc, any, [])
  | c :: cs, acc, any =>
    match digitValue c with
    | some d => if d < base then strtoulDigits base cs (acc * base + d) true
                else (acc, any, c :: cs)
    | none => (acc, any, c :: cs)

/-- Result of strtoul: the value, the end pointer and the value left in `errno`. -/
structure StrtoulResult where
  val : Nat
  endPtr : List Char
  errno : Nat
deriving DecidableEq, Repr

/-- The value ULONG_MAX for the 32-bit `unsigned long` of the target. -/
def ULONG_MAX : Nat := 2 ^ 32 - 1

/-- The `errno` value ERANGE. -/
def ERANGE : Nat := 34

/-- The C library routine strtoul (ISO C 7.22.1.4) for bases 10 and 16: leading white space,
an optional sign, for base 16 an optional `0x`/`0X` in front of a hexadecimal digit, then
digits.  Without any digit the result is 0 and the end pointer is the start; a value above
`ULONG_MAX` gives `ULONG_MAX` and `ERANGE`; a minus sign negates modulo `2 ^ 32`. -/
def strtoul (nptr : List Char) (base : Nat) : StrtoulResult :=
  let s := nptr.dropWhile isspace
  let neg := s.head? = some '-'
  let s := if s.head? = some '-' ∨ s.head? = some '+' then s.tail else s
  let s := match s with
    | z :: x :: h :: r =>
      if base = 16 ∧ z = '0' ∧ (x = 'x' ∨ x = 'X') ∧ (digitValue h).any (· < 16) then h :: r
      else s
    | _ => s
  let r := strtoulDigits base s 0 false
  if !r.2.1 then ⟨0, nptr, 0⟩
  else if r.1 > ULONG_MAX then ⟨ULONG_MAX, r.2.2, ERANGE⟩
  else ⟨if neg then (2 ^ 32 - r.1) % 2 ^ 32 else r.1, r.2.2, 0⟩

deriving instance DecidableEq for Except

/-- The message of the exception ParseUnsignedIntArg throws. -/
def ERR_MSG : String := "Invalid unsigned integer value."

/-- ParseUnsignedIntArg: `begin` points at the argument inside the command line (the line
goes on behind the argument).  An exception is `Except.error` with its message. -/
def ParseUnsignedIntArg (begin_ : List Char) : Except String Nat :=
  let hex := begin_.head? = some '0' ∧ begin_.tail.head? = some 'x'
  let p := if hex then begin_.drop 2 else begin_
  let base := if hex then 16 else 10
  if p.head? = some '-' then Except.error ERR_MSG
  else
    let r := strtoul p base
    if r.errno ≠ 0 ∨ (r.endPtr ≠ [] ∧ !(r.endPtr.head?.any (IsCharInSet · SPACE_AND_TAB))) then
      Except.error ERR_MSG
    else Except.ok (r.val % 2 ^ 32)

/-! ### `printf` conversions -/

/-- Conversion `%u`. -/
def fmtU (n : Nat) : List Char := Nat.toDigits 10 n

/-- Conversion `%<width>u`: right-justified, padded with blanks on the left. -/
def fmtUw (width n : Nat) : List Char :=
  List.replicate (width - (fmtU n).length) ' ' ++ fmtU n

/-- One uppercase hexadecimal digit. -/
def hexDigit (d : Nat) : Char :=
  if d < 10 then Char.ofNat (48 + d) else Char.ofNat (55 + d)

/-- Conversion `%02X` followed by a blank, for a byte (`"%02X "` in HexDump). -/
def fmt02X (b : Nat) : List Char := [hexDigit (b / 16 % 16), hexDigit (b % 16), ' ']

/-! ## Buffers, state and environment -/

/-- The type UsbSpeedTestEnum of the source. -/
inductive UsbSpeedTestEnum where
  | stNone
  | stTxSimpleWithTimestamps
  | stTxSimpleLoop
  | stTxFastLoopCircularBuffer
  | stTxFastLoopRawUsb
  | stRxWithCircularBuffer
deriving DecidableEq, Repr

/-- Modelled from the spec: the ring buffer classes `CUsbRxBuffer` and `CUsbTxBuffer` are
declared outside `src/`.  The spec describes a fixed-capacity FIFO of bytes, insertion
order preserved, whose free and occupied counts sum to the capacity: `elems` holds the
queued bytes, oldest first.  What a write does when it does not fit is not described; the
model queues the bytes all the same and reports a free count of 0 from then on. -/
structure CUsbBuffer where
  cap : Nat
  elems : List Char
deriving DecidableEq, Repr

/-- Method GetElemCount of the ring buffer (occupied count). -/
def CUsbBuffer.GetElemCount (b : CUsbBuffer) : Nat := b.elems.length

/-- Method GetFreeCount of the ring buffer. -/
def CUsbBuffer.GetFreeCount (b : CUsbBuffer) : Nat := b.cap - b.elems.length

/-- Method IsEmpty of the ring buffer. -/
def CUsbBuffer.IsEmpty (b : CUsbBuffer) : Bool := b.elems.isEmpty

/-- Method IsFull of the ring buffer. -/
def CUsbBuffer.IsFull (b : CUsbBuffer) : Bool := decide (b.GetFreeCount = 0)

/-- Method Reset of the ring buffer: discards the queued bytes. -/
def CUsbBuffer.Reset (b : CUsbBuffer) : CUsbBuffer := { b with elems := [] }

/-- Method WriteElem of the ring buffer, and (for several bytes) a write through
GetWritePtr followed by CommitWrittenElements: the bytes are queued at the end. -/
def CUsbBuffer.write (b : CUsbBuffer) (s : List Char) : CUsbBuffer :=
  { b with elems := b.elems ++ s }

/-- Method ConsumeReadElements of the ring buffer: the oldest `n` bytes leave the queue. -/
def CUsbBuffer.ConsumeReadElements (b : CUsbBuffer) (n : Nat) : CUsbBuffer :=
  { b with elems := b.elems.drop n }

/-- Calls on external collaborators, and entries into the console's own subsystems, in
the order in which they are made. -/
inductive Event where
  | ReadElement (byte : Char)
  | AddChar (byte : Char)
  | ParseCommand (cmdStr : List Char)
  | SpeedTest
  | ChangeBusPirateMode
  | WakeFromMainLoopSleep
  | udi_cdc_write_buf (size : Nat)
  | BusyWaitLoop (iterationCount : Nat)
  | disable_irq
  | DbgconPrintStr (text : List Char)
  | DbgconWaitForDataSent
  | ResetBoard
  | readMemory (addr : Nat)
  | ShiftJtagData (bitCount : Nat)
deriving DecidableEq, Repr

/-- The file-level statics of `BusPirateConsole.cpp` (fields named after them), the two
buffers passed to the entry point, and the trace of calls.  `σ` is the state of the line
accumulator `s_console`. -/
structure World (σ : Type) where
  rx : CUsbBuffer
  tx : CUsbBuffer
  s_binaryModeCount : Nat
  s_simulateProcolError : Bool
  s_usbSpeedTestBuffer : List Char
  s_usbSpeedTestEndTime : Nat
  s_usbSpeedTestType : UsbSpeedTestEnum
  s_console : σ
  calls : List Event

/-- Decoded value of `rstc_get_reset_cause` (the `RSTC_` constants are declared outside
`src/`); `unknown` is any value the switch in DisplayResetCause has no case for. -/
inductive ResetCause where
  | general
  | backup
  | watchdog
  | software
  | user
  | unknown
deriving DecidableEq, Repr

/-- What the code under `src/` takes from outside: the line accumulator class
`CSerialConsole`, the zero-copy span of the tx ring, and the readings of hardware and
library routines.  All of it is a parameter of the embedding.

* `AddChar s byte tx` is `s_console.AddChar( byte, txBuffer, &cmdLen )`: the new
  accumulator state, the tx buffer after the echo, and the completed line if there is one.
* `GetWritePtr tx` is the span length `maxChunkElemCount`; a span never exceeds the free
  space ("never silently overwritten").
* `udi_cdc_write_buf i` is the remaining count returned by the call number `i` within one
  pass of the raw speed test. -/
structure Env (σ : Type) where
  AddChar : σ → Char → CUsbBuffer → σ × CUsbBuffer × Option (List Char)
  Reset : σ → σ
  GetWritePtr : CUsbBuffer → Nat
  GetWritePtr_le : ∀ tx, GetWritePtr tx ≤ tx.GetFreeCount
  udi_cdc_write_buf : Nat → Nat
  modeChangeText : List Char
  memory : Nat → Nat
  GetUptime : Nat
  resetCause : ResetCause
  oneMsIterationCount : Nat
  ENABLE_CPU_SLEEP : Bool
  ENABLE_WDT : Bool
  NDEBUG : Bool
  PACKAGE_VERSION : List Char
  compilerVersion : List Char
  lastMinute : Nat → Nat
  lastMinuteIndex : Nat
  lastSecond : Nat → Nat
  lastSecondIndex : Nat
  jtagPinStatus : List Char
  jtagShiftElapsedTime : Nat
  heapEndAddr : Nat
  endAddr : Nat
  stackStartAddr : Nat
  STACK_SIZE : Nat
  stackSizeUsageEstimate : Nat
  mallinfo_uordblks : Nat
  mallinfo_arena : Nat

/-- How a routine stopped: it returned, it threw a `std::exception` with the given
`what()`, or it never came back to its caller: it reset the board, or it divided by zero,
which is undefined behaviour and where execution stops on the target. -/
inductive Completion where
  | returned
  | threw (what : String)
  | halted
deriving DecidableEq, Repr

/-- The state a routine stopped in, and how it stopped. -/
structure Outcome (σ : Type) where
  world : World σ
  how : Completion

/-- Modelled from the spec: `UsbPrint` and `UsbPrintStr` are declared outside `src/`; the
formatted text is queued at the end of the tx buffer. -/
def World.print {σ : Type} (w : World σ) (text : List Char) : World σ :=
  { w with tx := w.tx.write text }

/-- Records a call in the trace. -/
def World.log {σ : Type} (w : World σ) (e : Event) : World σ :=
  { w with calls := w.calls ++ [e] }

/-- WritePrompt. -/
def WritePrompt {σ : Type} (w : World σ) : World σ := w.print ">".toList

/-! ## Command handlers -/

/-- Loop of HexDump: `n` bytes are still to be printed, `i` is the loop index and
`lineElemCount` the number of groups on the current line. -/
def HexDumpLoop {σ : Type} (env : Env σ) (ptr : Nat) (endOfLineChars : List Char) :
    Nat → Nat → Nat → World σ → World σ
  | 0, _, _, w => w
  | n + 1, i, lineElemCount, w =>
    let w1 := if lineElemCount = 32 then w.print endOfLineChars else w
    let l1 := if lineElemCount = 32 then 0 else lineElemCount
    let addr := (ptr + i) % 2 ^ 32
    let b := env.memory addr % 256
    let w2 := (w1.log (Event.readMemory addr)).print (fmt02X b)
    HexDumpLoop env ptr endOfLineChars n (i + 1) (l1 + 1) w2

/-- HexDump. -/
def HexDump {σ : Type} (env : Env σ) (ptr byteCount : Nat) (endOfLineChars : List Char)
    (w : World σ) : Outcome σ :=
  let eolLen := endOfLineChars.length
  let lineCount := (byteCount + 32 - 1) % 2 ^ 32 / 32
  let expectedOutputLen := (byteCount * 3 + lineCount * eolLen) % 2 ^ 32
  if expectedOutputLen > w.tx.GetFreeCount then
    ⟨w, Completion.threw "Not enough room in the Tx buffer for the hex dump."⟩
  else
    ⟨(HexDumpLoop env ptr endOfLineChars byteCount 0 0 w).print endOfLineChars,
      Completion.returned⟩

/-- PrintMemory. -/
def PrintMemory {σ : Type} (env : Env σ) (paramBegin : List Char) (w : World σ) : Outcome σ :=
  let addrEnd := SkipCharsNotInSet paramBegin SPACE_AND_TAB
  let countBegin := SkipCharsInSet addrEnd SPACE_AND_TAB
  let countEnd := SkipCharsNotInSet countBegin SPACE_AND_TAB
  let extraArgBegin := SkipCharsInSet countEnd SPACE_AND_TAB
  if paramBegin = [] ∨ countBegin = [] ∨ extraArgBegin ≠ [] then
    ⟨w.print ("Invalid arguments.".toList ++ EOL), Completion.returned⟩
  else
    match ParseUnsignedIntArg paramBegin with
    | Except.error what => ⟨w, Completion.threw what⟩
    | Except.ok addr =>
      match ParseUnsignedIntArg countBegin with
      | Except.error what => ⟨w, Completion.threw what⟩
      | Except.ok count =>
        if count = 0 then ⟨w.print ("Invalid arguments.".toList ++ EOL), Completion.returned⟩
        else HexDump env addr count EOL w

/-- BusyWait: every pass of the loop is one call of BusyWaitLoop. -/
def BusyWait {σ : Type} (env : Env σ) (paramBegin : List Char) (w : World σ) : Outcome σ :=
  let delayEnd := SkipCharsNotInSet paramBegin SPACE_AND_TAB
  let extraArgBegin := SkipCharsInSet delayEnd SPACE_AND_TAB
  if paramBegin = [] ∨ extraArgBegin ≠ [] then
    ⟨w.print ("Invalid arguments.".toList ++ EOL), Completion.returned⟩
  else
    match ParseUnsignedIntArg paramBegin with
    | Except.error what => ⟨w, Completion.threw what⟩
    | Except.ok delayMs =>
      if delayMs = 0 ∨ delayMs > 60 * 1000 then
        ⟨w.print ("Invalid arguments.".toList ++ EOL), Completion.returned⟩
      else
        let busy := List.replicate delayMs (Event.BusyWaitLoop env.oneMsIterationCount)
        let w1 := { w with calls := w.calls ++ busy }
        ⟨w1.print ("Waited ".toList ++ fmtU delayMs ++ " ms.".toList ++ EOL),
          Completion.returned⟩

/-- The constant TEST_TIME_IN_MS of ProcessUsbSpeedTestCmd. -/
def TEST_TIME_IN_MS : Nat := 5000

/-- The branch `testType != stNone` of ProcessUsbSpeedTestCmd. -/
def armSpeedTest {σ : Type} (testType : UsbSpeedTestEnum) (currentTime : Nat) (w : World σ) :
    World σ :=
  let w1 := { w with
    s_usbSpeedTestBuffer := List.replicate 1000 '.',
    s_usbSpeedTestEndTime := (currentTime + TEST_TIME_IN_MS) % 2 ^ 64,
    s_usbSpeedTestType := testType }
  (w1.print ("Starting USB speed test...".toList ++ EOL)).log Event.WakeFromMainLoopSleep

/-- The `if ... else if` chain of ProcessUsbSpeedTestCmd as a table, in the order of the
source: the name compared against and the test type assigned on a match.  Every entry is
compared with `isCaseSensitive` and `allowExtraParams` both false. -/
def speedTestTable : List (String × UsbSpeedTestEnum) :=
  [("TxSimpleWithTimestamps", UsbSpeedTestEnum.stTxSimpleWithTimestamps),
   ("TxSimpleLoop", UsbSpeedTestEnum.stTxSimpleLoop),
   ("TxFastLoopCircularBuffer", UsbSpeedTestEnum.stTxFastLoopCircularBuffer),
   ("TxFastLoopRawUsb", UsbSpeedTestEnum.stTxFastLoopRawUsb),
   ("RxWithCircularBuffer", UsbSpeedTestEnum.stRxWithCircularBuffer)]

/-- Runs the chain of IsCmd calls of ProcessUsbSpeedTestCmd over the entries that are left:
the first entry for which IsCmd returns true decides `testType`; `extraParamsFound` is
handed from one call to the next and returned with the result. -/
def selectSpeedTest (param paramEnd : List Char) :
    List (String × UsbSpeedTestEnum) → Bool → UsbSpeedTestEnum × Bool
  | [], extraParamsFound => (UsbSpeedTestEnum.stNone, extraParamsFound)
  | (name, testType) :: rest, extraParamsFound =>
    let r := IsCmd param paramEnd name false false extraParamsFound
    if r.1 then (testType, r.2) else selectSpeedTest param paramEnd rest r.2

/-- ProcessUsbSpeedTestCmd. -/
def ProcessUsbSpeedTestCmd {σ : Type} (paramBegin : List Char) (currentTime : Nat)
    (w : World σ) : World σ :=
  if paramBegin = [] then
    w.print ("Please specify the test type as an argument:".toList ++ EOL ++
      "  TxSimpleWithTimestamps".toList ++ EOL ++
      "  TxSimpleLoop".toList ++ EOL ++
      "  TxFastLoopCircularBuffer".toList ++ EOL ++
      "  TxFastLoopRawUsb".toList ++ EOL ++
      "  RxWithCircularBuffer".toList ++ EOL)
  else
    let paramEnd := SkipCharsNotInSet paramBegin SPACE_AND_TAB
    let param := span paramBegin paramEnd
    let r := selectSpeedTest param paramEnd speedTestTable false
    if r.1 ≠ UsbSpeedTestEnum.stNone then armSpeedTest r.1 currentTime w
    else if r.2 then
      w.print ("No parameters are allowed after test type ".toList ++ [dquote] ++ param ++
        [dquote] ++ ".".toList ++ EOL)
    else
      w.print ("Unknown test type ".toList ++ [dquote] ++ param ++ [dquote] ++ ".".toList ++ EOL)

/-- DisplayResetCause. -/
def DisplayResetCause {σ : Type} (env : Env σ) (w : World σ) : World σ :=
  let name := match env.resetCause with
    | ResetCause.general => "General"
    | ResetCause.backup => "Backup"
    | ResetCause.watchdog => "Watchdog"
    | ResetCause.software => "Software"
    | ResetCause.user => "User"
    | ResetCause.unknown => "<unknown>"
  ((w.print "Reset cause: ".toList).print name.toList).print EOL

/-- Modelled from the spec: the constant `CPU_LOAD_MINUTE_SLOT_COUNT` is declared outside
`src/`; the per-minute ring covers 60 seconds at 1-second granularity. -/
def CPU_LOAD_MINUTE_SLOT_COUNT : Nat := 60

/-- Modelled from the spec: the constant `CPU_LOAD_SECOND_SLOT_COUNT` is declared outside
`src/`; the per-second ring covers one second at 50 ms granularity. -/
def CPU_LOAD_SECOND_SLOT_COUNT : Nat := 20

/-- The summing loops of DisplayCpuLoad: `uint32_t average += ring[ ( index + j ) % count ]`
for `j` below `count`, every slot being a `uint8_t`. -/
def cpuLoadSum (ring : Nat → Nat) (index count : Nat) : Nat :=
  (List.range count).foldl (fun acc j => (acc + ring ((index + j) % count) % 256) % 2 ^ 32) 0

/-- The averaging statement of DisplayCpuLoad, in `uint32_t`. -/
def cpuLoadAverage (ring : Nat → Nat) (index count : Nat) : Nat :=
  cpuLoadSum ring index count * 100 % 2 ^ 32 / (count * 255 % 2 ^ 32)

/-- The printing loops of DisplayCpuLoad: one line per slot, oldest to newest. -/
def cpuLoadLines (ring : Nat → Nat) (index count width : Nat) : List Char :=
  ((List.range count).map (fun j =>
    fmtUw width (ring ((index + j) % count) % 256 * 100 / 255) ++ " %".toList ++ EOL)).flatten

/-- DisplayCpuLoad. -/
def DisplayCpuLoad {σ : Type} (env : Env σ) (w : World σ) : World σ :=
  let minuteAverage := cpuLoadAverage env.lastMinute (env.lastMinuteIndex % 256)
    CPU_LOAD_MINUTE_SLOT_COUNT
  let w1 := w.print
    ("CPU load in the last 60 seconds (1 second intervals, oldest to newest):".toList ++ EOL)
  let w2 := w1.print
    (cpuLoadLines env.lastMinute (env.lastMinuteIndex % 256) CPU_LOAD_MINUTE_SLOT_COUNT 3)
  let secondAverage := cpuLoadAverage env.lastSecond (env.lastSecondIndex % 256)
    CPU_LOAD_SECOND_SLOT_COUNT
  let w3 := w2.print
    ("CPU load in the last second (50 ms intervals, oldest to newest):".toList ++ EOL)
  let w4 := w3.print
    (cpuLoadLines env.lastSecond (env.lastSecondIndex % 256) CPU_LOAD_SECOND_SLOT_COUNT 2)
  let w5 := w4.print ("Average CPU load in the last 60 seconds: ".toList ++
    fmtUw 2 minuteAverage ++ " %".toList ++ EOL)
  w5.print ("Average CPU load in the last    second : ".toList ++
    fmtUw 2 secondAverage ++ " %".toList ++ EOL)

/-- SimulateError. -/
def SimulateError {σ : Type} (paramBegin : List Char) (w : World σ) : Outcome σ :=
  if paramBegin = [] then
    ⟨w.print ("Please specify the error type as an argument: \x27command\x27 or \x27protocol\x27".toList
      ++ EOL), Completion.returned⟩
  else
    let paramEnd := SkipCharsNotInSet paramBegin SPACE_AND_TAB
    let extraArgBegin := SkipCharsInSet paramEnd SPACE_AND_TAB
    if extraArgBegin ≠ [] then
      ⟨w.print ("Invalid arguments.".toList ++ EOL), Completion.returned⟩
    else if DoesStrMatch (span paramBegin paramEnd) "command".toList false then
      ⟨w, Completion.threw "Simulated command error."⟩
    else if DoesStrMatch (span paramBegin paramEnd) "protocol".toList false then
      ⟨{ w with s_simulateProcolError := true }, Completion.returned⟩
    else
      ⟨w.print ("Unknown error type ".toList ++ [dquote] ++ span paramBegin paramEnd ++
        [dquote] ++ ".".toList ++ EOL), Completion.returned⟩

/-! ## Command dispatch -/

/-- Command name constant of the source. -/
def CMDNAME_QUESTION_MARK : String := "?"
/-- Command name constant of the source. -/
def CMDNAME_HELP : String := "help"
/-- Command name constant of the source. -/
def CMDNAME_I : String := "i"
/-- Command name constant of the source. -/
def CMDNAME_USBSPEEDTEST : String := "UsbSpeedTest"
/-- Command name constant of the source. -/
def CMDNAME_JTAGPINS : String := "JtagPins"
/-- Command name constant of the source. -/
def CMDNAME_JTAGSHIFTSPEEDTEST : String := "JtagShiftSpeedTest"
/-- Command name constant of the source. -/
def CMDNAME_MALLOCTEST : String := "MallocTest"
/-- Command name constant of the source. -/
def CMDNAME_CPP_EXCEPTION_TEST : String := "ExceptionTest"
/-- Command name constant of the source. -/
def CMDNAME_MEMORY_USAGE : String := "MemoryUsage"
/-- Command name constant of the source. -/
def CMDNAME_SIMULATE_ERROR : String := "SimulateError"
/-- Command name constant of the source. -/
def CMDNAME_RESET : String := "Reset"
/-- Command name constant of the source. -/
def CMDNAME_CPU_LOAD : String := "CpuLoad"
/-- Command name constant of the source. -/
def CMDNAME_RESET_CAUSE : String := "ResetCause"
/-- Command name constant of the source. -/
def CMDNAME_PRINT_MEMORY : String := "PrintMemory"
/-- Command name constant of the source. -/
def CMDNAME_BUSY_WAIT : String := "BusyWait"
/-- Command name constant of the source. -/
def CMDNAME_UPTIME : String := "Uptime"

/-- The text printed by the help branch of ProcessCommand. -/
def helpText : List Char :=
  "This console is similar to the Bus Pirate console.".toList ++ EOL ++
  "Commands longer than 1 character are case insensitive.".toList ++ EOL ++
  "Commands are:".toList ++ EOL ++
  "  ".toList ++ CMDNAME_QUESTION_MARK.toList ++ ", ".toList ++ CMDNAME_HELP.toList ++
    ": Show this help text.".toList ++ EOL ++
  "  ".toList ++ CMDNAME_I.toList ++ ": Show version information.".toList ++ EOL ++
  "  ".toList ++ CMDNAME_USBSPEEDTEST.toList ++ ": Test USB transfer speed.".toList ++ EOL ++
  "  ".toList ++ CMDNAME_JTAGPINS.toList ++
    ": Show JTAG pin status (read as inputs).".toList ++ EOL ++
  "  ".toList ++ CMDNAME_JTAGSHIFTSPEEDTEST.toList ++
    ": Test JTAG shift speed. WARNING: Do NOT connect any JTAG device.".toList ++ EOL ++
  "  ".toList ++ CMDNAME_MALLOCTEST.toList ++ ": Exercises malloc().".toList ++ EOL ++
  "  ".toList ++ CMDNAME_CPP_EXCEPTION_TEST.toList ++ ": Exercises C++ exceptions.".toList ++ EOL ++
  "  ".toList ++ CMDNAME_MEMORY_USAGE.toList ++ ": Shows memory usage.".toList ++ EOL ++
  "  ".toList ++ CMDNAME_CPU_LOAD.toList ++ EOL ++
  "  ".toList ++ CMDNAME_UPTIME.toList ++ EOL ++
  "  ".toList ++ CMDNAME_RESET.toList ++ EOL ++
  "  ".toList ++ CMDNAME_RESET_CAUSE.toList ++ EOL ++
  "  ".toList ++ CMDNAME_PRINT_MEMORY.toList ++ " <addr> <byte count>".toList ++ EOL ++
  "  ".toList ++ CMDNAME_BUSY_WAIT.toList ++ " <milliseconds>".toList ++ EOL ++
  "  ".toList ++ CMDNAME_SIMULATE_ERROR.toList ++ " <command|protocol>".toList ++ EOL

/-- The version branch (command `i`) of ProcessCommand. -/
def versionText {σ : Type} (env : Env σ) : List Char :=
  "JtagDue ".toList ++ env.PACKAGE_VERSION ++ EOL ++
  (if env.NDEBUG then "Release build" else "Debug build").toList ++
    ", compiler version ".toList ++ env.compilerVersion ++ EOL ++
  "Watchdog ".toList ++ (if env.ENABLE_WDT then "enabled" else "disabled").toList ++ EOL

/-- The reset branch of ProcessCommand, up to the call of ResetBoard, which does not
return. -/
def resetBoardCmd {σ : Type} (w : World σ) : World σ :=
  (((w.log Event.disable_irq).log
    (Event.DbgconPrintStr ("Resetting the board...".toList ++ EOL))).log
    Event.DbgconWaitForDataSent).log Event.ResetBoard

/-- The JtagShiftSpeedTest branch of ProcessCommand.  The rx buffer is reset and filled to
its capacity with test data, the data is shifted through 50 times (the pin set-up calls
are hardware accesses and leave no mark here), both buffers are reset and the throughput
is computed and printed.  `jtagShiftElapsedTime` is `finishTime - startTime`, truncated to
32 bits; the source divides by it without a check, behind the two calls of Reset: with an
elapsed time of 0 the division is undefined, the routine does not come back and nothing
is printed. -/
def jtagShiftSpeedTestCmd {σ : Type} (env : Env σ) (w : World σ) : Outcome σ :=
  let jtagByteCount := w.rx.cap % 2 ^ 32 / 2
  let bitCount := jtagByteCount * 8 % 2 ^ 16
  let iterCount := 50
  let elapsedTime := env.jtagShiftElapsedTime % 2 ^ 32
  let w1 := { w with
    rx := w.rx.Reset,
    tx := w.tx.Reset,
    calls := w.calls ++ List.replicate iterCount (Event.ShiftJtagData bitCount) }
  if elapsedTime = 0 then ⟨w1, Completion.halted⟩
  else
    let kBitsPerSec := bitCount * iterCount * 1000 / elapsedTime / 1024 % 2 ^ 32
    ⟨w1.print (EOL ++ "Finished JTAG shift speed test, throughput ".toList ++
      fmtU kBitsPerSec ++ " Kbits/s (".toList ++ fmtU (kBitsPerSec / 8) ++
      " KiB/s).".toList ++ EOL), Completion.returned⟩

/-- The MemoryUsage branch of ProcessCommand. -/
def memoryUsageText {σ : Type} (env : Env σ) : List Char :=
  let heapSize := (env.heapEndAddr + 2 ^ 32 - env.endAddr % 2 ^ 32) % 2 ^ 32
  "Partitions: malloc heap: ".toList ++ fmtU heapSize ++ " bytes, free: ".toList ++
    fmtU ((env.stackStartAddr + 2 ^ 32 - env.heapEndAddr % 2 ^ 32) % 2 ^ 32) ++
    " bytes, stack: ".toList ++ fmtU (env.STACK_SIZE % 2 ^ 32) ++ " bytes.".toList ++ EOL ++
  "Used stack (estimated): ".toList ++ fmtU (env.stackSizeUsageEstimate % 2 ^ 32) ++
    " from ".toList ++ fmtU (env.STACK_SIZE % 2 ^ 32) ++ " bytes.".toList ++ EOL ++
  "Heap: ".toList ++ fmtU (env.mallinfo_uordblks % 2 ^ 32) ++ " allocated from ".toList ++
    fmtU (env.mallinfo_arena % 2 ^ 32) ++ " bytes.".toList ++ EOL

/-- The branches of ProcessCommand, one per handler. -/
inductive Command where
  | help
  | version
  | reset
  | cpuLoad
  | uptime
  | resetCause
  | printMemory
  | busyWait
  | usbSpeedTest
  | jtagPins
  | jtagShiftSpeedTest
  | mallocTest
  | exceptionTest
  | simulateError
  | memoryUsage
deriving DecidableEq, Repr

/-- One call of IsCmd in ProcessCommand: the name, `isCaseSensitive`, `allowExtraParams`,
and the branch entered when the call returns true. -/
structure CommandEntry where
  cmdName : String
  isCaseSensitive : Bool
  allowExtraParams : Bool
  command : Command
deriving DecidableEq, Repr

/-- The calls of IsCmd in ProcessCommand, in the order of the source.  The first two stand
for `IsCmd( ..., CMDNAME_QUESTION_MARK, ... ) || IsCmd( ..., CMDNAME_HELP, ... )`. -/
def commandTable : List CommandEntry :=
  [⟨CMDNAME_QUESTION_MARK, true, false, Command.help⟩,
   ⟨CMDNAME_HELP, false, false, Command.help⟩,
   ⟨CMDNAME_I, true, false, Command.version⟩,
   ⟨CMDNAME_RESET, false, false, Command.reset⟩,
   ⟨CMDNAME_CPU_LOAD, false, false, Command.cpuLoad⟩,
   ⟨CMDNAME_UPTIME, false, false, Command.uptime⟩,
   ⟨CMDNAME_RESET_CAUSE, false, false, Command.resetCause⟩,
   ⟨CMDNAME_PRINT_MEMORY, false, true, Command.printMemory⟩,
   ⟨CMDNAME_BUSY_WAIT, false, true, Command.busyWait⟩,
   ⟨CMDNAME_USBSPEEDTEST, false, true, Command.usbSpeedTest⟩,
   ⟨CMDNAME_JTAGPINS, false, false, Command.jtagPins⟩,
   ⟨CMDNAME_JTAGSHIFTSPEEDTEST, false, false, Command.jtagShiftSpeedTest⟩,
   ⟨CMDNAME_MALLOCTEST, false, false, Command.mallocTest⟩,
   ⟨CMDNAME_CPP_EXCEPTION_TEST, false, false, Command.exceptionTest⟩,
   ⟨CMDNAME_SIMULATE_ERROR, false, true, Command.simulateError⟩,
   ⟨CMDNAME_MEMORY_USAGE, false, false, Command.memoryUsage⟩]

/-- Runs the chain of `if ( IsCmd( ... ) )` statements of ProcessCommand over the entries
that are left: the first entry for which IsCmd returns true names the branch entered;
`extraParamsFound` is handed from one call to the next and returned with the result. -/
def selectCommand (cmd cmdEnd : List Char) : List CommandEntry → Bool → Option Command × Bool
  | [], extraParamsFound => (none, extraParamsFound)
  | e :: rest, extraParamsFound =>
    let r := IsCmd cmd cmdEnd e.cmdName e.isCaseSensitive e.allowExtraParams extraParamsFound
    if r.1 then (some e.command, r.2) else selectCommand cmd cmdEnd rest r.2

/-- The body of the branch of ProcessCommand entered for a command. -/
def runCommand {σ : Type} (env : Env σ) (paramBegin : List Char) (currentTime : Nat)
    (w : World σ) : Command → Outcome σ
  | Command.help => ⟨w.print helpText, Completion.returned⟩
  | Command.version => ⟨w.print (versionText env), Completion.returned⟩
  | Command.reset => ⟨resetBoardCmd w, Completion.halted⟩
  | Command.cpuLoad =>
    if env.ENABLE_CPU_SLEEP then
      ⟨w.print ("CPU load statistics not available.".toList ++ EOL), Completion.returned⟩
    else ⟨DisplayCpuLoad env w, Completion.returned⟩
  | Command.uptime =>
    ⟨w.print ("Uptime: ".toList ++ fmtU (env.GetUptime % 2 ^ 64 / 1000) ++
      " seconds.".toList ++ EOL), Completion.returned⟩
  | Command.resetCause => ⟨DisplayResetCause env w, Completion.returned⟩
  | Command.printMemory => PrintMemory env paramBegin w
  | Command.busyWait => BusyWait env paramBegin w
  | Command.usbSpeedTest =>
    ⟨ProcessUsbSpeedTestCmd paramBegin currentTime w, Completion.returned⟩
  | Command.jtagPins => ⟨w.print env.jtagPinStatus, Completion.returned⟩
  | Command.jtagShiftSpeedTest => jtagShiftSpeedTestCmd env w
  | Command.mallocTest =>
    ⟨w.print ("Allocalling memory...".toList ++ EOL ++ "Releasing memory...".toList ++ EOL ++
      "Test finished.".toList ++ EOL), Completion.returned⟩
  | Command.exceptionTest =>
    ⟨w.print ("Throwing integer exception...".toList ++ EOL ++
      "Caught integer exception.".toList ++ EOL ++ "Test finished.".toList ++ EOL),
      Completion.returned⟩
  | Command.simulateError => SimulateError paramBegin w
  | Command.memoryUsage => ⟨w.print (memoryUsageText env), Completion.returned⟩

/-- ProcessCommand: `cmdBegin` points at the first character of the command token. -/
def ProcessCommand {σ : Type} (env : Env σ) (cmdBegin : List Char) (currentTime : Nat)
    (w : World σ) : Outcome σ :=
  let cmdEnd := SkipCharsNotInSet cmdBegin SPACE_AND_TAB
  let cmd := span cmdBegin cmdEnd
  let paramBegin := SkipCharsInSet cmdEnd SPACE_AND_TAB
  match selectCommand cmd cmdEnd commandTable false with
  | (some command, _) => runCommand env paramBegin currentTime w command
  | (none, true) =>
    ⟨w.print ("Command ".toList ++ [dquote] ++ cmd ++ [dquote] ++
      " does not take any parameters.".toList ++ EOL), Completion.returned⟩
  | (none, false) =>
    ⟨w.print ("Unknown command ".toList ++ [dquote] ++ cmd ++ [dquote] ++ ".".toList ++ EOL),
      Completion.returned⟩

/-- ParseCommand. -/
def ParseCommand {σ : Type} (env : Env σ) (cmdStr : List Char) (currentTime : Nat)
    (w : World σ) : Outcome σ :=
  let s := SkipCharsInSet cmdStr SPACE_AND_TAB
  if s ≠ [] then ProcessCommand env s currentTime w else ⟨w, Completion.returned⟩

/-! ## Speed tests -/

/-- The loop of the case stTxSimpleWithTimestamps: at most `n` more lines, none once fewer
than 40 bytes are free. -/
def timestampLoop {σ : Type} (line : List Char) : Nat → World σ → World σ
  | 0, w => w
  | n + 1, w =>
    if w.tx.GetFreeCount < 40 then w else timestampLoop line n (w.print line)

/-- The loop of the case stTxSimpleLoop: `n` calls of `WriteElem( \x27.\x27 )`. -/
def simpleLoop : Nat → CUsbBuffer → CUsbBuffer
  | 0, tx => tx
  | n + 1, tx => simpleLoop n (tx.write ['.'])

/-- The loop of the case stTxFastLoopCircularBuffer.  The source loops with `for ( ; ; )`
until GetWritePtr reports an empty span; `fuel` bounds the number of passes here.  Every
pass that does not break queues at least one byte and no more than the free count, so
the break is reached within `GetFreeCount + 1` passes, the fuel SpeedTest supplies. -/
def fastLoop {σ : Type} (env : Env σ) : Nat → CUsbBuffer → CUsbBuffer
  | 0, tx => tx
  | fuel + 1, tx =>
    let maxChunkElemCount := env.GetWritePtr tx
    if maxChunkElemCount = 0 then tx
    else fastLoop env fuel (tx.write (List.replicate maxChunkElemCount '.'))

/-- The loop of the case stTxFastLoopRawUsb: at most `n` more calls of udi_cdc_write_buf,
`i` being the loop index; the loop breaks when the call returns a remaining count of 0. -/
def rawUsbLoop {σ : Type} (env : Env σ) : Nat → Nat → World σ → World σ
  | 0, _, w => w
  | n + 1, i, w =>
    let w1 := w.log (Event.udi_cdc_write_buf 1000)
    if env.udi_cdc_write_buf i = 0 then w1 else rawUsbLoop env n (i + 1) w1

/-- SpeedTest. -/
def SpeedTest {σ : Type} (env : Env σ) (currentTime : Nat) (w0 : World σ) : World σ :=
  let w := w0.log Event.SpeedTest
  if currentTime ≥ w.s_usbSpeedTestEndTime then
    let w1 := w.print (EOL ++ "USB speed test finished.".toList ++ EOL)
    let w2 := WritePrompt w1
    { w2 with s_usbSpeedTestType := UsbSpeedTestEnum.stNone }
  else
    match w.s_usbSpeedTestType with
    | UsbSpeedTestEnum.stTxSimpleWithTimestamps =>
      timestampLoop (fmtU (currentTime % 2 ^ 32) ++ " - ".toList ++
        fmtU (w.s_usbSpeedTestEndTime % 2 ^ 32) ++ EOL) 100 w
    | UsbSpeedTestEnum.stTxSimpleLoop =>
      { w with tx := simpleLoop (w.tx.GetFreeCount % 2 ^ 32) w.tx }
    | UsbSpeedTestEnum.stTxFastLoopCircularBuffer =>
      { w with tx := fastLoop env (w.tx.GetFreeCount + 1) w.tx }
    | UsbSpeedTestEnum.stTxFastLoopRawUsb =>
      (rawUsbLoop env 1000 0 w).log Event.WakeFromMainLoopSleep
    | UsbSpeedTestEnum.stRxWithCircularBuffer =>
      let elemCount := w.rx.GetElemCount
      if elemCount ≠ 0 then { w with rx := w.rx.ConsumeReadElements elemCount } else w
    | UsbSpeedTestEnum.stNone => w

/-! ## The entry points -/

/-- ResetBusPirateConsole. -/
def ResetBusPirateConsole {σ : Type} (env : Env σ) (w : World σ) : World σ :=
  { w with
    s_binaryModeCount := 0,
    s_usbSpeedTestType := UsbSpeedTestEnum.stNone,
    s_console := env.Reset w.s_console }

/-- BusPirateConsole_Init: the welcome banner is under `if ( false )`. -/
def BusPirateConsole_Init {σ : Type} (env : Env σ) (w : World σ) : World σ :=
  ResetBusPirateConsole env w

/-- BusPirateConsole_Terminate. -/
def BusPirateConsole_Terminate {σ : Type} (env : Env σ) (w : World σ) : World σ :=
  ResetBusPirateConsole env w

/-- Modelled from the spec: `ChangeBusPirateMode` is defined outside `src/`.  The spec has
the escape counter reset to 0 "atomically with the mode change", the console state being
"cleared by an explicit reset entry point": leaving console mode runs
BusPirateConsole_Terminate; the mode entered may then queue a greeting of its own. -/
def ChangeBusPirateMode {σ : Type} (env : Env σ) (w : World σ) : World σ :=
  (BusPirateConsole_Terminate env (w.log Event.ChangeBusPirateMode)).print env.modeChangeText

/-- The statements of BusPirateConsole_ProcessData that follow a completed line `cmd`
returned by AddChar. -/
def executeLine {σ : Type} (env : Env σ) (currentTime : Nat) (cmd : List Char) (w : World σ) :
    Outcome σ :=
  let w1 := { w.print EOL with s_simulateProcolError := false }
  let r := ParseCommand env (cstr cmd) currentTime (w1.log (Event.ParseCommand (cstr cmd)))
  match r.how with
  | Completion.halted => r
  | Completion.threw what =>
    let w2 := r.world.print ("Error processing command: ".toList ++ what.toList ++ EOL)
    if w2.s_simulateProcolError then ⟨w2, Completion.threw "Simulated protocol error."⟩
    else ⟨WritePrompt w2, Completion.returned⟩
  | Completion.returned =>
    if r.world.s_simulateProcolError then
      ⟨r.world, Completion.threw "Simulated protocol error."⟩
    else ⟨WritePrompt r.world, Completion.returned⟩

/-- One pass of the body of the `for` loop of BusPirateConsole_ProcessData, from the call of
ReadElement on: `byte` is the byte read, `w` the state with that byte already taken off
the rx buffer.  The result is the outcome so far and the value of `endLoop`. -/
def loopBody {σ : Type} (env : Env σ) (currentTime : Nat) (byte : Char) (w0 : World σ) :
    Outcome σ × Bool :=
  let w := w0.log (Event.ReadElement byte)
  if byte = BIN_MODE_CHAR then
    let w1 := { w with s_binaryModeCount := (w.s_binaryModeCount + 1) % 2 ^ 32 }
    if w1.s_binaryModeCount = 20 then
      (⟨ChangeBusPirateMode env w1, Completion.returned⟩, true)
    else (⟨w1, Completion.returned⟩, false)
  else
    let w1 := { w with s_binaryModeCount := 0 }
    let r := env.AddChar w1.s_console byte w1.tx
    let w2 := ({ w1 with s_console := r.1, tx := r.2.1 }).log (Event.AddChar byte)
    match r.2.2 with
    | none => (⟨w2, Completion.returned⟩, false)
    | some cmd => (executeLine env currentTime cmd w2, true)

/-- The `for` loop of BusPirateConsole_ProcessData with `n` passes left. -/
def consoleLoop {σ : Type} (env : Env σ) (currentTime : Nat) : Nat → World σ → Outcome σ
  | 0, w => ⟨w, Completion.returned⟩
  | n + 1, w =>
    if w.rx.IsEmpty || !w.tx.IsEmpty then ⟨w, Completion.returned⟩
    else
      match w.rx.elems with
      | [] => ⟨w, Completion.returned⟩
      | byte :: rest =>
        let r := loopBody env currentTime byte { w with rx := { w.rx with elems := rest } }
        if r.2 then r.1 else consoleLoop env currentTime n r.1.world

/-- BusPirateConsole_ProcessData. -/
def BusPirateConsole_ProcessData {σ : Type} (env : Env σ) (currentTime : Nat) (w : World σ) :
    Outcome σ :=
  if w.s_usbSpeedTestType ≠ UsbSpeedTestEnum.stNone then
    let w1 := SpeedTest env currentTime w
    if w1.s_usbSpeedTestType ≠ UsbSpeedTestEnum.stNone then ⟨w1, Completion.returned⟩
    else consoleLoop env currentTime 100 w1
  else consoleLoop env currentTime 100 w

/-! ## The main loop around the entry point -/

/-- One iteration of the main loop as the console sees it: before the entry point is
called the USB layer has queued `received` in the rx buffer and has taken the `sent`
oldest bytes off the tx buffer; `currentTime` is the sampled uptime and `env` the
readings of the collaborators during the call. -/
structure Pass (σ : Type) where
  env : Env σ
  received : List Char
  sent : Nat
  currentTime : Nat

/-- The state in which the entry point is called in a pass. -/
def Pass.enter {σ : Type} (p : Pass σ) (w : World σ) : World σ :=
  { w with rx := w.rx.write p.received, tx := w.tx.ConsumeReadElements p.sent }

/-- The state after a sequence of passes.  A pass that does not come back (the board is
reset, or a division by zero ends the program) ends the sequence;
a pass that raises the simulated protocol fault leaves the state it was raised in to the
passes that follow. -/
def run {σ : Type} : List (Pass σ) → World σ → World σ
  | [], w => w
  | p :: ps, w =>
    let r := BusPirateConsole_ProcessData p.env p.currentTime (p.enter w)
    match r.how with
    | Completion.halted => r.world
    | _ => run ps r.world

/-- The bytes the console took with ReadElement, in the order in which it took them. -/
def consumed (calls : List Event) : List Char :=
  calls.filterMap (fun e => match e with
    | Event.ReadElement byte => some byte
    | _ => none)

/-- The command lines handed to ParseCommand, in order. -/
def parsed (calls : List Event) : List (List Char) :=
  calls.filterMap (fun e => match e with
    | Event.ParseCommand cmdStr => some cmdStr
    | _ => none)

/-- Modelled from the spec: the escape detection as section 4.1 words it, one byte at a
time: an escape byte increments the counter and, upon reaching 20, the mode change is
invoked and the counter is back at 0; any other byte resets the counter to 0.  The state
is the counter and the number of mode changes so far. -/
def escapeStep (s : Nat × Nat) (byte : Char) : Nat × Nat :=
  if byte = BIN_MODE_CHAR then
    if s.1 + 1 = 20 then (0, s.2 + 1) else (s.1 + 1, s.2)
  else (0, s.2)

/-- Modelled from the spec: the escape detection of section 4.1 run over a byte sequence,
starting from counter 0 and no mode change. -/
def escapeAutomaton (bytes : List Char) : Nat × Nat := bytes.foldl escapeStep (0, 0)

/-! ## A concrete environment, for evaluating the embedding on sample inputs -/

/-- Modelled from the spec: the line accumulator `CSerialConsole` is declared outside
`src/`; it "turns a stream of characters into completed command strings".  This one
completes the line at a carriage return and, when `echo` is set, echoes every other
character (line editing is left out). -/
def sampleAddChar (echo : Bool) (s : List Char) (byte : Char) (tx : CUsbBuffer) :
    List Char × CUsbBuffer × Option (List Char) :=
  if byte = Char.ofNat 13 then ([], tx, some s)
  else (s ++ [byte], if echo then tx.write [byte] else tx, none)

/-- A sample environment: the accumulator above, a tx ring whose span is all of the free
space, a USB transport that takes every block whole, and zeroed readings. -/
def sampleEnv (echo : Bool) : Env (List Char) where
  AddChar := sampleAddChar echo
  Reset := fun _ => []
  GetWritePtr := fun tx => tx.GetFreeCount
  GetWritePtr_le := fun _ => Nat.le_refl _
  udi_cdc_write_buf := fun _ => 0
  modeChangeText := "BBIO1".toList
  memory := fun _ => 0
  GetUptime := 0
  resetCause := ResetCause.general
  oneMsIterationCount := 1
  ENABLE_CPU_SLEEP := false
  ENABLE_WDT := false
  NDEBUG := true
  PACKAGE_VERSION := "1.0".toList
  compilerVersion := "4.7.3".toList
  lastMinute := fun _ => 0
  lastMinuteIndex := 0
  lastSecond := fun _ => 0
  lastSecondIndex := 0
  jtagPinStatus := []
  jtagShiftElapsedTime := 1
  heapEndAddr := 0
  endAddr := 0
  stackStartAddr := 0
  STACK_SIZE := 0
  stackSizeUsageEstimate := 0
  mallinfo_uordblks := 0
  mallinfo_arena := 0

/-- A console right after ResetBusPirateConsole, with empty buffers of the given
capacities, holding `bytes` in the rx buffer. -/
def sampleWorld (rxCap txCap : Nat) (bytes : List Char) : World (List Char) where
  rx := ⟨rxCap, bytes⟩
  tx := ⟨txCap, []⟩
  s_binaryModeCount := 0
  s_simulateProcolError := false
  s_usbSpeedTestBuffer := []
  s_usbSpeedTestEndTime := 0
  s_usbSpeedTestType := UsbSpeedTestEnum.stNone
  s_console := []
  calls := []

/-- A console with no speed test active whose accumulator already holds the characters
`line`, with a carriage return followed by `behind` at the head of the rx buffer: the next
byte read completes the command line `line`. -/
def sampleLineWorld (line behind : List Char) : World (List Char) :=
  { sampleWorld 256 256 (Char.ofNat 13 :: behind) with s_console := line }

/-! ## Vocabulary of the theorems -/

/-- Events a command handler can leave in the trace: calls made from inside
ProcessCommand.  The others are made by BusPirateConsole_ProcessData and SpeedTest. -/
def Event.fromHandler : Event → Bool
  | Event.WakeFromMainLoopSleep => true
  | Event.BusyWaitLoop _ => true
  | Event.disable_irq => true
  | Event.DbgconPrintStr _ => true
  | Event.DbgconWaitForDataSent => true
  | Event.ResetBoard => true
  | Event.readMemory _ => true
  | Event.ShiftJtagData _ => true
  | _ => false

/-- What no command handler touches: the escape counter, the line accumulator and the
capacities of the buffers stay as they are, and the trace only grows, by handler events. -/
structure Frame {σ : Type} (w w1 : World σ) : Prop where
  count : w1.s_binaryModeCount = w.s_binaryModeCount
  console : w1.s_console = w.s_console
  rxCap : w1.rx.cap = w.rx.cap
  txCap : w1.tx.cap = w.tx.cap
  calls : ∃ ext, w1.calls = w.calls ++ ext ∧ ∀ e ∈ ext, e.fromHandler = true

/-- Events the `for` loop of BusPirateConsole_ProcessData itself leaves in the trace. -/
def Event.fromLoop : Event → Bool
  | Event.ReadElement _ => true
  | Event.AddChar _ => true
  | Event.ParseCommand _ => true
  | Event.ChangeBusPirateMode => true
  | _ => false

/-- Number of calls of ChangeBusPirateMode in a trace. -/
def modeChanges (calls : List Event) : Nat := calls.count Event.ChangeBusPirateMode

/-- The branch of ProcessCommand that ParseCommand enters for a command line, if any: none
for a blank line and for a token that is rejected or unknown. -/
def commandOf (cmdStr : List Char) : Option Command :=
  let s := SkipCharsInSet cmdStr SPACE_AND_TAB
  let cmdEnd := SkipCharsNotInSet s SPACE_AND_TAB
  if s ≠ [] then (selectCommand (span s cmdEnd) cmdEnd commandTable false).1 else none

/-- The parameter region ParseCommand hands to the branch it enters. -/
def paramOf (cmdStr : List Char) : List Char :=
  SkipCharsInSet (SkipCharsNotInSet (SkipCharsInSet cmdStr SPACE_AND_TAB) SPACE_AND_TAB)
    SPACE_AND_TAB

/-- The escape counter and the number of mode changes of a console agree with the escape
detection of the spec run over the bytes the console has consumed. -/
def EscapeInv {σ : Type} (w : World σ) : Prop :=
  (w.s_binaryModeCount, modeChanges w.calls) = escapeAutomaton (consumed w.calls)

/-- A step that leaves the escape counter alone and adds no event of the console loop to
the trace. -/
def Quiet {σ : Type} (w w1 : World σ) : Prop :=
  w1.s_binaryModeCount = w.s_binaryModeCount ∧
    ∃ ext, w1.calls = w.calls ++ ext ∧ ∀ e ∈ ext, e.fromLoop = false

/-- The state after queuing `out` in the tx buffer and adding `ext` to the trace. -/
def World.touch {σ : Type} (w : World σ) (out : List Char) (ext : List Event) : World σ :=
  { w with tx := w.tx.write out, calls := w.calls ++ ext }

/-- A step that only queues output and makes handler calls: every static of the console
and the rx buffer are as before. -/
def Touched {σ : Type} (w w1 : World σ) : Prop :=
  ∃ out ext, w1 = w.touch out ext ∧ ∀ e ∈ ext, e.fromHandler = true

/-- The condition under which SimulateError, given the parameter region `p`, sets the
simulate-protocol-fault flag: the tests of the source that lead to the assignment. -/
def setsProtocolFlag (p : List Char) : Bool :=
  p ≠ [] &&
  decide (SkipCharsInSet (SkipCharsNotInSet p SPACE_AND_TAB) SPACE_AND_TAB = []) &&
  !DoesStrMatch (span p (SkipCharsNotInSet p SPACE_AND_TAB)) "command".toList false &&
  DoesStrMatch (span p (SkipCharsNotInSet p SPACE_AND_TAB)) "protocol".toList false

/-- The test type ProcessUsbSpeedTestCmd selects for the parameter region `p`: the value of
`testType` after the chain of IsCmd calls, stNone when the routine returns before it. -/
def selectedSpeedTest (p : List Char) : UsbSpeedTestEnum :=
  if p = [] then UsbSpeedTestEnum.stNone
  else (selectSpeedTest (span p (SkipCharsNotInSet p SPACE_AND_TAB))
    (SkipCharsNotInSet p SPACE_AND_TAB) speedTestTable false).1

/-- A space or a tab, the characters that separate the tokens of a command line. -/
def isBlank (c : Char) : Bool := c = ' ' || c = Char.ofNat 9

/-- Equality of two texts up to ASCII letter case. -/
def eqIgnoreCase (a b : List Char) : Prop := a.map toupper = b.map toupper

/-- The text `p` consists of exactly one token that equals `name` up to ASCII letter case,
with nothing but spaces and tabs after it. -/
def isSingleToken (p : List Char) (name : String) : Prop :=
  ∃ tok trail, p = tok ++ trail ∧ (∀ c ∈ trail, isBlank c = true) ∧
    eqIgnoreCase tok name.toList

/-- The command line is the command SimulateError with the single argument `protocol`,
both up to ASCII letter case: optional blanks, the command name, at least one blank, the
argument, optional blanks. -/
def isSimulateProtocolLine (line : List Char) : Prop :=
  ∃ lead tok sep p, line = lead ++ tok ++ sep ++ p ∧ (∀ c ∈ lead, isBlank c = true) ∧
    (∀ c ∈ sep, isBlank c = true) ∧ sep ≠ [] ∧
    eqIgnoreCase tok CMDNAME_SIMULATE_ERROR.toList ∧ isSingleToken p "protocol"

/-- Two characters agree under the comparison DoesStrMatch is asked for: they are equal when
it is case-sensitive, equal after ASCII toupper when it is not. -/
def charsAgree (isCaseSensitive : Bool) (c m : Char) : Prop :=
  if isCaseSensitive then c = m else toupper c = toupper m

/-- The command token ProcessCommand compares with the names of the table: the text from
`cmdBegin` up to the first space or tab. -/
def firstToken (cmdBegin : List Char) : List Char :=
  span cmdBegin (SkipCharsNotInSet cmdBegin SPACE_AND_TAB)

/-- What follows the first token of a text and the blanks after it: the parameter region
of ProcessCommand, and `countBegin` and `extraArgBegin` in PrintMemory and BusyWait. -/
def paramRegion (cmdBegin : List Char) : List Char :=
  SkipCharsInSet (SkipCharsNotInSet cmdBegin SPACE_AND_TAB) SPACE_AND_TAB

/-- The local `expectedOutputLen` of HexDump, a `size_t` of 32 bits. -/
def expectedOutputLen (byteCount : Nat) (endOfLineChars : List Char) : Nat :=
  (byteCount * 3 + (byteCount + 32 - 1) % 2 ^ 32 / 32 * endOfLineChars.length) % 2 ^ 32

/-- The local `actualOutputLen` of HexDump over the passes of its loop: `n` bytes are still
to be printed, `lineElemCount` groups are on the current line, `acc` is the count so far. -/
def actualOutputLenLoop (eolLen : Nat) : Nat → Nat → Nat → Nat
  | 0, _, acc => acc
  | n + 1, lineElemCount, acc =>
    let acc1 := if lineElemCount = 32 then (acc + eolLen) % 2 ^ 32 else acc
    let l1 := if lineElemCount = 32 then 0 else lineElemCount
    actualOutputLenLoop eolLen n (l1 + 1) ((acc1 + 3) % 2 ^ 32)

/-- The local `actualOutputLen` of HexDump where the final assertion reads it. -/
def actualOutputLen (byteCount : Nat) (endOfLineChars : List Char) : Nat :=
  (actualOutputLenLoop endOfLineChars.length byteCount 0 0 + endOfLineChars.length) % 2 ^ 32

/-- The hex dump as the specification words it: `byteCount` groups, group `j` being byte `j`
as two uppercase hexadecimal digits and a blank, with the end-of-line text after every
32nd group and after the last one. -/
def hexDumpSpec (byteAt : Nat → Nat) (endOfLineChars : List Char) (byteCount : Nat) :
    List Char :=
  ((List.range byteCount).map (fun j =>
    ["0123456789ABCDEF".toList.getD (byteAt j / 16) ' ',
      "0123456789ABCDEF".toList.getD (byteAt j % 16) ' ', ' '] ++
    (if (j + 1) % 32 = 0 ∨ j + 1 = byteCount then endOfLineChars else []))).flatten

/-- A character with which strtoul starts reading a number of the base: white space, a plus
sign or a digit of the base.  (ParseUnsignedIntArg looks for a minus sign itself.) -/
def startsNumber (base : Nat) (c : Char) : Bool :=
  isspace c || c == '+' || (digitValue c).any (fun d => decide (d < base))

/-- The character is a digit of the base. -/
def isDigitOf (base : Nat) (c : Char) : Bool :=
  (digitValue c).any (fun d => decide (d < base))

/-- The number a run of digits denotes in the base, most significant digit first. -/
def digitsValue (base : Nat) (ds : List Char) : Nat :=
  ds.foldl (fun acc c => acc * base + (digitValue c).getD 0) 0

/-- The token is a well-formed unsigned number that denotes `n`: a non-empty run of decimal
digits, or the prefix `0x` and a non-empty run of hexadecimal digits. -/
def denotes (tok : List Char) (n : Nat) : Prop :=
  (tok ≠ [] ∧ (∀ c ∈ tok, isDigitOf 10 c = true) ∧ digitsValue 10 tok = n) ∨
  (∃ hs, tok = '0' :: 'x' :: hs ∧ hs ≠ [] ∧ (∀ c ∈ hs, isDigitOf 16 c = true) ∧
    digitsValue 16 hs = n)

/-- The token starts with the prefix `0x`, the test ParseUnsignedIntArg makes. -/
def hasHexPrefix (tok : List Char) : Bool :=
  decide (tok.head? = some '0' ∧ tok.tail.head? = some 'x')

/-- The part of a numeric token behind the prefix `0x`, the whole token when it has none. -/
def numeralBody (tok : List Char) : List Char :=
  if hasHexPrefix tok then tok.drop 2 else tok

/-- The base in which a numeric token is written: 16 with the prefix `0x`, 10 without. -/
def numeralBase (tok : List Char) : Nat :=
  if hasHexPrefix tok then 16 else 10

/-- The text without the plus sign it starts with, if it starts with one. -/
def dropPlus (s : List Char) : List Char :=
  if s.head? = some '+' then s.tail else s

/-- The token is a well-formed unsigned number, with or without a plus sign in front of
its digits: a non-empty run of decimal digits, or the prefix `0x` and a non-empty run of
hexadecimal digits, where a `+` may stand directly in front of the run. -/
def isPlusNumeral (tok : List Char) : Bool :=
  !(dropPlus (numeralBody tok)).isEmpty &&
    (dropPlus (numeralBody tok)).all (isDigitOf (numeralBase tok))

/-- The text starts with `0x` or `0X` and a hexadecimal digit. -/
def hasSecondPrefix (s : List Char) : Bool :=
  match s with
  | z :: x :: h :: _ => z == '0' && (x == 'x' || x == 'X') && isDigitOf 16 h
  | _ => false

/-- The three shapes of a malformed numeric token for which what ParseUnsignedIntArg does
is left open: the token is the bare prefix `0x` (strtoul then reads on behind the blanks
that follow); the number, behind the prefix `0x` if there is one, starts with a white-space
character (one that is no space and no tab, of which a token has none); behind the prefix
`0x` and a plus sign, if there is one, comes a second prefix `0x` or `0X` with a
hexadecimal digit. -/
def isSlipShape (tok : List Char) : Bool :=
  (hasHexPrefix tok && (numeralBody tok).isEmpty) ||
  (numeralBody tok).head?.any isspace ||
  (hasHexPrefix tok && hasSecondPrefix (dropPlus (numeralBody tok)))

/-- The average of a load ring as the specification words it:
`sum_of_slots*100/(slot_count*255)` with integer truncation, every slot being a byte. -/
def ringAverageSpec (ring : Nat → Nat) (slotCount : Nat) : Nat :=
  ((List.range slotCount).map (fun k => ring k % 256)).sum * 100 / (slotCount * 255)

/-- The figure of one slot as the specification words it: `value*100/255` with integer
truncation. -/
def slotFigureSpec (value : Nat) : Nat := value * 100 / 255

/-- The slots of a load ring in the order the report lists them, oldest to newest: the
slot at the start index first, then onwards to the end of the ring and around to the slot
before the start index, every slot being a byte. -/
def ringOldestFirstSpec (ring : Nat → Nat) (index slotCount : Nat) : List Nat :=
  ((List.range slotCount).map (fun k => ring k % 256)).rotate index

/-- The per-slot lines of the report as the specification words them: for each slot value,
in the order given, the figure `value*100/255` right-aligned in `width` columns, then
" %" and the end of line. -/
def slotLinesSpec (values : List Nat) (width : Nat) : List Char :=
  values.flatMap (fun v => fmtUw width (slotFigureSpec v) ++ " %".toList ++ EOL)

/-! ## `Main.cpp`: the watchdog period and the tick handler -/

/-- GetWdtPeriod: `dwMs` is a `uint32_t`, and so is the shifted value. -/
def GetWdtPeriod (dwMs : Nat) : Nat :=
  if dwMs < 4 ∨ dwMs > 16000 then 0 else (dwMs <<< 8) % 2 ^ 32 / 1000

/-- The mode word `wdp_mode` Configure builds from `wdp_ms` when the watchdog is enabled:
field WDV, field WDD and the bit WDRSTEN, in a `uint32_t`. -/
def wdp_mode (wdp_ms : Nat) : Nat :=
  wdp_ms ||| (wdp_ms <<< 16) % 2 ^ 32 ||| 0x2000

/-- Calls the tick handler makes. -/
inductive TickEvent where
  | IncrementUptime
  | TriggerMainLoopIteration
deriving DecidableEq, Repr

/-- What SysTick_Handler works on: the uptime counter of 64 bits, the static
`s_mainLoopWakeUpCounter`, and the calls made so far (a ghost field). -/
structure TickState where
  uptime : Nat
  s_mainLoopWakeUpCounter : Nat
  calls : List TickEvent
deriving DecidableEq, Repr

/-- Modelled from the spec: `IncrementUptime` is defined outside `src/`; the uptime is a
"monotonic millisecond counter updated by a timer interrupt", a "64-bit millisecond
value ... incremented only by the timer interrupt": one call adds one tick. -/
def IncrementUptime (s : TickState) : TickState :=
  { s with uptime := (s.uptime + 1) % 2 ^ 64, calls := s.calls ++ [TickEvent.IncrementUptime] }

/-- The constant MAINLOOP_WAKE_UP_FACTOR of SysTick_Handler. -/
def MAINLOOP_WAKE_UP_FACTOR : Nat := 64

/-- SysTick_Handler. -/
def SysTick_Handler (s : TickState) : TickState :=
  let s1 := IncrementUptime s
  let s2 := { s1 with s_mainLoopWakeUpCounter := (s1.s_mainLoopWakeUpCounter + 1) % 2 ^ 32 }
  if 0 = s2.s_mainLoopWakeUpCounter % MAINLOOP_WAKE_UP_FACTOR then
    { s2 with
      s_mainLoopWakeUpCounter := 0,
      calls := s2.calls ++ [TickEvent.TriggerMainLoopIteration] }
  else s2

/-- The state after `k` calls of SysTick_Handler. -/
def ticks : Nat → TickState → TickState
  | 0, s => s
  | k + 1, s => SysTick_Handler (ticks k s)

/-! ## The assertions of the parsing helpers -/

/-- The assertions of DoesStrMatch on its token `[strBegin, strEnd)`: `assert( len > 0 )`
and, for the characters of the token the loop reads, `assert( c != 0 )`. -/
def DoesStrMatch_asserts (str : List Char) : Prop :=
  0 < str.length ∧ ∀ c ∈ str, c ≠ Char.ofNat 0

/-- The assertion `assert( cmdBegin != cmdEnd )` of ProcessCommand: the two pointers are
positions in one string, so they differ when what is left behind them differs in
length. -/
def ProcessCommand_assert (cmdBegin : List Char) : Prop :=
  (SkipCharsNotInSet cmdBegin SPACE_AND_TAB).length ≠ cmdBegin.length

/-- The assertion `assert( countBegin > paramBegin )` of PrintMemory, where it is reached:
behind the check of the arguments.  `countBegin` is further on in the string than
`paramBegin` when less of the string is left behind it. -/
def PrintMemory_assert (paramBegin : List Char) : Prop :=
  ¬ (paramBegin = [] ∨
      SkipCharsInSet (SkipCharsNotInSet paramBegin SPACE_AND_TAB) SPACE_AND_TAB = [] ∨
      SkipCharsInSet (SkipCharsNotInSet
        (SkipCharsInSet (SkipCharsNotInSet paramBegin SPACE_AND_TAB) SPACE_AND_TAB)
        SPACE_AND_TAB) SPACE_AND_TAB ≠ []) →
    (SkipCharsInSet (SkipCharsNotInSet paramBegin SPACE_AND_TAB) SPACE_AND_TAB).length <
      paramBegin.length

end JtagDue

/-! # Theorems -/

namespace JtagDue

theorem Frame_refl {σ : Type} (w : World σ) : Frame w w :=
  ⟨rfl, rfl, rfl, rfl, [], by simp, by simp⟩

theorem Frame_trans {σ : Type} {a b c : World σ} (h1 : Frame a b) (h2 : Frame b c) :
    Frame a c := by
  obtain ⟨e1, he1, hf1⟩ := h1.calls
  obtain ⟨e2, he2, hf2⟩ := h2.calls
  refine ⟨h2.count.trans h1.count, h2.console.trans h1.console, h2.rxCap.trans h1.rxCap,
    h2.txCap.trans h1.txCap, e1 ++ e2, by rw [he2, he1, List.append_assoc], ?_⟩
  intro e he
  rcases List.mem_append.mp he with h | h
  · exact hf1 e h
  · exact hf2 e h

theorem Frame_print {σ : Type} (w : World σ) (text : List Char) : Frame w (w.print text) :=
  ⟨rfl, rfl, rfl, rfl, [], by simp [World.print], by simp⟩

theorem Frame_log {σ : Type} (w : World σ) (e : Event) (h : e.fromHandler = true) :
    Frame w (w.log e) :=
  ⟨rfl, rfl, rfl, rfl, [e], rfl, by simpa using h⟩

theorem Frame_logs {σ : Type} (w : World σ) (es : List Event)
    (h : ∀ e ∈ es, e.fromHandler = true) : Frame w { w with calls := w.calls ++ es } :=
  ⟨rfl, rfl, rfl, rfl, es, rfl, h⟩

theorem HexDumpLoop_frame {σ : Type} (env : Env σ) (ptr : Nat) (eol : List Char) (n : Nat) :
    ∀ (i l : Nat) (w : World σ), Frame w (HexDumpLoop env ptr eol n i l w) := by
  induction n with
  | zero => intro i l w; exact Frame_refl w
  | succ n ih =>
    intro i l w
    simp only [HexDumpLoop]
    refine Frame_trans ?_ (ih _ _ _)
    refine Frame_trans ?_ (Frame_print _ _)
    refine Frame_trans ?_ (Frame_log _ _ rfl)
    split
    · exact Frame_print _ _
    · exact Frame_refl _

theorem HexDump_frame {σ : Type} (env : Env σ) (ptr n : Nat) (eol : List Char) (w : World σ) :
    Frame w (HexDump env ptr n eol w).world := by
  unfold HexDump
  simp only []
  split
  · exact Frame_refl w
  · exact Frame_trans (HexDumpLoop_frame env ptr eol n 0 0 w) (Frame_print _ _)

theorem PrintMemory_frame {σ : Type} (env : Env σ) (p : List Char) (w : World σ) :
    Frame w (PrintMemory env p w).world := by
  unfold PrintMemory
  simp only []
  split
  · exact Frame_print _ _
  · split
    · exact Frame_refl w
    · split
      · exact Frame_refl w
      · split
        · exact Frame_print _ _
        · exact HexDump_frame env _ _ _ w

theorem BusyWait_frame {σ : Type} (env : Env σ) (p : List Char) (w : World σ) :
    Frame w (BusyWait env p w).world := by
  unfold BusyWait
  simp only []
  split
  · exact Frame_print _ _
  · split
    · exact Frame_refl w
    · split
      · exact Frame_print _ _
      · refine Frame_trans (Frame_logs w _ ?_) (Frame_print _ _)
        intro e he
        rw [List.eq_of_mem_replicate he]
        rfl

theorem armSpeedTest_frame {σ : Type} (k : UsbSpeedTestEnum) (t : Nat) (w : World σ) :
    Frame w (armSpeedTest k t w) :=
  ⟨rfl, rfl, rfl, rfl, [Event.WakeFromMainLoopSleep], rfl, by simp [Event.fromHandler]⟩

theorem ProcessUsbSpeedTestCmd_frame {σ : Type} (p : List Char) (t : Nat) (w : World σ) :
    Frame w (ProcessUsbSpeedTestCmd p t w) := by
  unfold ProcessUsbSpeedTestCmd
  simp only []
  split
  · exact Frame_print _ _
  · split
    · exact armSpeedTest_frame _ _ _
    · split <;> exact Frame_print _ _

theorem SimulateError_frame {σ : Type} (p : List Char) (w : World σ) :
    Frame w (SimulateError p w).world := by
  unfold SimulateError
  simp only []
  split
  · exact Frame_print _ _
  · split
    · exact Frame_print _ _
    · split
      · exact Frame_refl w
      · split
        · exact ⟨rfl, rfl, rfl, rfl, [], by simp, by simp⟩
        · exact Frame_print _ _

theorem jtagShiftSpeedTestCmd_frame {σ : Type} (env : Env σ) (w : World σ) :
    Frame w (jtagShiftSpeedTestCmd env w).world := by
  unfold jtagShiftSpeedTestCmd
  simp only []
  split
  all_goals
    refine ⟨rfl, rfl, rfl, rfl, _, rfl, ?_⟩
    intro e he
    rw [List.eq_of_mem_replicate he]
    rfl

theorem jtagShiftSpeedTestCmd_rx {σ : Type} (env : Env σ) (w : World σ) :
    (jtagShiftSpeedTestCmd env w).world.rx = w.rx.Reset := by
  unfold jtagShiftSpeedTestCmd
  simp only []
  split <;> rfl

theorem jtagShiftSpeedTestCmd_flag {σ : Type} (env : Env σ) (w : World σ) :
    (jtagShiftSpeedTestCmd env w).world.s_simulateProcolError = w.s_simulateProcolError := by
  unfold jtagShiftSpeedTestCmd
  simp only []
  split <;> rfl

theorem jtagShiftSpeedTestCmd_not_threw {σ : Type} (env : Env σ) (w : World σ)
    (what : String) : (jtagShiftSpeedTestCmd env w).how ≠ Completion.threw what := by
  unfold jtagShiftSpeedTestCmd
  simp only []
  split <;> exact fun h => Completion.noConfusion h

theorem jtagShiftSpeedTestCmd_how {σ : Type} (env : Env σ) (w : World σ) :
    (jtagShiftSpeedTestCmd env w).how =
      if env.jtagShiftElapsedTime % 2 ^ 32 = 0 then Completion.halted
      else Completion.returned := by
  unfold jtagShiftSpeedTestCmd
  simp only []
  split <;> rfl

theorem resetBoardCmd_frame {σ : Type} (w : World σ) : Frame w (resetBoardCmd w) :=
  ⟨rfl, rfl, rfl, rfl, _, by simp [resetBoardCmd, World.log, List.append_assoc]; rfl, by
    intro e he
    simp at he
    rcases he with h | h | h | h <;> subst h <;> rfl⟩

theorem runCommand_frame {σ : Type} (env : Env σ) (p : List Char) (t : Nat) (w : World σ)
    (c : Command) : Frame w (runCommand env p t w c).world := by
  cases c <;> simp only [runCommand]
  case reset => exact resetBoardCmd_frame w
  case cpuLoad =>
    split
    · exact Frame_print _ _
    · exact Frame_trans (Frame_trans (Frame_trans (Frame_trans (Frame_trans (Frame_print _ _)
        (Frame_print _ _)) (Frame_print _ _)) (Frame_print _ _)) (Frame_print _ _))
        (Frame_print _ _)
  case resetCause =>
    exact Frame_trans (Frame_trans (Frame_print _ _) (Frame_print _ _)) (Frame_print _ _)
  case printMemory => exact PrintMemory_frame env p w
  case busyWait => exact BusyWait_frame env p w
  case usbSpeedTest => exact ProcessUsbSpeedTestCmd_frame p t w
  case jtagShiftSpeedTest => exact jtagShiftSpeedTestCmd_frame env w
  case simulateError => exact SimulateError_frame p w
  all_goals exact Frame_print _ _

theorem ProcessCommand_frame {σ : Type} (env : Env σ) (cmdBegin : List Char) (t : Nat)
    (w : World σ) : Frame w (ProcessCommand env cmdBegin t w).world := by
  unfold ProcessCommand
  simp only []
  split
  · exact runCommand_frame env _ t w _
  · exact Frame_print _ _
  · exact Frame_print _ _

theorem ParseCommand_frame {σ : Type} (env : Env σ) (cmdStr : List Char) (t : Nat)
    (w : World σ) : Frame w (ParseCommand env cmdStr t w).world := by
  unfold ParseCommand
  simp only []
  split
  · exact ProcessCommand_frame env _ t w
  · exact Frame_refl w

theorem consoleLoop_induct {σ : Type} (env : Env σ) (t : Nat)
    (P : Nat → World σ → Outcome σ → Prop)
    (hstop : ∀ n w, P n w ⟨w, Completion.returned⟩)
    (hstep : ∀ n w byte rest, w.rx.elems = byte :: rest → w.tx.elems = [] →
      (∀ r, r = loopBody env t byte { w with rx := { w.rx with elems := rest } } →
        (r.2 = true → P (n + 1) w r.1) ∧
        (r.2 = false → ∀ o, P n r.1.world o → P (n + 1) w o))) :
    ∀ n w, P n w (consoleLoop env t n w) := by
  intro n
  induction n with
  | zero => intro w; exact hstop 0 w
  | succ n ih =>
    intro w
    rw [consoleLoop]
    split
    · exact hstop _ w
    · rename_i hc
      split
      · exact hstop _ w
      · rename_i byte rest hrx
        have htx : w.tx.elems = [] := by
          simp [CUsbBuffer.IsEmpty, hrx] at hc
          exact hc
        have h := hstep n w byte rest hrx htx _ rfl
        simp only []
        split
        · rename_i h2; exact h.1 h2
        · rename_i h2
          exact h.2 (by simpa using h2) _ (ih _)

theorem print_print {σ : Type} (w : World σ) (a b : List Char) :
    (w.print a).print b = w.print (a ++ b) := by
  simp [World.print, CUsbBuffer.write, List.append_assoc]

theorem print_nil {σ : Type} (w : World σ) : w.print [] = w := by
  simp [World.print, CUsbBuffer.write]

theorem timestampLoop_eq {σ : Type} (line : List Char) (n : Nat) :
    ∀ w : World σ, ∃ out, timestampLoop line n w = w.print out := by
  induction n with
  | zero => intro w; exact ⟨[], (print_nil w).symm⟩
  | succ n ih =>
    intro w
    rw [timestampLoop]
    split
    · exact ⟨[], (print_nil w).symm⟩
    · obtain ⟨out, h⟩ := ih (w.print line)
      exact ⟨line ++ out, by rw [h, print_print]⟩

theorem rawUsbLoop_eq {σ : Type} (env : Env σ) (n : Nat) :
    ∀ (i : Nat) (w : World σ), ∃ k, rawUsbLoop env n i w =
      { w with calls := w.calls ++ List.replicate k (Event.udi_cdc_write_buf 1000) } := by
  induction n with
  | zero => intro i w; exact ⟨0, by simp [rawUsbLoop]⟩
  | succ n ih =>
    intro i w
    rw [rawUsbLoop]
    split
    · exact ⟨1, by simp [World.log]⟩
    · obtain ⟨k, h⟩ := ih (i + 1) (w.log (Event.udi_cdc_write_buf 1000))
      refine ⟨k + 1, ?_⟩
      rw [h]
      simp [World.log, List.replicate_succ]

/-- What a pass of an active speed test before its end time does: a shape that fixes
every static of the console and lets only the buffers and the trace move. -/
theorem SpeedTest_running {σ : Type} (env : Env σ) (t : Nat) (w : World σ)
    (htime : t < w.s_usbSpeedTestEndTime) :
    ∃ rx tx ext, SpeedTest env t w =
      { w with rx := rx, tx := tx, calls := w.calls ++ Event.SpeedTest :: ext } ∧
      ∀ e ∈ ext, e = Event.udi_cdc_write_buf 1000 ∨ e = Event.WakeFromMainLoopSleep := by
  unfold SpeedTest
  simp only [World.log]
  rw [if_neg (by simpa using htime)]
  split
  · obtain ⟨out, h⟩ := timestampLoop_eq (fmtU (t % 2 ^ 32) ++ " - ".toList ++
      fmtU (w.s_usbSpeedTestEndTime % 2 ^ 32) ++ EOL) 100
      ({ w with calls := w.calls ++ [Event.SpeedTest] } : World σ)
    refine ⟨w.rx, w.tx.write out, [], ?_, by simp⟩
    simp only [] at h
    rw [h]
    simp [World.print]
  · exact ⟨w.rx, _, [], rfl, by simp⟩
  · exact ⟨w.rx, _, [], rfl, by simp⟩
  · obtain ⟨k, h⟩ := rawUsbLoop_eq env 1000 0
      ({ w with calls := w.calls ++ [Event.SpeedTest] } : World σ)
    refine ⟨w.rx, w.tx, List.replicate k (Event.udi_cdc_write_buf 1000) ++
      [Event.WakeFromMainLoopSleep], ?_, ?_⟩
    · rw [h]; simp
    · intro e he
      rcases List.mem_append.mp he with h1 | h1
      · exact Or.inl (List.eq_of_mem_replicate h1)
      · exact Or.inr (by simpa using h1)
  · split
    · exact ⟨_, w.tx, [], rfl, by simp⟩
    · exact ⟨w.rx, w.tx, [], rfl, by simp⟩
  · exact ⟨w.rx, w.tx, [], rfl, by simp⟩

/-- What the pass of a speed test at or after its end time does. -/
theorem SpeedTest_finished {σ : Type} (env : Env σ) (t : Nat) (w : World σ)
    (htime : w.s_usbSpeedTestEndTime ≤ t) :
    SpeedTest env t w =
      { w with
        tx := w.tx.write (EOL ++ "USB speed test finished.".toList ++ EOL ++ ">".toList),
        s_usbSpeedTestType := UsbSpeedTestEnum.stNone,
        calls := w.calls ++ [Event.SpeedTest] } := by
  unfold SpeedTest
  simp only [World.log]
  rw [if_pos (by simpa using htime)]
  simp [WritePrompt, World.print, CUsbBuffer.write, List.append_assoc]

/-- C4. Backpressure: when no speed test is active and the tx buffer is not empty at
entry, BusPirateConsole_ProcessData returns with the whole state as it found it: no byte
has left the rx buffer, nothing was queued in the tx buffer, the trace of calls has not
grown (no byte read, no character handed to the accumulator, no command parsed), and the
escape counter, the accumulator and the speed-test session are untouched. -/
theorem C4_backpressure {σ : Type} (env : Env σ) (currentTime : Nat) (w : World σ)
    (hnone : w.s_usbSpeedTestType = UsbSpeedTestEnum.stNone)
    (htx : w.tx.IsEmpty = false) :
    BusPirateConsole_ProcessData env currentTime w = ⟨w, Completion.returned⟩ := by
  unfold BusPirateConsole_ProcessData
  rw [if_neg (by simp [hnone])]
  rw [consoleLoop]
  rw [if_pos (by simp [htx])]

theorem C4_backpressure_witness :
    BusPirateConsole_ProcessData (sampleEnv true) 7
        { sampleWorld 64 64 "i".toList with tx := ⟨64, "i".toList⟩ } =
      ⟨{ sampleWorld 64 64 "i".toList with tx := ⟨64, "i".toList⟩ }, Completion.returned⟩ :=
  C4_backpressure (sampleEnv true) 7 _ rfl rfl

/-- C7. Speed tests have exclusive use of the iteration: when a speed test is active at
entry and `currentTime` is below its end time, BusPirateConsole_ProcessData returns with
exactly the state SpeedTest leaves, so the escape counter, the line accumulator, the
simulate-protocol-fault flag, the test kind, the end time and the scratch buffer are
unchanged, and the calls added to the trace are the entry into SpeedTest followed by
calls of the USB transport and wake-up requests only: no byte is read by the console
loop, no character reaches the accumulator and no command is parsed. -/
theorem C7_speed_test_exclusive {σ : Type} (env : Env σ) (currentTime : Nat) (w : World σ)
    (hactive : w.s_usbSpeedTestType ≠ UsbSpeedTestEnum.stNone)
    (htime : currentTime < w.s_usbSpeedTestEndTime) :
    BusPirateConsole_ProcessData env currentTime w =
        ⟨SpeedTest env currentTime w, Completion.returned⟩ ∧
      (SpeedTest env currentTime w).s_binaryModeCount = w.s_binaryModeCount ∧
      (SpeedTest env currentTime w).s_console = w.s_console ∧
      (SpeedTest env currentTime w).s_simulateProcolError = w.s_simulateProcolError ∧
      (SpeedTest env currentTime w).s_usbSpeedTestType = w.s_usbSpeedTestType ∧
      (SpeedTest env currentTime w).s_usbSpeedTestEndTime = w.s_usbSpeedTestEndTime ∧
      (SpeedTest env currentTime w).s_usbSpeedTestBuffer = w.s_usbSpeedTestBuffer ∧
      ∃ ext, (SpeedTest env currentTime w).calls = w.calls ++ Event.SpeedTest :: ext ∧
        ∀ e ∈ ext, e = Event.udi_cdc_write_buf 1000 ∨ e = Event.WakeFromMainLoopSleep := by
  obtain ⟨rx, tx, ext, h, hext⟩ := SpeedTest_running env currentTime w htime
  refine ⟨?_, ?_, ?_, ?_, ?_, ?_, ?_, ext, ?_, hext⟩
  · unfold BusPirateConsole_ProcessData
    rw [if_pos hactive]
    simp only []
    rw [if_pos]
    rw [h]
    exact hactive
  all_goals rw [h]

theorem C7_speed_test_exclusive_witness :
    BusPirateConsole_ProcessData (sampleEnv true) 10
        { sampleWorld 64 8 "help".toList with
          s_usbSpeedTestType := UsbSpeedTestEnum.stTxSimpleLoop,
          s_usbSpeedTestEndTime := 5000 } =
      ⟨SpeedTest (sampleEnv true) 10
        { sampleWorld 64 8 "help".toList with
          s_usbSpeedTestType := UsbSpeedTestEnum.stTxSimpleLoop,
          s_usbSpeedTestEndTime := 5000 }, Completion.returned⟩ :=
  (C7_speed_test_exclusive (sampleEnv true) 10
    { sampleWorld 64 8 "help".toList with
      s_usbSpeedTestType := UsbSpeedTestEnum.stTxSimpleLoop,
      s_usbSpeedTestEndTime := 5000 } (by decide) (by decide)).1

theorem fromLoop_of_fromHandler (e : Event) (h : e.fromHandler = true) : e.fromLoop = false := by
  cases e <;> first | rfl | exact Bool.noConfusion h

theorem consumed_append (a b : List Event) : consumed (a ++ b) = consumed a ++ consumed b := by
  simp [consumed, List.filterMap_append]

theorem parsed_append (a b : List Event) : parsed (a ++ b) = parsed a ++ parsed b := by
  simp [parsed, List.filterMap_append]

theorem modeChanges_append (a b : List Event) :
    modeChanges (a ++ b) = modeChanges a + modeChanges b := by
  simp [modeChanges, List.count_append]

theorem consumed_quiet (ext : List Event) (h : ∀ e ∈ ext, e.fromLoop = false) :
    consumed ext = [] := by
  unfold consumed
  rw [List.filterMap_eq_nil_iff]
  intro e he
  have := h e he
  cases e <;> first | rfl | exact Bool.noConfusion this

theorem parsed_quiet (ext : List Event) (h : ∀ e ∈ ext, e.fromLoop = false) :
    parsed ext = [] := by
  unfold parsed
  rw [List.filterMap_eq_nil_iff]
  intro e he
  have := h e he
  cases e <;> first | rfl | exact Bool.noConfusion this

theorem modeChanges_quiet (ext : List Event) (h : ∀ e ∈ ext, e.fromLoop = false) :
    modeChanges ext = 0 := by
  unfold modeChanges
  rw [List.count_eq_zero]
  intro hm
  have := h _ hm
  simp [Event.fromLoop] at this

theorem Quiet_refl {σ : Type} (w : World σ) : Quiet w w :=
  ⟨rfl, [], by simp, by simp⟩

theorem Quiet_trans {σ : Type} {a b c : World σ} (h1 : Quiet a b) (h2 : Quiet b c) :
    Quiet a c := by
  obtain ⟨c1, e1, he1, hf1⟩ := h1
  obtain ⟨c2, e2, he2, hf2⟩ := h2
  refine ⟨c2.trans c1, e1 ++ e2, by rw [he2, he1, List.append_assoc], ?_⟩
  intro e he
  rcases List.mem_append.mp he with h | h
  · exact hf1 e h
  · exact hf2 e h

theorem Quiet.of_frame {σ : Type} {w w1 : World σ} (h : Frame w w1) : Quiet w w1 := by
  obtain ⟨ext, he, hf⟩ := h.calls
  exact ⟨h.count, ext, he, fun e hm => fromLoop_of_fromHandler e (hf e hm)⟩

theorem Quiet.consumed {σ : Type} {w w1 : World σ} (h : Quiet w w1) :
    consumed w1.calls = consumed w.calls := by
  obtain ⟨_, ext, he, hf⟩ := h
  rw [he, consumed_append, consumed_quiet ext hf, List.append_nil]

theorem Quiet.parsed {σ : Type} {w w1 : World σ} (h : Quiet w w1) :
    parsed w1.calls = parsed w.calls := by
  obtain ⟨_, ext, he, hf⟩ := h
  rw [he, parsed_append, parsed_quiet ext hf, List.append_nil]

theorem Quiet.modeChanges {σ : Type} {w w1 : World σ} (h : Quiet w w1) :
    modeChanges w1.calls = modeChanges w.calls := by
  obtain ⟨_, ext, he, hf⟩ := h
  rw [he, modeChanges_append, modeChanges_quiet ext hf, Nat.add_zero]

theorem Quiet.escapeInv {σ : Type} {w w1 : World σ} (h : Quiet w w1) (hi : EscapeInv w) :
    EscapeInv w1 := by
  unfold EscapeInv at *
  rw [h.consumed, h.modeChanges, h.1]
  exact hi

theorem Quiet.not_mem {σ : Type} {w w1 : World σ} (h : Quiet w w1) (e : Event)
    (he : e.fromLoop = true) (hn : e ∉ w.calls) : e ∉ w1.calls := by
  obtain ⟨_, ext, hc, hf⟩ := h
  rw [hc]
  intro hm
  rcases List.mem_append.mp hm with h1 | h1
  · exact hn h1
  · have := hf e h1
    rw [he] at this
    exact Bool.noConfusion this

theorem SpeedTest_quiet {σ : Type} (env : Env σ) (t : Nat) (w : World σ) :
    Quiet w (SpeedTest env t w) := by
  by_cases htime : t < w.s_usbSpeedTestEndTime
  · obtain ⟨rx, tx, ext, h, hext⟩ := SpeedTest_running env t w htime
    rw [h]
    refine ⟨rfl, _, rfl, ?_⟩
    intro e he
    rcases List.mem_cons.mp he with h1 | h1
    · subst h1; rfl
    · rcases hext e h1 with h2 | h2 <;> subst h2 <;> rfl
  · rw [SpeedTest_finished env t w (Nat.le_of_not_lt htime)]
    exact ⟨rfl, _, rfl, by simp [Event.fromLoop]⟩

theorem enter_quiet {σ : Type} (p : Pass σ) (w : World σ) : Quiet w (p.enter w) :=
  ⟨rfl, [], by simp [Pass.enter], by simp⟩

/-! ### The escape detection of the spec -/

theorem escapeAutomaton_snoc (l : List Char) (b : Char) :
    escapeAutomaton (l ++ [b]) = escapeStep (escapeAutomaton l) b := by
  simp [escapeAutomaton, List.foldl_append]

theorem escapeAutomaton_lt (l : List Char) : (escapeAutomaton l).1 < 20 := by
  induction l using List.reverseRecOn with
  | nil => simp [escapeAutomaton]
  | append_singleton l b ih =>
    rw [escapeAutomaton_snoc]
    unfold escapeStep
    split
    · split
      · simp
      · simp only []; omega
    · simp

theorem escapeAutomaton_suffix (l : List Char) :
    List.replicate (escapeAutomaton l).1 BIN_MODE_CHAR <:+ l := by
  induction l using List.reverseRecOn with
  | nil => simp [escapeAutomaton]
  | append_singleton l b ih =>
    rw [escapeAutomaton_snoc]
    unfold escapeStep
    split
    · rename_i hb
      subst hb
      split
      · simp
      · simp only []
        obtain ⟨pre, hpre⟩ := ih
        refine ⟨pre, ?_⟩
        rw [List.replicate_succ', ← List.append_assoc, hpre]
    · simp

theorem escapeAutomaton_switch (l : List Char) (h : 0 < (escapeAutomaton l).2) :
    List.replicate 20 BIN_MODE_CHAR <:+: l := by
  induction l using List.reverseRecOn with
  | nil => simp [escapeAutomaton] at h
  | append_singleton l b ih =>
    rw [escapeAutomaton_snoc] at h
    unfold escapeStep at h
    split at h
    · rename_i hb
      subst hb
      split at h
      · rename_i h20
        obtain ⟨pre, hpre⟩ := escapeAutomaton_suffix l
        refine ⟨pre, [], ?_⟩
        have h19 : (escapeAutomaton l).1 = 19 := by omega
        rw [h19] at hpre
        rw [List.append_nil, ← hpre, List.append_assoc]
        rfl
      · obtain ⟨a, c, hac⟩ := ih h
        exact ⟨a, c ++ [BIN_MODE_CHAR], by rw [← hac]; simp [List.append_assoc]⟩
    · obtain ⟨a, c, hac⟩ := ih h
      exact ⟨a, c ++ [b], by rw [← hac]; simp [List.append_assoc]⟩

/-- The trace and the statics that executeLine leaves: one ParseCommand event followed by
handler events; the escape counter and the accumulator are not touched. -/
theorem executeLine_shape {σ : Type} (env : Env σ) (t : Nat) (cmd : List Char) (w : World σ) :
    (executeLine env t cmd w).world.s_binaryModeCount = w.s_binaryModeCount ∧
    (executeLine env t cmd w).world.s_console = w.s_console ∧
    ∃ ext, (executeLine env t cmd w).world.calls =
        w.calls ++ Event.ParseCommand (cstr cmd) :: ext ∧
      ∀ e ∈ ext, e.fromHandler = true := by
  have hf := ParseCommand_frame env (cstr cmd) t
    (({ w.print EOL with s_simulateProcolError := false } : World σ).log
      (Event.ParseCommand (cstr cmd)))
  unfold executeLine
  simp only []
  generalize ParseCommand env (cstr cmd) t
    (({ w.print EOL with s_simulateProcolError := false } : World σ).log
      (Event.ParseCommand (cstr cmd))) = r at hf
  obtain ⟨ext, hc, hh⟩ := hf.calls
  have hcount := hf.count
  have hcons := hf.console
  have hcalls : r.world.calls = w.calls ++ Event.ParseCommand (cstr cmd) :: ext := by
    rw [hc]; simp [World.log, World.print]
  split
  · exact ⟨hcount, hcons, ext, hcalls, hh⟩
  · split
    · exact ⟨hcount, hcons, ext, hcalls, hh⟩
    · exact ⟨hcount, hcons, ext, hcalls, hh⟩
  · split
    · exact ⟨hcount, hcons, ext, hcalls, hh⟩
    · exact ⟨hcount, hcons, ext, hcalls, hh⟩

/-- The loop body for an escape byte that does not complete the sequence. -/
theorem loopBody_escape {σ : Type} (env : Env σ) (t : Nat) (w : World σ)
    (h : (w.s_binaryModeCount + 1) % 2 ^ 32 ≠ 20) :
    loopBody env t BIN_MODE_CHAR w =
      (⟨{ w with s_binaryModeCount := (w.s_binaryModeCount + 1) % 2 ^ 32,
                 calls := w.calls ++ [Event.ReadElement BIN_MODE_CHAR] },
        Completion.returned⟩, false) := by
  unfold loopBody
  simp only [World.log, if_true]
  rw [if_neg h]

/-- The loop body for the escape byte that completes the sequence. -/
theorem loopBody_switch {σ : Type} (env : Env σ) (t : Nat) (w : World σ)
    (h : (w.s_binaryModeCount + 1) % 2 ^ 32 = 20) :
    loopBody env t BIN_MODE_CHAR w =
      (⟨{ w with
          tx := w.tx.write env.modeChangeText,
          s_binaryModeCount := 0,
          s_usbSpeedTestType := UsbSpeedTestEnum.stNone,
          s_console := env.Reset w.s_console,
          calls := w.calls ++ [Event.ReadElement BIN_MODE_CHAR, Event.ChangeBusPirateMode] },
        Completion.returned⟩, true) := by
  unfold loopBody
  simp only [World.log, if_true]
  rw [if_pos h]
  simp [ChangeBusPirateMode, BusPirateConsole_Terminate, ResetBusPirateConsole, World.log,
    World.print]

/-- The loop body for a byte that is not the escape byte. -/
theorem loopBody_other {σ : Type} (env : Env σ) (t : Nat) (byte : Char) (w : World σ)
    (h : byte ≠ BIN_MODE_CHAR) :
    loopBody env t byte w =
      match (env.AddChar w.s_console byte w.tx).2.2 with
      | none =>
        (⟨{ w with
            tx := (env.AddChar w.s_console byte w.tx).2.1,
            s_binaryModeCount := 0,
            s_console := (env.AddChar w.s_console byte w.tx).1,
            calls := w.calls ++ [Event.ReadElement byte, Event.AddChar byte] },
          Completion.returned⟩, false)
      | some cmd =>
        (executeLine env t cmd
          { w with
            tx := (env.AddChar w.s_console byte w.tx).2.1,
            s_binaryModeCount := 0,
            s_console := (env.AddChar w.s_console byte w.tx).1,
            calls := w.calls ++ [Event.ReadElement byte, Event.AddChar byte] }, true) := by
  unfold loopBody
  simp only [World.log]
  rw [if_neg h]
  split <;> rename_i hm <;> simp [hm]

theorem loopBody_escapeInv {σ : Type} (env : Env σ) (t : Nat) (byte : Char) (w : World σ)
    (hi : EscapeInv w) : EscapeInv (loopBody env t byte w).1.world := by
  unfold EscapeInv at hi
  have hlt := escapeAutomaton_lt (consumed w.calls)
  have h1 : w.s_binaryModeCount = (escapeAutomaton (consumed w.calls)).1 := by rw [← hi]
  have h2 : modeChanges w.calls = (escapeAutomaton (consumed w.calls)).2 := by rw [← hi]
  by_cases hb : byte = BIN_MODE_CHAR
  · subst hb
    by_cases h20 : (w.s_binaryModeCount + 1) % 2 ^ 32 = 20
    · rw [loopBody_switch env t w h20]
      unfold EscapeInv
      simp only [consumed_append, modeChanges_append]
      have : consumed [Event.ReadElement BIN_MODE_CHAR, Event.ChangeBusPirateMode] =
          [BIN_MODE_CHAR] := rfl
      rw [this, escapeAutomaton_snoc]
      have hm : modeChanges [Event.ReadElement BIN_MODE_CHAR, Event.ChangeBusPirateMode] = 1 :=
        by decide
      rw [hm]
      unfold escapeStep
      rw [if_pos rfl, if_pos (by omega), h2]
    · rw [loopBody_escape env t w h20]
      unfold EscapeInv
      simp only [consumed_append, modeChanges_append]
      have : consumed [Event.ReadElement BIN_MODE_CHAR] = [BIN_MODE_CHAR] := rfl
      rw [this, escapeAutomaton_snoc]
      have hm : modeChanges [Event.ReadElement BIN_MODE_CHAR] = 0 := by decide
      rw [hm]
      unfold escapeStep
      rw [if_pos rfl, if_neg (by omega), h2]
      have : (w.s_binaryModeCount + 1) % 2 ^ 32 = (escapeAutomaton (consumed w.calls)).1 + 1 := by
        omega
      rw [this]
      rfl
  · rw [loopBody_other env t byte w hb]
    have hstep : escapeStep (escapeAutomaton (consumed w.calls)) byte =
        (0, modeChanges w.calls) := by
      unfold escapeStep
      rw [if_neg hb, h2]
    split
    · unfold EscapeInv
      simp only [consumed_append, modeChanges_append]
      have : consumed [Event.ReadElement byte, Event.AddChar byte] = [byte] := rfl
      rw [this, escapeAutomaton_snoc, hstep]
      have hm : modeChanges [Event.ReadElement byte, Event.AddChar byte] = 0 := by
        simp [modeChanges]
      rw [hm]
      rfl
    · rename_i cmd _
      obtain ⟨hc, _, ext, hcalls, hh⟩ := executeLine_shape env t cmd
        ({ w with
            tx := (env.AddChar w.s_console byte w.tx).2.1,
            s_binaryModeCount := 0,
            s_console := (env.AddChar w.s_console byte w.tx).1,
            calls := w.calls ++ [Event.ReadElement byte, Event.AddChar byte] } : World σ)
      unfold EscapeInv
      simp only [] at hcalls hc ⊢
      rw [hcalls, hc]
      have hq : ∀ e ∈ ext, e.fromLoop = false := fun e he => fromLoop_of_fromHandler e (hh e he)
      simp only [consumed_append, modeChanges_append]
      have c1 : consumed [Event.ReadElement byte, Event.AddChar byte] = [byte] := rfl
      have c2 : consumed (Event.ParseCommand (cstr cmd) :: ext) = [] := by
        have : consumed (Event.ParseCommand (cstr cmd) :: ext) = consumed ext := rfl
        rw [this, consumed_quiet ext hq]
      have m1 : modeChanges [Event.ReadElement byte, Event.AddChar byte] = 0 := by
        simp [modeChanges]
      have m2 : modeChanges (Event.ParseCommand (cstr cmd) :: ext) = 0 := by
        have : modeChanges (Event.ParseCommand (cstr cmd) :: ext) = modeChanges ext := by
          simp [modeChanges]
        rw [this, modeChanges_quiet ext hq]
      rw [c1, c2, m1, m2, List.append_nil, escapeAutomaton_snoc, hstep]
      rfl

theorem consoleLoop_invariant {σ : Type} (I : World σ → Prop)
    (hq : ∀ w w1, Quiet w w1 → I w → I w1)
    (hb : ∀ env t byte w, I w → I (loopBody env t byte w).1.world)
    (env : Env σ) (t n : Nat) (w : World σ) (hi : I w) : I (consoleLoop env t n w).world := by
  refine consoleLoop_induct env t (fun _ w o => I w → I o.world) ?_ ?_ n w hi
  · intro _ w h; exact h
  · intro n w byte rest _ _ r hr
    have hw : I w → I ({ w with rx := { w.rx with elems := rest } } : World σ) :=
      hq w _ ⟨rfl, [], by simp, by simp⟩
    constructor
    · intro _ h
      rw [hr]
      exact hb env t byte _ (hw h)
    · intro _ o ho h
      apply ho
      rw [hr]
      exact hb env t byte _ (hw h)

theorem ProcessData_invariant {σ : Type} (I : World σ → Prop)
    (hq : ∀ w w1, Quiet w w1 → I w → I w1)
    (hb : ∀ env t byte w, I w → I (loopBody env t byte w).1.world)
    (env : Env σ) (t : Nat) (w : World σ) (hi : I w) :
    I (BusPirateConsole_ProcessData env t w).world := by
  unfold BusPirateConsole_ProcessData
  have hs := hq w _ (SpeedTest_quiet env t w) hi
  split
  · simp only []
    split
    · exact hs
    · exact consoleLoop_invariant I hq hb env t 100 _ hs
  · exact consoleLoop_invariant I hq hb env t 100 _ hi

theorem run_invariant {σ : Type} (I : World σ → Prop)
    (hq : ∀ w w1, Quiet w w1 → I w → I w1)
    (hb : ∀ env t byte w, I w → I (loopBody env t byte w).1.world)
    (passes : List (Pass σ)) : ∀ w, I w → I (run passes w) := by
  induction passes with
  | nil => intro w h; exact h
  | cons p ps ih =>
    intro w h
    have h1 := ProcessData_invariant I hq hb p.env p.currentTime (p.enter w)
      (hq w _ (enter_quiet p w) h)
    rw [run]
    split
    · exact h1
    · exact ih _ h1

theorem run_escapeInv {σ : Type} (passes : List (Pass σ)) (w : World σ) (hi : EscapeInv w) :
    EscapeInv (run passes w) :=
  run_invariant EscapeInv (fun _ _ h => h.escapeInv)
    (fun env t byte w h => loopBody_escapeInv env t byte w h) passes w hi

theorem loopBody_no_escape_to_accumulator {σ : Type} (env : Env σ) (t : Nat) (byte : Char)
    (w : World σ) (hi : Event.AddChar BIN_MODE_CHAR ∉ w.calls) :
    Event.AddChar BIN_MODE_CHAR ∉ (loopBody env t byte w).1.world.calls := by
  by_cases hb : byte = BIN_MODE_CHAR
  · subst hb
    by_cases h20 : (w.s_binaryModeCount + 1) % 2 ^ 32 = 20
    · rw [loopBody_switch env t w h20]
      simpa using hi
    · rw [loopBody_escape env t w h20]
      simpa using hi
  · rw [loopBody_other env t byte w hb]
    have hne : ¬ BIN_MODE_CHAR = byte := fun h => hb h.symm
    split
    · simp [hi, hne]
    · rename_i cmd _
      obtain ⟨_, _, ext, hcalls, hh⟩ := executeLine_shape env t cmd
        ({ w with
            tx := (env.AddChar w.s_console byte w.tx).2.1,
            s_binaryModeCount := 0,
            s_console := (env.AddChar w.s_console byte w.tx).1,
            calls := w.calls ++ [Event.ReadElement byte, Event.AddChar byte] } : World σ)
      simp only [] at hcalls ⊢
      rw [hcalls]
      have : Event.AddChar BIN_MODE_CHAR ∉ ext := by
        intro hm
        have := hh _ hm
        exact Bool.noConfusion this
      simp [hi, hne, this]

/-- The loop body leaves the escape counter at 0 whenever the byte it was given is not
the escape byte, whatever the accumulator and the command do. -/
theorem loopBody_other_count {σ : Type} (env : Env σ) (t : Nat) (byte : Char) (w : World σ)
    (hb : byte ≠ BIN_MODE_CHAR) : (loopBody env t byte w).1.world.s_binaryModeCount = 0 := by
  rw [loopBody_other env t byte w hb]
  split
  · rfl
  · rename_i cmd _
    exact (executeLine_shape env t cmd _).1

/-- C1. From a console that has just been reset (escape counter 0, empty trace), after any
sequence of passes of the main loop: if the bytes the console consumed with ReadElement
never contain 20 escape bytes in a row, ChangeBusPirateMode has not been called and the
escape counter equals the escape count of the spec run over the consumed bytes; no escape
byte was ever handed to the line accumulator; and a pass of the loop body on a byte
other than the escape byte always leaves the escape counter at 0. -/
theorem C1_no_mode_switch_below_20_escapes {σ : Type} (passes : List (Pass σ)) (w : World σ)
    (hcount : w.s_binaryModeCount = 0) (htrace : w.calls = [])
    (hno20 : ¬ List.replicate 20 BIN_MODE_CHAR <:+: consumed (run passes w).calls) :
    Event.ChangeBusPirateMode ∉ (run passes w).calls ∧
    (run passes w).s_binaryModeCount = (escapeAutomaton (consumed (run passes w).calls)).1 ∧
    Event.AddChar BIN_MODE_CHAR ∉ (run passes w).calls ∧
    ∀ (env : Env σ) (t : Nat) (byte : Char) (w1 : World σ), byte ≠ BIN_MODE_CHAR →
      (loopBody env t byte w1).1.world.s_binaryModeCount = 0 := by
  have h0 : EscapeInv w := by
    unfold EscapeInv
    rw [hcount, htrace]
    rfl
  have hi := run_escapeInv passes w h0
  unfold EscapeInv at hi
  have hacc : Event.AddChar BIN_MODE_CHAR ∉ (run passes w).calls :=
    run_invariant (fun w => Event.AddChar BIN_MODE_CHAR ∉ w.calls)
      (fun _ _ h hn => h.not_mem _ rfl hn)
      (fun env t byte w h => loopBody_no_escape_to_accumulator env t byte w h) passes w
      (by show Event.AddChar BIN_MODE_CHAR ∉ w.calls; rw [htrace]; simp)
  refine ⟨?_, by rw [← hi], hacc, fun env t byte w1 hb => loopBody_other_count env t byte w1 hb⟩
  intro hm
  apply hno20
  apply escapeAutomaton_switch
  rw [← hi]
  simp only []
  unfold modeChanges
  exact List.count_pos_iff.mpr hm

theorem C1_no_mode_switch_below_20_escapes_witness :
    Event.ChangeBusPirateMode ∉
      (run [⟨sampleEnv false, [], 0, 0⟩]
        (sampleWorld 64 64 (List.replicate 19 BIN_MODE_CHAR ++ "i".toList))).calls :=
  (C1_no_mode_switch_below_20_escapes [⟨sampleEnv false, [], 0, 0⟩]
    (sampleWorld 64 64 (List.replicate 19 BIN_MODE_CHAR ++ "i".toList)) rfl rfl
    (by decide)).1

theorem consoleLoop_step {σ : Type} (env : Env σ) (t n : Nat) (w : World σ) (byte : Char)
    (rest : List Char) (hrx : w.rx.elems = byte :: rest) (htx : w.tx.elems = []) :
    consoleLoop env t (n + 1) w =
      if (loopBody env t byte { w with rx := { w.rx with elems := rest } }).2 then
        (loopBody env t byte { w with rx := { w.rx with elems := rest } }).1
      else consoleLoop env t n
        (loopBody env t byte { w with rx := { w.rx with elems := rest } }).1.world := by
  rw [consoleLoop]
  rw [if_neg (by simp [CUsbBuffer.IsEmpty, hrx, htx])]
  split
  · rename_i h; rw [hrx] at h; exact List.noConfusion h
  · rename_i b r h
    rw [hrx] at h
    injection h with h1 h2
    subst h1; subst h2
    rfl

/-- A run of escape bytes that completes the sequence of 20 within one call: every one of
them is read, the mode change is called once, after the last, and the loop ends there. -/
theorem consoleLoop_escapes {σ : Type} (env : Env σ) (t : Nat) (k : Nat) :
    ∀ (n : Nat) (w : World σ) (rest : List Char), k < n →
      w.rx.elems = List.replicate (k + 1) BIN_MODE_CHAR ++ rest →
      w.tx.elems = [] → w.s_binaryModeCount + k + 1 = 20 →
      consoleLoop env t n w =
        ⟨{ w with
          rx := { w.rx with elems := rest },
          tx := w.tx.write env.modeChangeText,
          s_binaryModeCount := 0,
          s_usbSpeedTestType := UsbSpeedTestEnum.stNone,
          s_console := env.Reset w.s_console,
          calls := w.calls ++ List.replicate (k + 1) (Event.ReadElement BIN_MODE_CHAR) ++
            [Event.ChangeBusPirateMode] }, Completion.returned⟩ := by
  induction k with
  | zero =>
    intro n w rest hn hrx htx hc
    obtain ⟨m, rfl⟩ : ∃ m, n = m + 1 := ⟨n - 1, by omega⟩
    rw [consoleLoop_step env t m w BIN_MODE_CHAR rest (by simpa using hrx) htx]
    rw [loopBody_switch env t _ (by simp only []; omega)]
    simp
  | succ k ih =>
    intro n w rest hn hrx htx hc
    obtain ⟨m, rfl⟩ : ∃ m, n = m + 1 := ⟨n - 1, by omega⟩
    rw [consoleLoop_step env t m w BIN_MODE_CHAR
      (List.replicate (k + 1) BIN_MODE_CHAR ++ rest)
      (by rw [hrx, List.replicate_succ]; rfl) htx]
    rw [loopBody_escape env t _ (by simp only []; omega)]
    simp only [Bool.false_eq_true, if_false]
    refine Eq.trans (ih m _ rest (by omega) rfl htx ?_) ?_
    · simp only []; omega
    · simp [List.replicate_succ, List.append_assoc]

/-- C2. From a console that has just been reset (escape counter 0, empty trace), after any
sequence of passes of the main loop the escape counter is at most 19, and the counter and
the number of calls of ChangeBusPirateMode are those of the escape detection of the spec
run over the bytes consumed: one mode change for every 20th consecutive escape byte.  And
in the call in which the 20th consecutive escape byte is consumed (the counter having
reached `20 - (k + 1)` in earlier calls, `k + 1` escape bytes at the head of the rx
buffer, no speed test active, tx buffer empty) the escape bytes are read, the mode change
is called exactly once, as the last call, every byte behind the 20th escape byte is still
in the rx buffer, and the escape counter is 0 at return. -/
theorem C2_mode_switch_at_20th_escape {σ : Type} (passes : List (Pass σ)) (w0 : World σ)
    (hcount : w0.s_binaryModeCount = 0) (htrace : w0.calls = []) :
    (run passes w0).s_binaryModeCount ≤ 19 ∧
    ((run passes w0).s_binaryModeCount, modeChanges (run passes w0).calls) =
      escapeAutomaton (consumed (run passes w0).calls) ∧
    ∀ (env : Env σ) (t k : Nat) (w : World σ) (rest : List Char),
      w.s_usbSpeedTestType = UsbSpeedTestEnum.stNone → w.tx.elems = [] →
      w.s_binaryModeCount + k + 1 = 20 →
      w.rx.elems = List.replicate (k + 1) BIN_MODE_CHAR ++ rest →
      BusPirateConsole_ProcessData env t w =
        ⟨{ w with
          rx := { w.rx with elems := rest },
          tx := w.tx.write env.modeChangeText,
          s_binaryModeCount := 0,
          s_usbSpeedTestType := UsbSpeedTestEnum.stNone,
          s_console := env.Reset w.s_console,
          calls := w.calls ++ List.replicate (k + 1) (Event.ReadElement BIN_MODE_CHAR) ++
            [Event.ChangeBusPirateMode] }, Completion.returned⟩ := by
  have h0 : EscapeInv w0 := by
    unfold EscapeInv
    rw [hcount, htrace]
    rfl
  have hi := run_escapeInv passes w0 h0
  unfold EscapeInv at hi
  have hlt := escapeAutomaton_lt (consumed (run passes w0).calls)
  refine ⟨?_, hi, ?_⟩
  · have : (run passes w0).s_binaryModeCount =
        (escapeAutomaton (consumed (run passes w0).calls)).1 := by rw [← hi]
    omega
  · intro env t k w rest hnone htx hc hrx
    unfold BusPirateConsole_ProcessData
    rw [if_neg (by simp [hnone])]
    exact consoleLoop_escapes env t k 100 w rest (by omega) hrx htx hc

theorem C2_mode_switch_at_20th_escape_witness :
    (run [⟨sampleEnv false, [], 0, 0⟩, ⟨sampleEnv false, List.replicate 7 BIN_MODE_CHAR, 5, 64⟩]
        (sampleWorld 64 64 (List.replicate 13 BIN_MODE_CHAR))).s_binaryModeCount ≤ 19 :=
  (C2_mode_switch_at_20th_escape
    [⟨sampleEnv false, [], 0, 0⟩, ⟨sampleEnv false, List.replicate 7 BIN_MODE_CHAR, 5, 64⟩]
    (sampleWorld 64 64 (List.replicate 13 BIN_MODE_CHAR)) rfl rfl).1

/-! ### The shape of what a command handler does -/

theorem Touched_refl {σ : Type} (w : World σ) : Touched w w :=
  ⟨[], [], by simp [World.touch, CUsbBuffer.write], by simp⟩

theorem Touched_trans {σ : Type} {a b c : World σ} (h1 : Touched a b) (h2 : Touched b c) :
    Touched a c := by
  obtain ⟨o1, e1, rfl, hf1⟩ := h1
  obtain ⟨o2, e2, rfl, hf2⟩ := h2
  refine ⟨o1 ++ o2, e1 ++ e2, by simp [World.touch, CUsbBuffer.write, List.append_assoc], ?_⟩
  intro e he
  rcases List.mem_append.mp he with h | h
  · exact hf1 e h
  · exact hf2 e h

theorem Touched_print {σ : Type} (w : World σ) (text : List Char) : Touched w (w.print text) :=
  ⟨text, [], by simp [World.touch, World.print], by simp⟩

theorem Touched_log {σ : Type} (w : World σ) (e : Event) (h : e.fromHandler = true) :
    Touched w (w.log e) :=
  ⟨[], [e], by simp [World.touch, World.log, CUsbBuffer.write], by simpa using h⟩

theorem Touched_logs {σ : Type} (w : World σ) (es : List Event)
    (h : ∀ e ∈ es, e.fromHandler = true) : Touched w { w with calls := w.calls ++ es } :=
  ⟨[], es, by simp [World.touch, CUsbBuffer.write], h⟩

theorem Touched.rx {σ : Type} {w w1 : World σ} (h : Touched w w1) : w1.rx = w.rx := by
  obtain ⟨_, _, rfl, _⟩ := h; rfl

theorem Touched.flag {σ : Type} {w w1 : World σ} (h : Touched w w1) :
    w1.s_simulateProcolError = w.s_simulateProcolError := by
  obtain ⟨_, _, rfl, _⟩ := h; rfl

theorem Touched.kind {σ : Type} {w w1 : World σ} (h : Touched w w1) :
    w1.s_usbSpeedTestType = w.s_usbSpeedTestType := by
  obtain ⟨_, _, rfl, _⟩ := h; rfl

theorem Touched.endTime {σ : Type} {w w1 : World σ} (h : Touched w w1) :
    w1.s_usbSpeedTestEndTime = w.s_usbSpeedTestEndTime := by
  obtain ⟨_, _, rfl, _⟩ := h; rfl

theorem Touched.scratch {σ : Type} {w w1 : World σ} (h : Touched w w1) :
    w1.s_usbSpeedTestBuffer = w.s_usbSpeedTestBuffer := by
  obtain ⟨_, _, rfl, _⟩ := h; rfl

theorem HexDumpLoop_touched {σ : Type} (env : Env σ) (ptr : Nat) (eol : List Char) (n : Nat) :
    ∀ (i l : Nat) (w : World σ), Touched w (HexDumpLoop env ptr eol n i l w) := by
  induction n with
  | zero => intro i l w; exact Touched_refl w
  | succ n ih =>
    intro i l w
    simp only [HexDumpLoop]
    refine Touched_trans ?_ (ih _ _ _)
    refine Touched_trans ?_ (Touched_print _ _)
    refine Touched_trans ?_ (Touched_log _ _ rfl)
    split
    · exact Touched_print _ _
    · exact Touched_refl _

/-- An outcome of a handler that only printed and made handler calls, or threw before
doing anything. -/
theorem HexDump_plain {σ : Type} (env : Env σ) (ptr n : Nat) (eol : List Char) (w : World σ) :
    (Touched w (HexDump env ptr n eol w).world ∧
        (HexDump env ptr n eol w).how = Completion.returned) ∨
      ∃ what, HexDump env ptr n eol w = ⟨w, Completion.threw what⟩ := by
  unfold HexDump
  simp only []
  split
  · exact Or.inr ⟨_, rfl⟩
  · exact Or.inl ⟨Touched_trans (HexDumpLoop_touched env ptr eol n 0 0 w) (Touched_print _ _), rfl⟩

theorem PrintMemory_plain {σ : Type} (env : Env σ) (p : List Char) (w : World σ) :
    (Touched w (PrintMemory env p w).world ∧ (PrintMemory env p w).how = Completion.returned) ∨
      ∃ what, PrintMemory env p w = ⟨w, Completion.threw what⟩ := by
  unfold PrintMemory
  simp only []
  split
  · exact Or.inl ⟨Touched_print _ _, rfl⟩
  · split
    · exact Or.inr ⟨_, rfl⟩
    · split
      · exact Or.inr ⟨_, rfl⟩
      · split
        · exact Or.inl ⟨Touched_print _ _, rfl⟩
        · exact HexDump_plain env _ _ _ w

theorem BusyWait_plain {σ : Type} (env : Env σ) (p : List Char) (w : World σ) :
    (Touched w (BusyWait env p w).world ∧ (BusyWait env p w).how = Completion.returned) ∨
      ∃ what, BusyWait env p w = ⟨w, Completion.threw what⟩ := by
  unfold BusyWait
  simp only []
  split
  · exact Or.inl ⟨Touched_print _ _, rfl⟩
  · split
    · exact Or.inr ⟨_, rfl⟩
    · split
      · exact Or.inl ⟨Touched_print _ _, rfl⟩
      · refine Or.inl ⟨Touched_trans (Touched_logs w _ ?_) (Touched_print _ _), rfl⟩
        intro e he
        rw [List.eq_of_mem_replicate he]
        rfl

theorem ProcessUsbSpeedTestCmd_shape {σ : Type} (p : List Char) (t : Nat) (w : World σ) :
    (selectedSpeedTest p = UsbSpeedTestEnum.stNone ∧ Touched w (ProcessUsbSpeedTestCmd p t w)) ∨
    (selectedSpeedTest p ≠ UsbSpeedTestEnum.stNone ∧
      ProcessUsbSpeedTestCmd p t w = armSpeedTest (selectedSpeedTest p) t w) := by
  unfold ProcessUsbSpeedTestCmd selectedSpeedTest
  simp only []
  split
  · exact Or.inl ⟨rfl, Touched_print _ _⟩
  · split
    · rename_i h; exact Or.inr ⟨h, rfl⟩
    · rename_i h
      refine Or.inl ⟨by simpa using h, ?_⟩
      split <;> exact Touched_print _ _

theorem SimulateError_shape {σ : Type} (p : List Char) (w : World σ) :
    (setsProtocolFlag p = false ∧
      ((Touched w (SimulateError p w).world ∧ (SimulateError p w).how = Completion.returned) ∨
        SimulateError p w = ⟨w, Completion.threw "Simulated command error."⟩)) ∨
    (setsProtocolFlag p = true ∧
      SimulateError p w = ⟨{ w with s_simulateProcolError := true }, Completion.returned⟩) := by
  unfold SimulateError setsProtocolFlag
  simp only []
  generalize DoesStrMatch (span p (SkipCharsNotInSet p SPACE_AND_TAB)) "command".toList false = a
  generalize DoesStrMatch (span p (SkipCharsNotInSet p SPACE_AND_TAB)) "protocol".toList false = b
  generalize SkipCharsInSet (SkipCharsNotInSet p SPACE_AND_TAB) SPACE_AND_TAB = q
  by_cases h : p = []
  · rw [if_pos h]
    exact Or.inl ⟨by simp [h], Or.inl ⟨Touched_print _ _, rfl⟩⟩
  · rw [if_neg h]
    by_cases h2 : q = []
    · rw [if_neg (by simp [h2])]
      cases a
      · cases b
        · exact Or.inl ⟨by simp, Or.inl ⟨Touched_print _ _, rfl⟩⟩
        · exact Or.inr ⟨by simp [h, h2], rfl⟩
      · exact Or.inl ⟨by simp, Or.inr rfl⟩
    · rw [if_pos h2]
      exact Or.inl ⟨by simp [h2], Or.inl ⟨Touched_print _ _, rfl⟩⟩

theorem ParseCommand_some {σ : Type} (env : Env σ) (cmdStr : List Char) (t : Nat)
    (w : World σ) (c : Command) (h : commandOf cmdStr = some c) :
    ParseCommand env cmdStr t w = runCommand env (paramOf cmdStr) t w c := by
  unfold commandOf at h
  unfold ParseCommand ProcessCommand paramOf
  simp only [] at h ⊢
  split at h
  · rename_i hs
    rw [if_pos hs]
    split
    · rename_i c1 f heq
      rw [heq] at h
      simp only [Option.some.injEq] at h
      rw [h]
    · rename_i heq
      rw [heq] at h
      exact Option.noConfusion h
    · rename_i heq
      rw [heq] at h
      exact Option.noConfusion h
  · exact Option.noConfusion h

theorem ParseCommand_none {σ : Type} (env : Env σ) (cmdStr : List Char) (t : Nat)
    (w : World σ) (h : commandOf cmdStr = none) :
    Touched w (ParseCommand env cmdStr t w).world ∧
      (ParseCommand env cmdStr t w).how = Completion.returned := by
  unfold commandOf at h
  unfold ParseCommand ProcessCommand
  simp only [] at h ⊢
  split at h
  · rename_i hs
    rw [if_pos hs]
    split
    · rename_i c1 f heq
      rw [heq] at h
      exact Option.noConfusion h
    · exact ⟨Touched_print _ _, rfl⟩
    · exact ⟨Touched_print _ _, rfl⟩
  · rename_i hs
    rw [if_neg hs]
    exact ⟨Touched_refl w, rfl⟩

/-- Every branch of ProcessCommand other than Reset, UsbSpeedTest, JtagShiftSpeedTest and
SimulateError only prints and makes handler calls, or throws before doing anything. -/
theorem runCommand_plain {σ : Type} (env : Env σ) (p : List Char) (t : Nat) (w : World σ)
    (c : Command) (h1 : c ≠ Command.reset) (h2 : c ≠ Command.usbSpeedTest)
    (h3 : c ≠ Command.jtagShiftSpeedTest) (h4 : c ≠ Command.simulateError) :
    (Touched w (runCommand env p t w c).world ∧
        (runCommand env p t w c).how = Completion.returned) ∨
      ∃ what, runCommand env p t w c = ⟨w, Completion.threw what⟩ := by
  cases c <;> simp only [runCommand]
  case reset => exact absurd rfl h1
  case usbSpeedTest => exact absurd rfl h2
  case jtagShiftSpeedTest => exact absurd rfl h3
  case simulateError => exact absurd rfl h4
  case cpuLoad =>
    split
    · exact Or.inl ⟨Touched_print _ _, rfl⟩
    · exact Or.inl ⟨Touched_trans (Touched_trans (Touched_trans (Touched_trans (Touched_trans
        (Touched_print _ _) (Touched_print _ _)) (Touched_print _ _)) (Touched_print _ _))
        (Touched_print _ _)) (Touched_print _ _), rfl⟩
  case resetCause =>
    exact Or.inl ⟨Touched_trans (Touched_trans (Touched_print _ _) (Touched_print _ _))
      (Touched_print _ _), by first | rfl | trivial⟩
  case printMemory => exact PrintMemory_plain env p w
  case busyWait => exact BusyWait_plain env p w
  all_goals exact Or.inl ⟨Touched_print _ _, by first | rfl | trivial⟩

/-- The rx buffer after ParseCommand: untouched, unless the branch entered is
JtagShiftSpeedTest, which resets it. -/
theorem ParseCommand_rx {σ : Type} (env : Env σ) (cmdStr : List Char) (t : Nat) (w : World σ) :
    (ParseCommand env cmdStr t w).world.rx =
      if commandOf cmdStr = some Command.jtagShiftSpeedTest then w.rx.Reset else w.rx := by
  cases hc : commandOf cmdStr with
  | none =>
    rw [if_neg (by simp)]
    exact (ParseCommand_none env cmdStr t w hc).1.rx
  | some c =>
    rw [ParseCommand_some env cmdStr t w c hc]
    by_cases hj : c = Command.jtagShiftSpeedTest
    · subst hj
      rw [if_pos rfl]
      exact jtagShiftSpeedTestCmd_rx env w
    · rw [if_neg (by simpa using hj)]
      by_cases h1 : c = Command.reset
      · subst h1; rfl
      by_cases h2 : c = Command.usbSpeedTest
      · subst h2
        simp only [runCommand]
        rcases ProcessUsbSpeedTestCmd_shape (paramOf cmdStr) t w with ⟨_, h⟩ | ⟨_, h⟩
        · exact h.rx
        · rw [h]; rfl
      by_cases h4 : c = Command.simulateError
      · subst h4
        simp only [runCommand]
        rcases SimulateError_shape (paramOf cmdStr) w with ⟨_, ⟨h, _⟩ | h⟩ | ⟨_, h⟩
        · exact h.rx
        · rw [h]
        · rw [h]
      rcases runCommand_plain env (paramOf cmdStr) t w c h1 h2 hj h4 with ⟨h, _⟩ | ⟨_, h⟩
      · exact h.rx
      · rw [h]

/-- The simulate-protocol-fault flag after ParseCommand: set exactly when the branch entered
is SimulateError and its tests lead to the assignment; otherwise as before. -/
theorem ParseCommand_flag {σ : Type} (env : Env σ) (cmdStr : List Char) (t : Nat)
    (w : World σ) :
    (ParseCommand env cmdStr t w).world.s_simulateProcolError =
      if commandOf cmdStr = some Command.simulateError ∧ setsProtocolFlag (paramOf cmdStr) = true
      then true else w.s_simulateProcolError := by
  cases hc : commandOf cmdStr with
  | none =>
    rw [if_neg (by simp)]
    exact (ParseCommand_none env cmdStr t w hc).1.flag
  | some c =>
    rw [ParseCommand_some env cmdStr t w c hc]
    by_cases h4 : c = Command.simulateError
    · subst h4
      simp only [runCommand]
      rcases SimulateError_shape (paramOf cmdStr) w with ⟨hf, ⟨h, _⟩ | h⟩ | ⟨hf, h⟩
      · rw [if_neg (by simp [hf])]; exact h.flag
      · rw [if_neg (by simp [hf])]; rw [h]
      · rw [if_pos ⟨trivial, hf⟩]; rw [h]
    · rw [if_neg (by simp [h4])]
      by_cases h1 : c = Command.reset
      · subst h1; rfl
      by_cases h2 : c = Command.usbSpeedTest
      · subst h2
        simp only [runCommand]
        rcases ProcessUsbSpeedTestCmd_shape (paramOf cmdStr) t w with ⟨_, h⟩ | ⟨_, h⟩
        · exact h.flag
        · rw [h]; rfl
      by_cases hj : c = Command.jtagShiftSpeedTest
      · subst hj; exact jtagShiftSpeedTestCmd_flag env w
      rcases runCommand_plain env (paramOf cmdStr) t w c h1 h2 hj h4 with ⟨h, _⟩ | ⟨_, h⟩
      · exact h.flag
      · rw [h]

/-- When ParseCommand throws, the state is the one it was called in. -/
theorem ParseCommand_threw {σ : Type} (env : Env σ) (cmdStr : List Char) (t : Nat)
    (w : World σ) (what : String)
    (h : (ParseCommand env cmdStr t w).how = Completion.threw what) :
    ParseCommand env cmdStr t w = ⟨w, Completion.threw what⟩ := by
  cases hc : commandOf cmdStr with
  | none =>
    rw [(ParseCommand_none env cmdStr t w hc).2] at h
    exact Completion.noConfusion h
  | some c =>
    rw [ParseCommand_some env cmdStr t w c hc] at h ⊢
    by_cases h1 : c = Command.reset
    · subst h1; exact Completion.noConfusion h
    by_cases h2 : c = Command.usbSpeedTest
    · subst h2; exact Completion.noConfusion h
    by_cases hj : c = Command.jtagShiftSpeedTest
    · subst hj; exact absurd h (jtagShiftSpeedTestCmd_not_threw env w what)
    by_cases h4 : c = Command.simulateError
    · subst h4
      simp only [runCommand] at h ⊢
      rcases SimulateError_shape (paramOf cmdStr) w with ⟨_, ⟨_, h5⟩ | h5⟩ | ⟨_, h5⟩
      · rw [h5] at h; exact Completion.noConfusion h
      · rw [h5] at h ⊢
        simp only [Completion.threw.injEq] at h
        rw [h]
      · rw [h5] at h; exact Completion.noConfusion h
    rcases runCommand_plain env (paramOf cmdStr) t w c h1 h2 hj h4 with ⟨_, h5⟩ | ⟨m, h5⟩
    · rw [h5] at h; exact Completion.noConfusion h
    · rw [h5] at h ⊢
      simp only [Completion.threw.injEq] at h
      rw [h]

/-- The rx buffer after executeLine: as before, unless the command is JtagShiftSpeedTest. -/
theorem executeLine_rx {σ : Type} (env : Env σ) (t : Nat) (cmd : List Char) (w : World σ) :
    (executeLine env t cmd w).world.rx =
      if commandOf (cstr cmd) = some Command.jtagShiftSpeedTest then w.rx.Reset else w.rx := by
  have h := ParseCommand_rx env (cstr cmd) t
    (({ w.print EOL with s_simulateProcolError := false } : World σ).log
      (Event.ParseCommand (cstr cmd)))
  unfold executeLine
  simp only []
  generalize ParseCommand env (cstr cmd) t
    (({ w.print EOL with s_simulateProcolError := false } : World σ).log
      (Event.ParseCommand (cstr cmd))) = r at h
  have h' : r.world.rx =
      if commandOf (cstr cmd) = some Command.jtagShiftSpeedTest then w.rx.Reset else w.rx := h
  split
  · exact h'
  · split <;> exact h'
  · split <;> exact h'

/-- What one pass of the loop body does to the rx buffer and the trace: either no command
line was completed, and the pass left the read of its byte and nothing else that counts
as consumed or parsed; or it ended in executeLine, entered in a state with the same rx
buffer. -/
theorem loopBody_summary {σ : Type} (env : Env σ) (t : Nat) (byte : Char) (w : World σ) :
    ((loopBody env t byte w).1.how = Completion.returned ∧
      (loopBody env t byte w).1.world.rx = w.rx ∧
      ∃ ext, (loopBody env t byte w).1.world.calls = w.calls ++ Event.ReadElement byte :: ext ∧
        consumed ext = [] ∧ parsed ext = []) ∨
    ((loopBody env t byte w).2 = true ∧ byte ≠ BIN_MODE_CHAR ∧
      ∃ cmd w1, (loopBody env t byte w).1 = executeLine env t cmd w1 ∧ w1.rx = w.rx ∧
        w1.calls = w.calls ++ [Event.ReadElement byte, Event.AddChar byte] ∧
        (env.AddChar w.s_console byte w.tx).2.2 = some cmd ∧
        w1 = { w with
            tx := (env.AddChar w.s_console byte w.tx).2.1,
            s_binaryModeCount := 0,
            s_console := (env.AddChar w.s_console byte w.tx).1,
            calls := w.calls ++ [Event.ReadElement byte, Event.AddChar byte] }) := by
  by_cases hb : byte = BIN_MODE_CHAR
  · subst hb
    left
    by_cases h20 : (w.s_binaryModeCount + 1) % 2 ^ 32 = 20
    · rw [loopBody_switch env t w h20]
      exact ⟨rfl, rfl, [Event.ChangeBusPirateMode], rfl, rfl, rfl⟩
    · rw [loopBody_escape env t w h20]
      exact ⟨rfl, rfl, [], rfl, rfl, rfl⟩
  · rw [loopBody_other env t byte w hb]
    cases hc : (env.AddChar w.s_console byte w.tx).2.2 with
    | none => exact Or.inl ⟨rfl, rfl, [Event.AddChar byte], rfl, rfl, rfl⟩
    | some cmd => exact Or.inr ⟨rfl, hb, cmd, _, rfl, rfl, rfl, rfl, rfl⟩

/-- The console loop as a whole: it reads a prefix of the rx buffer, at most as many bytes
as it has passes; either no command line is parsed and the rest of the rx buffer is
still there, or the last byte read completed a line `cmd` and the loop ended in
executeLine, entered with the rest of the rx buffer in place. -/
theorem consoleLoop_summary {σ : Type} (env : Env σ) (t n : Nat) (w : World σ) :
    ∃ k ext, k ≤ n ∧ k ≤ w.rx.elems.length ∧
      (consoleLoop env t n w).world.calls = w.calls ++ ext ∧
      consumed ext = w.rx.elems.take k ∧
      ((parsed ext = [] ∧ (consoleLoop env t n w).how = Completion.returned ∧
          (consoleLoop env t n w).world.rx = { w.rx with elems := w.rx.elems.drop k }) ∨
        ∃ cmd w1, consoleLoop env t n w = executeLine env t cmd w1 ∧
          w1.rx = { w.rx with elems := w.rx.elems.drop k } ∧ parsed ext = [cstr cmd]) := by
  refine consoleLoop_induct env t (fun n w o =>
    ∃ k ext, k ≤ n ∧ k ≤ w.rx.elems.length ∧ o.world.calls = w.calls ++ ext ∧
      consumed ext = w.rx.elems.take k ∧
      ((parsed ext = [] ∧ o.how = Completion.returned ∧
          o.world.rx = { w.rx with elems := w.rx.elems.drop k }) ∨
        ∃ cmd w1, o = executeLine env t cmd w1 ∧
          w1.rx = { w.rx with elems := w.rx.elems.drop k } ∧ parsed ext = [cstr cmd])) ?_ ?_ n w
  · intro n w
    exact ⟨0, [], Nat.zero_le _, Nat.zero_le _, by simp, rfl, Or.inl ⟨rfl, rfl, by simp⟩⟩
  · intro n w byte rest hrx htx r hr
    have hsum := loopBody_summary env t byte
      ({ w with rx := { w.rx with elems := rest } } : World σ)
    rw [← hr] at hsum
    simp only [] at hsum
    constructor
    · intro _
      rcases hsum with ⟨hhow, hrx1, ext, hcalls, hc, hp⟩ | ⟨_, _, cmd, w1, he, hw1, hcalls, _, _⟩
      · refine ⟨1, Event.ReadElement byte :: ext, by omega, by rw [hrx]; simp, hcalls, ?_,
          Or.inl ⟨?_, hhow, ?_⟩⟩
        · have : consumed (Event.ReadElement byte :: ext) = byte :: consumed ext := rfl
          rw [this, hc, hrx]; rfl
        · have : parsed (Event.ReadElement byte :: ext) = parsed ext := rfl
          rw [this, hp]
        · rw [hrx1, hrx]; rfl
      · obtain ⟨_, _, hs, hcalls2, hh⟩ := executeLine_shape env t cmd w1
        refine ⟨1, [Event.ReadElement byte, Event.AddChar byte] ++
          (Event.ParseCommand (cstr cmd) :: hs), by omega, by rw [hrx]; simp, ?_, ?_,
          Or.inr ⟨cmd, w1, he, ?_, ?_⟩⟩
        · rw [he, hcalls2, hcalls, List.append_assoc]
        · have hq : ∀ e ∈ hs, e.fromLoop = false :=
            fun e he => fromLoop_of_fromHandler e (hh e he)
          rw [consumed_append]
          have c2 : consumed (Event.ParseCommand (cstr cmd) :: hs) = consumed hs := rfl
          rw [c2, consumed_quiet hs hq, hrx]
          rfl
        · rw [hw1, hrx]; rfl
        · have hq : ∀ e ∈ hs, e.fromLoop = false :=
            fun e he => fromLoop_of_fromHandler e (hh e he)
          rw [parsed_append]
          have c2 : parsed (Event.ParseCommand (cstr cmd) :: hs) = cstr cmd :: parsed hs := rfl
          rw [c2, parsed_quiet hs hq]
          rfl
    · intro h2 o ⟨k, ext, hk, hkl, hcalls, hcons, hcase⟩
      rcases hsum with ⟨_, hrx1, ext0, hcalls0, hc0, hp0⟩ | ⟨h2', _⟩
      · have hlen : r.1.world.rx.elems = rest := by rw [hrx1]
        refine ⟨k + 1, Event.ReadElement byte :: ext0 ++ ext, by omega, ?_, ?_, ?_, ?_⟩
        · rw [hrx]; rw [hlen] at hkl; simp; omega
        · rw [hcalls, hcalls0]; simp [List.append_assoc]
        · have : consumed (Event.ReadElement byte :: ext0 ++ ext) =
              byte :: (consumed ext0 ++ consumed ext) := by
            rw [List.cons_append]
            have : consumed (Event.ReadElement byte :: (ext0 ++ ext)) =
              byte :: consumed (ext0 ++ ext) := rfl
            rw [this, consumed_append]
          rw [this, hc0, hcons, hlen, hrx]
          rfl
        · have hp : parsed (Event.ReadElement byte :: ext0 ++ ext) = parsed ext := by
            rw [List.cons_append]
            have : parsed (Event.ReadElement byte :: (ext0 ++ ext)) = parsed (ext0 ++ ext) := rfl
            rw [this, parsed_append, hp0]
            rfl
          rw [hp]
          have hdrop : ({ r.1.world.rx with elems := r.1.world.rx.elems.drop k } : CUsbBuffer) =
              { w.rx with elems := w.rx.elems.drop (k + 1) } := by
            rw [hrx1, hrx]; rfl
          rw [hdrop] at hcase
          exact hcase
      · rw [h2] at h2'
        exact Bool.noConfusion h2'

set_option maxRecDepth 100000 in
/-- C3, as stated, fails: with the line JtagShiftSpeedTest completed by the first byte read
and 150 more bytes behind it in the rx buffer, one call with no speed test active takes
151 bytes out of the rx buffer, more than 100. -/
theorem C3_counterexample :
    (sampleLineWorld "JtagShiftSpeedTest".toList
        (List.replicate 150 'x')).s_usbSpeedTestType = UsbSpeedTestEnum.stNone ∧
    ¬ (sampleLineWorld "JtagShiftSpeedTest".toList (List.replicate 150 'x')).rx.elems.length -
      (BusPirateConsole_ProcessData (sampleEnv true) 0
        (sampleLineWorld "JtagShiftSpeedTest".toList
          (List.replicate 150 'x'))).world.rx.elems.length ≤ 100 := by
  decide

/-- C3, amended. In a call entered with no speed test active, or with one that ends in
this call, the console reads at most 100 bytes, a prefix of what the rx buffer held at
entry, and at return the rx buffer holds exactly the bytes behind those read, except
when the command line completed in the call enters the JtagShiftSpeedTest branch, whose
handler resets the rx buffer. -/
theorem C3_rx_consumption_bound {σ : Type} (env : Env σ) (currentTime : Nat) (w : World σ)
    (h : w.s_usbSpeedTestType = UsbSpeedTestEnum.stNone ∨
      w.s_usbSpeedTestEndTime ≤ currentTime) :
    ∃ k ext, k ≤ 100 ∧ k ≤ w.rx.elems.length ∧
      (BusPirateConsole_ProcessData env currentTime w).world.calls = w.calls ++ ext ∧
      consumed ext = w.rx.elems.take k ∧
      ((BusPirateConsole_ProcessData env currentTime w).world.rx =
          { w.rx with elems := w.rx.elems.drop k } ∨
        ∃ cmd ∈ parsed ext, commandOf cmd = some Command.jtagShiftSpeedTest ∧
          (BusPirateConsole_ProcessData env currentTime w).world.rx = w.rx.Reset) := by
  have key : ∀ (w1 : World σ) (pre : List Event), w1.rx = w.rx → w1.calls = w.calls ++ pre →
      consumed pre = [] → parsed pre = [] →
      ∃ k ext, k ≤ 100 ∧ k ≤ w.rx.elems.length ∧
        (consoleLoop env currentTime 100 w1).world.calls = w.calls ++ ext ∧
        consumed ext = w.rx.elems.take k ∧
        ((consoleLoop env currentTime 100 w1).world.rx =
            { w.rx with elems := w.rx.elems.drop k } ∨
          ∃ cmd ∈ parsed ext, commandOf cmd = some Command.jtagShiftSpeedTest ∧
            (consoleLoop env currentTime 100 w1).world.rx = w.rx.Reset) := by
    intro w1 pre hrx hcalls hc hp
    obtain ⟨k, ext, hk, hkl, hcl, hcons, hcase⟩ := consoleLoop_summary env currentTime 100 w1
    rw [hrx] at hkl hcons hcase
    refine ⟨k, pre ++ ext, hk, hkl, by rw [hcl, hcalls, List.append_assoc],
      by rw [consumed_append, hc, hcons]; rfl, ?_⟩
    rcases hcase with ⟨_, _, hr⟩ | ⟨cmd, w2, he, hw2, hpe⟩
    · exact Or.inl hr
    · have hrx2 := executeLine_rx env currentTime cmd w2
      rw [← he] at hrx2
      by_cases hj : commandOf (cstr cmd) = some Command.jtagShiftSpeedTest
      · rw [if_pos hj, hw2] at hrx2
        refine Or.inr ⟨cstr cmd, ?_, hj, hrx2⟩
        rw [parsed_append, hp, hpe]
        simp
      · rw [if_neg hj, hw2] at hrx2
        exact Or.inl hrx2
  unfold BusPirateConsole_ProcessData
  by_cases hnone : w.s_usbSpeedTestType = UsbSpeedTestEnum.stNone
  · rw [if_neg (by simp [hnone])]
    exact key w [] rfl (by simp) rfl rfl
  · rw [if_pos hnone]
    have hend : w.s_usbSpeedTestEndTime ≤ currentTime := by
      rcases h with h | h
      · exact absurd h hnone
      · exact h
    simp only []
    rw [SpeedTest_finished env currentTime w hend]
    rw [if_neg (by simp)]
    exact key _ [Event.SpeedTest] rfl rfl rfl rfl

theorem C3_rx_consumption_bound_witness :
    ∃ k ext, k ≤ 100 ∧
      k ≤ (sampleLineWorld "JtagShiftSpeedTest".toList (List.replicate 150 'x')).rx.elems.length ∧
      (BusPirateConsole_ProcessData (sampleEnv true) 0
        (sampleLineWorld "JtagShiftSpeedTest".toList (List.replicate 150 'x'))).world.calls =
        (sampleLineWorld "JtagShiftSpeedTest".toList (List.replicate 150 'x')).calls ++ ext ∧
      consumed ext =
        (sampleLineWorld "JtagShiftSpeedTest".toList (List.replicate 150 'x')).rx.elems.take k ∧
      ((BusPirateConsole_ProcessData (sampleEnv true) 0
          (sampleLineWorld "JtagShiftSpeedTest".toList (List.replicate 150 'x'))).world.rx =
          { (sampleLineWorld "JtagShiftSpeedTest".toList (List.replicate 150 'x')).rx with
            elems := (sampleLineWorld "JtagShiftSpeedTest".toList
              (List.replicate 150 'x')).rx.elems.drop k } ∨
        ∃ cmd ∈ parsed ext, commandOf cmd = some Command.jtagShiftSpeedTest ∧
          (BusPirateConsole_ProcessData (sampleEnv true) 0
            (sampleLineWorld "JtagShiftSpeedTest".toList (List.replicate 150 'x'))).world.rx =
            (sampleLineWorld "JtagShiftSpeedTest".toList (List.replicate 150 'x')).rx.Reset) :=
  C3_rx_consumption_bound (sampleEnv true) 0
    (sampleLineWorld "JtagShiftSpeedTest".toList (List.replicate 150 'x')) (Or.inl rfl)

/-- ParseCommand does not come back exactly when the branch entered is Reset, or is
JtagShiftSpeedTest with an elapsed time of 0, where the source divides by zero. -/
theorem ParseCommand_halted {σ : Type} (env : Env σ) (cmdStr : List Char) (t : Nat)
    (w : World σ) :
    (ParseCommand env cmdStr t w).how = Completion.halted ↔
      (commandOf cmdStr = some Command.reset ∨
        (commandOf cmdStr = some Command.jtagShiftSpeedTest ∧
          env.jtagShiftElapsedTime % 2 ^ 32 = 0)) := by
  cases hc : commandOf cmdStr with
  | none =>
    rw [(ParseCommand_none env cmdStr t w hc).2]
    simp
  | some c =>
    rw [ParseCommand_some env cmdStr t w c hc]
    by_cases h1 : c = Command.reset
    · subst h1; simp [runCommand]
    by_cases hj : c = Command.jtagShiftSpeedTest
    · subst hj
      have hhow : (runCommand env (paramOf cmdStr) t w Command.jtagShiftSpeedTest).how =
          if env.jtagShiftElapsedTime % 2 ^ 32 = 0 then Completion.halted
          else Completion.returned := jtagShiftSpeedTestCmd_how env w
      rw [hhow]
      by_cases h0 : env.jtagShiftElapsedTime % 2 ^ 32 = 0
      · rw [if_pos h0]
        exact ⟨fun _ => Or.inr ⟨rfl, h0⟩, fun _ => rfl⟩
      · rw [if_neg h0]
        refine ⟨fun h => Completion.noConfusion h, fun h => ?_⟩
        rcases h with h | ⟨_, h⟩
        · exact Command.noConfusion (Option.some.inj h)
        · exact absurd h h0
    have hne : ¬ (some c = some Command.reset ∨
        (some c = some Command.jtagShiftSpeedTest ∧
          env.jtagShiftElapsedTime % 2 ^ 32 = 0)) := by
      rintro (h | ⟨h, _⟩)
      · exact h1 (Option.some.inj h)
      · exact hj (Option.some.inj h)
    refine ⟨fun h => ?_, fun h => absurd h hne⟩
    exfalso
    by_cases h2 : c = Command.usbSpeedTest
    · subst h2; exact Completion.noConfusion h
    by_cases h4 : c = Command.simulateError
    · subst h4
      simp only [runCommand] at h
      rcases SimulateError_shape (paramOf cmdStr) w with ⟨_, ⟨_, h5⟩ | h5⟩ | ⟨_, h5⟩ <;>
        rw [h5] at h <;> exact Completion.noConfusion h
    rcases runCommand_plain env (paramOf cmdStr) t w c h1 h2 hj h4 with ⟨_, h5⟩ | ⟨m, h5⟩ <;>
      rw [h5] at h <;> exact Completion.noConfusion h

/-- The five ways executeLine can go, told apart by the command line: the Reset branch
halts; the SimulateError branch that sets the flag raises the protocol fault, without a
prompt; a handler that throws gets its message reported and then the prompt; the
JtagShiftSpeedTest branch with an elapsed time of 0 stops at its division, without its
report and without a prompt; anything else gets the prompt after its output. -/
theorem executeLine_cases {σ : Type} (env : Env σ) (t : Nat) (cmd : List Char) (w : World σ) :
    (commandOf (cstr cmd) = some Command.reset ∧
      executeLine env t cmd w =
        ⟨resetBoardCmd (({ w.print EOL with s_simulateProcolError := false } : World σ).log
          (Event.ParseCommand (cstr cmd))), Completion.halted⟩) ∨
    (commandOf (cstr cmd) = some Command.simulateError ∧
      setsProtocolFlag (paramOf (cstr cmd)) = true ∧
      executeLine env t cmd w =
        ⟨{ (({ w.print EOL with s_simulateProcolError := false } : World σ).log
            (Event.ParseCommand (cstr cmd))) with s_simulateProcolError := true },
          Completion.threw "Simulated protocol error."⟩) ∨
    (¬ (commandOf (cstr cmd) = some Command.simulateError ∧
        setsProtocolFlag (paramOf (cstr cmd)) = true) ∧
      ∃ what, ParseCommand env (cstr cmd) t
          (({ w.print EOL with s_simulateProcolError := false } : World σ).log
            (Event.ParseCommand (cstr cmd))) =
          ⟨(({ w.print EOL with s_simulateProcolError := false } : World σ).log
            (Event.ParseCommand (cstr cmd))), Completion.threw what⟩ ∧
        executeLine env t cmd w =
          ⟨WritePrompt ((({ w.print EOL with s_simulateProcolError := false } : World σ).log
            (Event.ParseCommand (cstr cmd))).print
              ("Error processing command: ".toList ++ what.toList ++ EOL)),
            Completion.returned⟩) ∨
    (¬ (commandOf (cstr cmd) = some Command.simulateError ∧
        setsProtocolFlag (paramOf (cstr cmd)) = true) ∧
      commandOf (cstr cmd) ≠ some Command.reset ∧
      (ParseCommand env (cstr cmd) t
        (({ w.print EOL with s_simulateProcolError := false } : World σ).log
          (Event.ParseCommand (cstr cmd)))).how = Completion.returned ∧
      executeLine env t cmd w =
        ⟨WritePrompt (ParseCommand env (cstr cmd) t
          (({ w.print EOL with s_simulateProcolError := false } : World σ).log
            (Event.ParseCommand (cstr cmd)))).world, Completion.returned⟩) ∨
    (commandOf (cstr cmd) = some Command.jtagShiftSpeedTest ∧
      env.jtagShiftElapsedTime % 2 ^ 32 = 0 ∧
      executeLine env t cmd w =
        ⟨(jtagShiftSpeedTestCmd env
          (({ w.print EOL with s_simulateProcolError := false } : World σ).log
            (Event.ParseCommand (cstr cmd)))).world, Completion.halted⟩) := by
  have hflag := ParseCommand_flag env (cstr cmd) t
    (({ w.print EOL with s_simulateProcolError := false } : World σ).log
      (Event.ParseCommand (cstr cmd)))
  have hhalt := ParseCommand_halted env (cstr cmd) t
    (({ w.print EOL with s_simulateProcolError := false } : World σ).log
      (Event.ParseCommand (cstr cmd)))
  have hthrew := ParseCommand_threw env (cstr cmd) t
    (({ w.print EOL with s_simulateProcolError := false } : World σ).log
      (Event.ParseCommand (cstr cmd)))
  have hsome := ParseCommand_some env (cstr cmd) t
    (({ w.print EOL with s_simulateProcolError := false } : World σ).log
      (Event.ParseCommand (cstr cmd)))
  unfold executeLine
  simp only []
  generalize hw1 : (({ w.print EOL with s_simulateProcolError := false } : World σ).log
      (Event.ParseCommand (cstr cmd))) = w1 at hflag hhalt hthrew hsome ⊢
  have hw1f : w1.s_simulateProcolError = false := by rw [← hw1]; rfl
  by_cases hp : commandOf (cstr cmd) = some Command.simulateError ∧
      setsProtocolFlag (paramOf (cstr cmd)) = true
  · right; left
    refine ⟨hp.1, hp.2, ?_⟩
    have h5 : ParseCommand env (cstr cmd) t w1 =
        ⟨{ w1 with s_simulateProcolError := true }, Completion.returned⟩ := by
      rw [hsome _ hp.1]
      simp only [runCommand]
      rcases SimulateError_shape (paramOf (cstr cmd)) w1 with ⟨hf, _⟩ | ⟨_, h⟩
      · rw [hp.2] at hf; exact Bool.noConfusion hf
      · exact h
    rw [h5]
    rfl
  · rw [if_neg hp] at hflag
    cases hhow : (ParseCommand env (cstr cmd) t w1).how with
    | halted =>
      rcases hhalt.mp hhow with hr | ⟨hj, h0⟩
      · left
        refine ⟨hr, ?_⟩
        rw [hsome _ hr]
        rfl
      · right; right; right; right
        refine ⟨hj, h0, ?_⟩
        have h5 : (ParseCommand env (cstr cmd) t w1).world =
            (jtagShiftSpeedTestCmd env w1).world := by rw [hsome _ hj]; rfl
        rw [← h5]
        have heta : ∀ o : Outcome σ, o.how = Completion.halted →
            o = ⟨o.world, Completion.halted⟩ := by
          intro o h
          cases o
          simp only at h
          subst h
          rfl
        exact heta _ hhow
    | threw what =>
      right; right; left
      have h5 := hthrew what hhow
      refine ⟨hp, what, h5, ?_⟩
      rw [h5]
      simp only [World.print]
      rw [if_neg (by simp [hw1f])]
    | returned =>
      right; right; right; left
      refine ⟨hp, ?_, rfl, ?_⟩
      · intro hr
        rw [hhalt.mpr (Or.inl hr)] at hhow
        exact Completion.noConfusion hhow
      · rw [if_neg (by rw [hflag, hw1f]; simp)]

/-- A call of the entry point as a whole: either no command line is parsed and the call
returns, or the call ended in executeLine for the one line it parsed. -/
theorem ProcessData_summary {σ : Type} (env : Env σ) (t : Nat) (w : World σ) :
    ∃ ext, (BusPirateConsole_ProcessData env t w).world.calls = w.calls ++ ext ∧
      ((parsed ext = [] ∧ (BusPirateConsole_ProcessData env t w).how = Completion.returned) ∨
        ∃ cmd w1, BusPirateConsole_ProcessData env t w = executeLine env t cmd w1 ∧
          parsed ext = [cstr cmd]) := by
  have key : ∀ (w1 : World σ) (pre : List Event), w1.calls = w.calls ++ pre → parsed pre = [] →
      ∃ ext, (consoleLoop env t 100 w1).world.calls = w.calls ++ ext ∧
        ((parsed ext = [] ∧ (consoleLoop env t 100 w1).how = Completion.returned) ∨
          ∃ cmd w2, consoleLoop env t 100 w1 = executeLine env t cmd w2 ∧
            parsed ext = [cstr cmd]) := by
    intro w1 pre hcalls hp
    obtain ⟨k, ext, _, _, hcl, _, hcase⟩ := consoleLoop_summary env t 100 w1
    refine ⟨pre ++ ext, by rw [hcl, hcalls, List.append_assoc], ?_⟩
    rcases hcase with ⟨hpe, hhow, _⟩ | ⟨cmd, w2, he, _, hpe⟩
    · exact Or.inl ⟨by rw [parsed_append, hp, hpe]; rfl, hhow⟩
    · exact Or.inr ⟨cmd, w2, he, by rw [parsed_append, hp, hpe]; rfl⟩
  obtain ⟨_, pre, hpre, hq⟩ := SpeedTest_quiet env t w
  unfold BusPirateConsole_ProcessData
  split
  · simp only []
    split
    · exact ⟨pre, hpre, Or.inl ⟨parsed_quiet pre hq, rfl⟩⟩
    · exact key _ pre hpre (parsed_quiet pre hq)
  · exact key w [] (by simp) rfl

/-- C5, as stated, fails: the line JtagShiftSpeedTest is completed with the bytes of
`help` behind it in the rx buffer; the call parses that one line and returns, and the
bytes behind the line terminator are not left in the rx buffer: it is empty. -/
theorem C5_counterexample :
    (BusPirateConsole_ProcessData (sampleEnv true) 0
      (sampleLineWorld "JtagShiftSpeedTest".toList "help".toList)).how = Completion.returned ∧
    parsed (BusPirateConsole_ProcessData (sampleEnv true) 0
      (sampleLineWorld "JtagShiftSpeedTest".toList "help".toList)).world.calls =
        ["JtagShiftSpeedTest".toList] ∧
    ¬ (BusPirateConsole_ProcessData (sampleEnv true) 0
      (sampleLineWorld "JtagShiftSpeedTest".toList "help".toList)).world.rx.elems =
        "help".toList := by
  decide

/-- A call of the entry point as a whole, with the rx buffer: either no command line is
parsed and the call returns, or the call read the first `k` bytes of the rx buffer, at
most 100, and ended in executeLine for the one line it parsed, entered with the bytes
behind those `k` in the rx buffer. -/
theorem ProcessData_line_rx {σ : Type} (env : Env σ) (t : Nat) (w : World σ) :
    ∃ ext, (BusPirateConsole_ProcessData env t w).world.calls = w.calls ++ ext ∧
      ((parsed ext = [] ∧ (BusPirateConsole_ProcessData env t w).how = Completion.returned) ∨
        ∃ cmd w1 k, BusPirateConsole_ProcessData env t w = executeLine env t cmd w1 ∧
          parsed ext = [cstr cmd] ∧ k ≤ 100 ∧ k ≤ w.rx.elems.length ∧
          consumed ext = w.rx.elems.take k ∧
          w1.rx = { w.rx with elems := w.rx.elems.drop k }) := by
  have key : ∀ (w1 : World σ) (pre : List Event), w1.rx = w.rx → w1.calls = w.calls ++ pre →
      consumed pre = [] → parsed pre = [] →
      ∃ ext, (consoleLoop env t 100 w1).world.calls = w.calls ++ ext ∧
        ((parsed ext = [] ∧ (consoleLoop env t 100 w1).how = Completion.returned) ∨
          ∃ cmd w2 k, consoleLoop env t 100 w1 = executeLine env t cmd w2 ∧
            parsed ext = [cstr cmd] ∧ k ≤ 100 ∧ k ≤ w.rx.elems.length ∧
            consumed ext = w.rx.elems.take k ∧
            w2.rx = { w.rx with elems := w.rx.elems.drop k }) := by
    intro w1 pre hrx hcalls hc hp
    obtain ⟨k, ext, hk, hkl, hcl, hcons, hcase⟩ := consoleLoop_summary env t 100 w1
    rw [hrx] at hkl hcons hcase
    refine ⟨pre ++ ext, by rw [hcl, hcalls, List.append_assoc], ?_⟩
    rcases hcase with ⟨hpe, hhow, _⟩ | ⟨cmd, w2, he, hw2, hpe⟩
    · exact Or.inl ⟨by rw [parsed_append, hp, hpe]; rfl, hhow⟩
    · exact Or.inr ⟨cmd, w2, k, he, by rw [parsed_append, hp, hpe]; rfl, hk, hkl,
        by rw [consumed_append, hc, hcons]; rfl, hw2⟩
  unfold BusPirateConsole_ProcessData
  by_cases hnone : w.s_usbSpeedTestType = UsbSpeedTestEnum.stNone
  · rw [if_neg (by simp [hnone])]
    exact key w [] rfl (by simp) rfl rfl
  · rw [if_pos hnone]
    simp only []
    by_cases hend : w.s_usbSpeedTestEndTime ≤ t
    · rw [SpeedTest_finished env t w hend]
      rw [if_neg (by simp)]
      exact key _ [Event.SpeedTest] rfl rfl rfl rfl
    · obtain ⟨_, pre, hpre, hq⟩ := SpeedTest_quiet env t w
      obtain ⟨rx, tx, ext, h, _⟩ := SpeedTest_running env t w (Nat.lt_of_not_le hend)
      have hkind : (SpeedTest env t w).s_usbSpeedTestType = w.s_usbSpeedTestType := by
        rw [h]
      rw [if_pos (by rw [hkind]; exact hnone)]
      exact ⟨pre, hpre, Or.inl ⟨parsed_quiet pre hq, rfl⟩⟩

/-- C5, amended. In any single call of BusPirateConsole_ProcessData at most one completed
line is parsed and executed.  When the accumulator reports a completed line, the call
has read the first `k` bytes of the rx buffer, at most 100, and the command is run with
the bytes behind them in the rx buffer; the trace of the call ends with the ParseCommand
event followed by handler calls only, so no further byte is read.  Unless the command is
JtagShiftSpeedTest with a measured elapsed time of 0 (a case that is left open), the
call then returns with the prompt queued last, after the output of the command and the
report of a fault it threw, except that Reset does not come back (the board is reset)
and that a SimulateError that set the protocol-fault flag raises the fault with no prompt
queued; and the rx buffer then holds exactly the bytes behind the `k` read, unless the
command is JtagShiftSpeedTest, which resets it. -/
theorem C5_one_command_per_call {σ : Type} (env : Env σ) (currentTime : Nat) (w : World σ) :
    ∃ ext, (BusPirateConsole_ProcessData env currentTime w).world.calls = w.calls ++ ext ∧
      (parsed ext).length ≤ 1 ∧
      ∀ line ∈ parsed ext, ∃ cmd w1 k,
        line = cstr cmd ∧
        BusPirateConsole_ProcessData env currentTime w = executeLine env currentTime cmd w1 ∧
        k ≤ 100 ∧ k ≤ w.rx.elems.length ∧
        consumed ext = w.rx.elems.take k ∧
        w1.rx = { w.rx with elems := w.rx.elems.drop k } ∧
        (∃ hs, (BusPirateConsole_ProcessData env currentTime w).world.calls =
            w1.calls ++ Event.ParseCommand line :: hs ∧ ∀ e ∈ hs, e.fromHandler = true) ∧
        ((commandOf line = some Command.jtagShiftSpeedTest ∧
            env.jtagShiftElapsedTime % 2 ^ 32 = 0) ∨
          ((((BusPirateConsole_ProcessData env currentTime w).how = Completion.returned ∧
              ∃ report, (BusPirateConsole_ProcessData env currentTime w).world =
                WritePrompt ((ParseCommand env line currentTime
                  (({ w1.print EOL with s_simulateProcolError := false } : World σ).log
                    (Event.ParseCommand line))).world.print report)) ∨
            ((BusPirateConsole_ProcessData env currentTime w).how = Completion.halted ∧
              commandOf line = some Command.reset) ∨
            ((BusPirateConsole_ProcessData env currentTime w).how =
                Completion.threw "Simulated protocol error." ∧
              commandOf line = some Command.simulateError ∧
              setsProtocolFlag (paramOf line) = true)) ∧
          (commandOf line ≠ some Command.reset →
            ¬ (commandOf line = some Command.simulateError ∧
              setsProtocolFlag (paramOf line) = true) →
            (BusPirateConsole_ProcessData env currentTime w).how = Completion.returned) ∧
          (BusPirateConsole_ProcessData env currentTime w).world.rx =
            if commandOf line = some Command.jtagShiftSpeedTest
            then ({ w.rx with elems := w.rx.elems.drop k } : CUsbBuffer).Reset
            else { w.rx with elems := w.rx.elems.drop k })) := by
  obtain ⟨ext, hcalls, hcase⟩ := ProcessData_line_rx env currentTime w
  refine ⟨ext, hcalls, ?_, ?_⟩
  · rcases hcase with ⟨hp, _⟩ | ⟨cmd, w1, k, _, hp, _⟩ <;> rw [hp] <;> simp
  · intro line hline
    rcases hcase with ⟨hp, _⟩ | ⟨cmd, w1, k, he, hp, hk, hkl, hcons, hw1⟩
    · rw [hp] at hline; exact absurd hline (List.not_mem_nil _)
    · rw [hp] at hline
      have hl : line = cstr cmd := by simpa using hline
      subst hl
      refine ⟨cmd, w1, k, rfl, he, hk, hkl, hcons, hw1, ?_, ?_⟩
      · obtain ⟨_, _, hs, hc, hh⟩ := executeLine_shape env currentTime cmd w1
        exact ⟨hs, by rw [he]; exact hc, hh⟩
      · have hrx := executeLine_rx env currentTime cmd w1
        rw [hw1] at hrx
        rw [he]
        rcases executeLine_cases env currentTime cmd w1 with
          ⟨hr, h⟩ | ⟨hs, hf, h⟩ | ⟨hn, what, hpc, h⟩ | ⟨hn, hnr, _, h⟩ | ⟨hj, h0, _⟩
        · right
          refine ⟨Or.inr (Or.inl ⟨by rw [h], hr⟩), fun hne _ => absurd hr hne, hrx⟩
        · right
          refine ⟨Or.inr (Or.inr ⟨by rw [h], hs, hf⟩), fun _ hne => absurd ⟨hs, hf⟩ hne, hrx⟩
        · right
          refine ⟨Or.inl ⟨by rw [h],
            "Error processing command: ".toList ++ what.toList ++ EOL, by rw [h, hpc]⟩,
            fun _ _ => by rw [h], hrx⟩
        · right
          refine ⟨Or.inl ⟨by rw [h], [], by rw [h, print_nil]⟩, fun _ _ => by rw [h], hrx⟩
        · left
          exact ⟨hj, h0⟩

theorem consoleLoop_blocked {σ : Type} (env : Env σ) (t n : Nat) (w : World σ)
    (h : w.tx.IsEmpty = false) : consoleLoop env t n w = ⟨w, Completion.returned⟩ := by
  cases n with
  | zero => rfl
  | succ n =>
    rw [consoleLoop]
    rw [if_pos (by simp [h])]

/-- Every event one pass of the loop body adds to the trace is an event of the console loop
or of a command handler. -/
theorem loopBody_events {σ : Type} (env : Env σ) (t : Nat) (byte : Char) (w : World σ) :
    ∃ ext, (loopBody env t byte w).1.world.calls = w.calls ++ ext ∧
      ∀ e ∈ ext, e.fromLoop = true ∨ e.fromHandler = true := by
  by_cases hb : byte = BIN_MODE_CHAR
  · subst hb
    by_cases h20 : (w.s_binaryModeCount + 1) % 2 ^ 32 = 20
    · rw [loopBody_switch env t w h20]
      refine ⟨_, rfl, ?_⟩
      intro e he
      simp at he
      rcases he with h | h
      · subst h; exact Or.inl rfl
      · subst h; exact Or.inl rfl
    · rw [loopBody_escape env t w h20]
      refine ⟨_, rfl, ?_⟩
      intro e he
      simp at he
      subst he
      exact Or.inl rfl
  · rw [loopBody_other env t byte w hb]
    split
    · refine ⟨_, rfl, ?_⟩
      intro e he
      simp at he
      rcases he with h | h
      · subst h; exact Or.inl rfl
      · subst h; exact Or.inl rfl
    · rename_i cmd _
      obtain ⟨_, _, hs, hc, hh⟩ := executeLine_shape env t cmd
        ({ w with
          tx := (env.AddChar w.s_console byte w.tx).2.1,
          s_binaryModeCount := 0,
          s_console := (env.AddChar w.s_console byte w.tx).1,
          calls := w.calls ++ [Event.ReadElement byte, Event.AddChar byte] } : World σ)
      refine ⟨[Event.ReadElement byte, Event.AddChar byte] ++
        (Event.ParseCommand (cstr cmd) :: hs), by rw [hc, List.append_assoc], ?_⟩
      intro e he
      simp at he
      rcases he with h | h | h | h
      · subst h; exact Or.inl rfl
      · subst h; exact Or.inl rfl
      · subst h; exact Or.inl rfl
      · exact Or.inr (hh e h)

/-- Every event the console loop adds to the trace is an event of the console loop or of a
command handler. -/
theorem consoleLoop_events {σ : Type} (env : Env σ) (t n : Nat) (w : World σ) :
    ∃ ext, (consoleLoop env t n w).world.calls = w.calls ++ ext ∧
      ∀ e ∈ ext, e.fromLoop = true ∨ e.fromHandler = true := by
  refine consoleLoop_induct env t (fun _ w o => ∃ ext, o.world.calls = w.calls ++ ext ∧
      ∀ e ∈ ext, e.fromLoop = true ∨ e.fromHandler = true) ?_ ?_ n w
  · intro _ w
    exact ⟨[], by simp, by simp⟩
  · intro n w byte rest _ _ r hr
    have hev := loopBody_events env t byte
      ({ w with rx := { w.rx with elems := rest } } : World σ)
    rw [← hr] at hev
    obtain ⟨ext0, hc0, hh0⟩ := hev
    constructor
    · intro _
      exact ⟨ext0, hc0, hh0⟩
    · intro _ o ⟨ext, hc, hh⟩
      refine ⟨ext0 ++ ext, by rw [hc, hc0, List.append_assoc], ?_⟩
      intro e he
      rcases List.mem_append.mp he with h | h
      · exact hh0 e h
      · exact hh e h

/-- A call with a speed test active before its end time is SpeedTest and nothing else, and
the kind and the end time are as before. -/
theorem ProcessData_active {σ : Type} (env : Env σ) (t : Nat) (w : World σ)
    (hactive : w.s_usbSpeedTestType ≠ UsbSpeedTestEnum.stNone)
    (htime : t < w.s_usbSpeedTestEndTime) :
    BusPirateConsole_ProcessData env t w = ⟨SpeedTest env t w, Completion.returned⟩ ∧
      (SpeedTest env t w).s_usbSpeedTestType = w.s_usbSpeedTestType ∧
      (SpeedTest env t w).s_usbSpeedTestEndTime = w.s_usbSpeedTestEndTime := by
  obtain ⟨rx, tx, ext, h, _⟩ := SpeedTest_running env t w htime
  refine ⟨?_, by rw [h], by rw [h]⟩
  unfold BusPirateConsole_ProcessData
  rw [if_pos hactive]
  simp only []
  rw [if_pos]
  rw [h]
  exact hactive

/-- A speed test stays armed through any sequence of passes sampled before its end time,
and none of those passes ends the sequence. -/
theorem run_active {σ : Type} (kind : UsbSpeedTestEnum) (endTime : Nat)
    (hk : kind ≠ UsbSpeedTestEnum.stNone) (passes : List (Pass σ)) :
    ∀ (w : World σ), w.s_usbSpeedTestType = kind → w.s_usbSpeedTestEndTime = endTime →
      (∀ q ∈ passes, q.currentTime < endTime) →
      (run passes w).s_usbSpeedTestType = kind ∧
      (run passes w).s_usbSpeedTestEndTime = endTime ∧
      ∀ rest, run (passes ++ rest) w = run rest (run passes w) := by
  induction passes with
  | nil => intro w h1 h2 _; exact ⟨h1, h2, fun _ => rfl⟩
  | cons p ps ih =>
    intro w h1 h2 hq
    have hact : (p.enter w).s_usbSpeedTestType ≠ UsbSpeedTestEnum.stNone := by
      show w.s_usbSpeedTestType ≠ _
      rw [h1]; exact hk
    have htime : p.currentTime < (p.enter w).s_usbSpeedTestEndTime := by
      show _ < w.s_usbSpeedTestEndTime
      rw [h2]; exact hq p (List.mem_cons_self _ _)
    obtain ⟨heq, hty, hend⟩ := ProcessData_active p.env p.currentTime (p.enter w) hact htime
    have hstep : ∀ l, run (p :: l) w = run l (SpeedTest p.env p.currentTime (p.enter w)) := by
      intro l
      rw [run, heq]
    have := ih (SpeedTest p.env p.currentTime (p.enter w)) (by rw [hty]; exact h1)
      (by rw [hend]; exact h2) (fun q hq' => hq q (List.mem_cons_of_mem _ hq'))
    refine ⟨by rw [hstep]; exact this.1, by rw [hstep]; exact this.2.1, ?_⟩
    intro rest
    rw [List.cons_append, hstep, hstep]
    exact this.2.2 rest

/-- C6. A speed test armed at time `T`, with `T + 5000` representable in 64 bits, has its
end time at `T + 5000`.  Through any sequence of calls sampled before `T + 5000` the kind
and the end time are unchanged.  The first call sampled at or after `T + 5000` returns
with the kind None, having queued exactly the completion line (EOL, the text "USB speed
test finished.", EOL) followed by the prompt, and with the entry into SpeedTest as its
only call: the console loop does nothing in that call.  A call entered with the kind None
never enters SpeedTest and makes no call of the USB transport: the events it adds to the
trace are events of the console loop and of command handlers. -/
theorem C6_speed_test_lifecycle {σ : Type} (T : Nat) (hT : T + 5000 < 2 ^ 64)
    (kind : UsbSpeedTestEnum) (hk : kind ≠ UsbSpeedTestEnum.stNone) (w0 : World σ) :
    (armSpeedTest kind T w0).s_usbSpeedTestType = kind ∧
    (armSpeedTest kind T w0).s_usbSpeedTestEndTime = T + 5000 ∧
    (∀ passes : List (Pass σ), (∀ q ∈ passes, q.currentTime < T + 5000) →
      (run passes (armSpeedTest kind T w0)).s_usbSpeedTestType = kind ∧
      (run passes (armSpeedTest kind T w0)).s_usbSpeedTestEndTime = T + 5000 ∧
      ∀ p : Pass σ, T + 5000 ≤ p.currentTime →
        run (passes ++ [p]) (armSpeedTest kind T w0) =
          { p.enter (run passes (armSpeedTest kind T w0)) with
            tx := (p.enter (run passes (armSpeedTest kind T w0))).tx.write
              (EOL ++ "USB speed test finished.".toList ++ EOL ++ ">".toList),
            s_usbSpeedTestType := UsbSpeedTestEnum.stNone,
            calls := (run passes (armSpeedTest kind T w0)).calls ++ [Event.SpeedTest] }) ∧
    (∀ (env : Env σ) (t : Nat) (w : World σ),
      w.s_usbSpeedTestType = UsbSpeedTestEnum.stNone →
      ∃ ext, (BusPirateConsole_ProcessData env t w).world.calls = w.calls ++ ext ∧
        Event.SpeedTest ∉ ext ∧ ∀ e ∈ ext, e.fromLoop = true ∨ e.fromHandler = true) := by
  have hend : (armSpeedTest kind T w0).s_usbSpeedTestEndTime = T + 5000 := by
    show (T + TEST_TIME_IN_MS) % 2 ^ 64 = T + 5000
    exact Nat.mod_eq_of_lt hT
  refine ⟨rfl, hend, ?_, ?_⟩
  · intro passes hq
    obtain ⟨h1, h2, h3⟩ := run_active kind (T + 5000) hk passes (armSpeedTest kind T w0) rfl
      hend hq
    refine ⟨h1, h2, ?_⟩
    intro p hp
    rw [h3 [p]]
    generalize run passes (armSpeedTest kind T w0) = w at h1 h2
    have hfin := SpeedTest_finished p.env p.currentTime (p.enter w)
      (by show w.s_usbSpeedTestEndTime ≤ _; rw [h2]; exact hp)
    have hpd : BusPirateConsole_ProcessData p.env p.currentTime (p.enter w) =
        ⟨SpeedTest p.env p.currentTime (p.enter w), Completion.returned⟩ := by
      unfold BusPirateConsole_ProcessData
      rw [if_pos (by show w.s_usbSpeedTestType ≠ _; rw [h1]; exact hk)]
      simp only []
      rw [hfin]
      rw [if_neg (by simp)]
      exact consoleLoop_blocked p.env p.currentTime 100 _ (by
        simp [CUsbBuffer.IsEmpty, CUsbBuffer.write])
    rw [run, hpd, hfin]
    rfl
  · intro env t w hnone
    unfold BusPirateConsole_ProcessData
    rw [if_neg (by simp [hnone])]
    obtain ⟨ext, hc, hh⟩ := consoleLoop_events env t 100 w
    refine ⟨ext, hc, ?_, hh⟩
    intro hm
    rcases hh _ hm with h | h <;> exact Bool.noConfusion h

theorem C6_speed_test_lifecycle_witness :
    (run [⟨sampleEnv true, [], 0, 1000⟩, ⟨sampleEnv true, "x".toList, 3, 5999⟩]
      (armSpeedTest UsbSpeedTestEnum.stRxWithCircularBuffer 1000
        (sampleWorld 64 64 []))).s_usbSpeedTestType =
      UsbSpeedTestEnum.stRxWithCircularBuffer :=
  ((C6_speed_test_lifecycle 1000 (by decide) UsbSpeedTestEnum.stRxWithCircularBuffer
    (by decide) (sampleWorld 64 64 [])).2.2.1
    [⟨sampleEnv true, [], 0, 1000⟩, ⟨sampleEnv true, "x".toList, 3, 5999⟩]
    (by decide)).1

/-- A call in which the first byte read completes a command line: the call is executeLine
for that line, entered in the state the accumulator left. -/
theorem ProcessData_line {σ : Type} (env : Env σ) (t : Nat) (w : World σ) (byte : Char)
    (rest cmd : List Char) (hnone : w.s_usbSpeedTestType = UsbSpeedTestEnum.stNone)
    (htx : w.tx.elems = []) (hrx : w.rx.elems = byte :: rest) (hb : byte ≠ BIN_MODE_CHAR)
    (hcmd : (env.AddChar w.s_console byte w.tx).2.2 = some cmd) :
    BusPirateConsole_ProcessData env t w =
      executeLine env t cmd
        { w with
          rx := { w.rx with elems := rest },
          tx := (env.AddChar w.s_console byte w.tx).2.1,
          s_binaryModeCount := 0,
          s_console := (env.AddChar w.s_console byte w.tx).1,
          calls := w.calls ++ [Event.ReadElement byte, Event.AddChar byte] } := by
  unfold BusPirateConsole_ProcessData
  rw [if_neg (by simp [hnone])]
  rw [consoleLoop_step env t 99 w byte rest hrx htx]
  rw [loopBody_other env t byte _ hb]
  simp only [hcmd]
  rfl

/-- No fault of a command handler leaves the entry point: the only exception it lets out is
the simulated protocol fault. -/
theorem ProcessData_threw {σ : Type} (env : Env σ) (t : Nat) (w : World σ) (what : String)
    (h : (BusPirateConsole_ProcessData env t w).how = Completion.threw what) :
    what = "Simulated protocol error." := by
  obtain ⟨ext, _, hcase⟩ := ProcessData_summary env t w
  rcases hcase with ⟨_, hret⟩ | ⟨cmd, w1, he, _⟩
  · rw [hret] at h; exact Completion.noConfusion h
  · rw [he] at h
    rcases executeLine_cases env t cmd w1 with
      ⟨_, h1⟩ | ⟨_, _, h1⟩ | ⟨_, _, _, h1⟩ | ⟨_, _, _, h1⟩ | ⟨_, _, h1⟩ <;> rw [h1] at h
    · exact Completion.noConfusion h
    · simp only [Completion.threw.injEq] at h
      exact h.symm
    · exact Completion.noConfusion h
    · exact Completion.noConfusion h
    · exact Completion.noConfusion h

/-- C9. When the handler of a completed command line throws a `std::exception` with message
`what`, the statements that follow the completed line return normally, in the state
ParseCommand was entered in (a handler throws before it changes anything) with
"Error processing command: ", the message and EOL queued, followed by the prompt; the
protocol-fault flag is clear.  For a call whose first byte read completes the line, with
no speed test active and the tx buffer empty, BusPirateConsole_ProcessData returns
normally in exactly that state: the bytes behind the line are still in the rx buffer,
the escape counter is 0, the kind is None and the accumulator is as AddChar left it, so
the next line is taken up like any other.  No handler fault ever leaves the entry point:
the only exception it lets out is the simulated protocol fault. -/
theorem C9_handler_fault_reported {σ : Type} (env : Env σ) (t : Nat) (what : String) :
    (∀ (cmd : List Char) (w1 : World σ),
      (ParseCommand env (cstr cmd) t
        (({ w1.print EOL with s_simulateProcolError := false } : World σ).log
          (Event.ParseCommand (cstr cmd)))).how = Completion.threw what →
      executeLine env t cmd w1 =
        ⟨{ w1 with
          tx := w1.tx.write (EOL ++ ("Error processing command: ".toList ++ what.toList ++ EOL)
            ++ ">".toList),
          s_simulateProcolError := false,
          calls := w1.calls ++ [Event.ParseCommand (cstr cmd)] }, Completion.returned⟩) ∧
    (∀ (w : World σ) (byte : Char) (rest cmd : List Char),
      w.s_usbSpeedTestType = UsbSpeedTestEnum.stNone → w.tx.elems = [] →
      w.rx.elems = byte :: rest → byte ≠ BIN_MODE_CHAR →
      (env.AddChar w.s_console byte w.tx).2.2 = some cmd →
      (ParseCommand env (cstr cmd) t
        { w with
          rx := { w.rx with elems := rest },
          tx := (env.AddChar w.s_console byte w.tx).2.1.write EOL,
          s_binaryModeCount := 0,
          s_simulateProcolError := false,
          s_console := (env.AddChar w.s_console byte w.tx).1,
          calls := w.calls ++ [Event.ReadElement byte, Event.AddChar byte,
            Event.ParseCommand (cstr cmd)] }).how = Completion.threw what →
      BusPirateConsole_ProcessData env t w =
        ⟨{ w with
          rx := { w.rx with elems := rest },
          tx := (env.AddChar w.s_console byte w.tx).2.1.write
            (EOL ++ ("Error processing command: ".toList ++ what.toList ++ EOL) ++ ">".toList),
          s_binaryModeCount := 0,
          s_simulateProcolError := false,
          s_usbSpeedTestType := UsbSpeedTestEnum.stNone,
          s_console := (env.AddChar w.s_console byte w.tx).1,
          calls := w.calls ++ [Event.ReadElement byte, Event.AddChar byte,
            Event.ParseCommand (cstr cmd)] }, Completion.returned⟩) ∧
    (∀ (w : World σ) (m : String),
      (BusPirateConsole_ProcessData env t w).how = Completion.threw m →
      m = "Simulated protocol error.") := by
  have hline : ∀ (cmd : List Char) (w1 : World σ),
      (ParseCommand env (cstr cmd) t
        (({ w1.print EOL with s_simulateProcolError := false } : World σ).log
          (Event.ParseCommand (cstr cmd)))).how = Completion.threw what →
      executeLine env t cmd w1 =
        ⟨{ w1 with
          tx := w1.tx.write (EOL ++ ("Error processing command: ".toList ++ what.toList ++ EOL)
            ++ ">".toList),
          s_simulateProcolError := false,
          calls := w1.calls ++ [Event.ParseCommand (cstr cmd)] }, Completion.returned⟩ := by
    intro cmd w1 h
    rcases executeLine_cases env t cmd w1 with
      ⟨hr, _⟩ | ⟨hs, hf, _⟩ | ⟨_, m, hpc, he⟩ | ⟨_, _, hret, _⟩ | ⟨hj, h0, _⟩
    rotate_right
    · rw [(ParseCommand_halted env (cstr cmd) t _).mpr (Or.inr ⟨hj, h0⟩)] at h
      exact Completion.noConfusion h
    · rw [(ParseCommand_halted env (cstr cmd) t _).mpr (Or.inl hr)] at h
      exact Completion.noConfusion h
    · have hsome := ParseCommand_some env (cstr cmd) t
        (({ w1.print EOL with s_simulateProcolError := false } : World σ).log
          (Event.ParseCommand (cstr cmd))) _ hs
      rw [hsome] at h
      simp only [runCommand] at h
      rcases SimulateError_shape (paramOf (cstr cmd))
        (({ w1.print EOL with s_simulateProcolError := false } : World σ).log
          (Event.ParseCommand (cstr cmd))) with ⟨hf2, _⟩ | ⟨_, h5⟩
      · rw [hf] at hf2; exact Bool.noConfusion hf2
      · rw [h5] at h; exact Completion.noConfusion h
    · rw [hpc] at h
      simp only [Completion.threw.injEq] at h
      subst h
      rw [he]
      simp [WritePrompt, World.print, World.log, CUsbBuffer.write, List.append_assoc]
    · rw [hret] at h
      exact Completion.noConfusion h
  refine ⟨hline, ?_, fun w m h => ProcessData_threw env t w m h⟩
  intro w byte rest cmd hnone htx hrx hb hcmd hthrew
  rw [ProcessData_line env t w byte rest cmd hnone htx hrx hb hcmd]
  rw [hline cmd _ (by
    simpa [World.print, World.log, CUsbBuffer.write] using hthrew)]
  simp [CUsbBuffer.write, hnone, List.append_assoc]

theorem C9_handler_fault_reported_witness :
    (BusPirateConsole_ProcessData (sampleEnv true) 0
      (sampleLineWorld "SimulateError command".toList "i".toList)).how =
      Completion.returned := by
  rw [(C9_handler_fault_reported (sampleEnv true) 0 "Simulated command error.").2.1
    (sampleLineWorld "SimulateError command".toList "i".toList) (Char.ofNat 13) "i".toList
    "SimulateError command".toList rfl rfl rfl (by decide) rfl (by decide)]

/-! ### Tokens -/

theorem IsCharInSet_blank (c : Char) : IsCharInSet c SPACE_AND_TAB = isBlank c := by
  simp [IsCharInSet, SPACE_AND_TAB, isBlank]

theorem SkipCharsInSet_eq (p : List Char) :
    SkipCharsInSet p SPACE_AND_TAB = p.dropWhile isBlank := by
  unfold SkipCharsInSet
  congr 1
  funext c
  exact IsCharInSet_blank c

theorem SkipCharsNotInSet_eq (p : List Char) :
    SkipCharsNotInSet p SPACE_AND_TAB = p.dropWhile (fun c => !isBlank c) := by
  unfold SkipCharsNotInSet
  congr 1
  funext c
  rw [IsCharInSet_blank]

theorem dropWhile_append_all (q : Char → Bool) (a b : List Char) (h : ∀ x ∈ a, q x = true) :
    (a ++ b).dropWhile q = b.dropWhile q := by
  induction a with
  | nil => rfl
  | cons x a ih =>
    rw [List.cons_append, List.dropWhile_cons, h x (List.mem_cons_self _ _)]
    exact ih (fun y hy => h y (List.mem_cons_of_mem _ hy))

theorem takeWhile_append_all (q : Char → Bool) (a b : List Char) (h : ∀ x ∈ a, q x = true) :
    (a ++ b).takeWhile q = a ++ b.takeWhile q := by
  induction a with
  | nil => rfl
  | cons x a ih =>
    rw [List.cons_append, List.takeWhile_cons, h x (List.mem_cons_self _ _)]
    simp only [if_true, List.cons_append]
    rw [ih (fun y hy => h y (List.mem_cons_of_mem _ hy))]

theorem span_dropWhile (q : Char → Bool) (s : List Char) :
    span s (s.dropWhile q) = s.takeWhile q := by
  unfold span
  have key : ∀ a b : List Char, (a ++ b).take ((a ++ b).length - b.length) = a := by
    intro a b; simp
  have := key (s.takeWhile q) (s.dropWhile q)
  rw [List.takeWhile_append_dropWhile] at this
  exact this

/-- The head of what dropWhile leaves does not satisfy the predicate. -/
theorem dropWhile_fixed (q : Char → Bool) (s : List Char) :
    (s.dropWhile q).dropWhile q = s.dropWhile q := by
  induction s with
  | nil => rfl
  | cons x s ih =>
    by_cases hx : q x = true
    · rw [List.dropWhile_cons, hx]; exact ih
    · have hx' : q x = false := by simpa using hx
      have : (x :: s).dropWhile q = x :: s := by rw [List.dropWhile_cons, hx']; rfl
      rw [this, this]

theorem toupper_blank (c : Char) (h : isBlank c = true) : toupper c = c := by
  unfold isBlank at h
  simp only [Bool.or_eq_true, decide_eq_true_eq] at h
  rcases h with h | h <;> subst h <;> decide

/-- A text that equals, up to case, a name without blanks has no blanks itself. -/
theorem no_blank_of_eqIgnoreCase (tok name : List Char) (h : eqIgnoreCase tok name)
    (hn : ∀ u ∈ name.map toupper, isBlank u = false) : ∀ c ∈ tok, isBlank c = false := by
  intro c hc
  by_contra hb
  have hb' : isBlank c = true := by simpa using hb
  have hm : toupper c ∈ tok.map toupper := List.mem_map_of_mem _ hc
  unfold eqIgnoreCase at h
  rw [h, toupper_blank c hb'] at hm
  rw [hn c hm] at hb'
  exact Bool.noConfusion hb'

/-- The case-insensitive comparison of DoesStrMatch is equality up to ASCII letter case. -/
theorem DoesStrMatch_insensitive (str : List Char) :
    ∀ pattern, DoesStrMatch str pattern false = true ↔ eqIgnoreCase str pattern := by
  unfold eqIgnoreCase
  induction str with
  | nil =>
    intro pattern
    cases pattern <;> simp [DoesStrMatch]
  | cons c str ih =>
    intro pattern
    cases pattern with
    | nil => simp [DoesStrMatch]
    | cons m pattern =>
      rw [DoesStrMatch]
      by_cases hcm : c = m
      · subst hcm
        rw [if_pos rfl, ih]
        simp
      · rw [if_neg hcm]
        by_cases hu : toupper c = toupper m
        · rw [if_pos (by simp [hu]), ih]
          simp [hu]
        · rw [if_neg (by simp [hu])]
          simp [hu]

/-- The case-sensitive comparison of DoesStrMatch is equality. -/
theorem DoesStrMatch_sensitive (str : List Char) :
    ∀ pattern, DoesStrMatch str pattern true = true ↔ str = pattern := by
  induction str with
  | nil =>
    intro pattern
    cases pattern <;> simp [DoesStrMatch]
  | cons c str ih =>
    intro pattern
    cases pattern with
    | nil => simp [DoesStrMatch]
    | cons m pattern =>
      rw [DoesStrMatch]
      by_cases hcm : c = m
      · subst hcm
        rw [if_pos rfl, ih]
        simp
      · rw [if_neg hcm, if_neg (by simp)]
        simp [hcm]

/-- Whatever the mode, a token DoesStrMatch accepts equals the name up to case. -/
theorem DoesStrMatch_upper (str pattern : List Char) (cs : Bool)
    (h : DoesStrMatch str pattern cs = true) : eqIgnoreCase str pattern := by
  cases cs with
  | false => exact (DoesStrMatch_insensitive str pattern).mp h
  | true =>
    rw [(DoesStrMatch_sensitive str pattern).mp h]
    rfl

theorem dropWhile_not_of_all_blank (trail : List Char) (h : ∀ c ∈ trail, isBlank c = true) :
    trail.dropWhile (fun c => !isBlank c) = trail := by
  cases trail with
  | nil => rfl
  | cons x xs =>
    rw [List.dropWhile_cons, h x (List.mem_cons_self _ _)]
    rfl

theorem takeWhile_not_of_all_blank (trail : List Char) (h : ∀ c ∈ trail, isBlank c = true) :
    trail.takeWhile (fun c => !isBlank c) = [] := by
  cases trail with
  | nil => rfl
  | cons x xs =>
    rw [List.takeWhile_cons, h x (List.mem_cons_self _ _)]
    rfl

/-- A token without blanks followed by blanks only: the token and its end, as the skipping
routines find them. -/
theorem token_of_single (tok trail : List Char) (htok : ∀ c ∈ tok, isBlank c = false)
    (htrail : ∀ c ∈ trail, isBlank c = true) :
    SkipCharsNotInSet (tok ++ trail) SPACE_AND_TAB = trail ∧
    span (tok ++ trail) (SkipCharsNotInSet (tok ++ trail) SPACE_AND_TAB) = tok ∧
    SkipCharsInSet trail SPACE_AND_TAB = [] := by
  have hnb : ∀ x ∈ tok, (fun c => !isBlank c) x = true := by
    intro x hx; simp [htok x hx]
  have h1 : SkipCharsNotInSet (tok ++ trail) SPACE_AND_TAB = trail := by
    rw [SkipCharsNotInSet_eq, dropWhile_append_all _ tok trail hnb,
      dropWhile_not_of_all_blank trail htrail]
  refine ⟨h1, ?_, ?_⟩
  · rw [SkipCharsNotInSet_eq, span_dropWhile, takeWhile_append_all _ tok trail hnb,
      takeWhile_not_of_all_blank trail htrail, List.append_nil]
  · rw [SkipCharsInSet_eq, List.dropWhile_eq_nil_iff]
    exact htrail

theorem IsCmd_mismatch (tok cmdEnd : List Char) (name : String) (cs allow f : Bool)
    (h : ¬ eqIgnoreCase tok name.toList) : IsCmd tok cmdEnd name cs allow f = (false, f) := by
  unfold IsCmd
  rw [if_pos]
  have : DoesStrMatch tok name.toList cs ≠ true := fun hm => h (DoesStrMatch_upper _ _ _ hm)
  simpa using this

theorem IsCmd_true_iff (tok cmdEnd : List Char) (name : String) (cs allow f : Bool) :
    (IsCmd tok cmdEnd name cs allow f).1 = true ↔
      DoesStrMatch tok name.toList cs = true ∧
        (allow = true ∨ SkipCharsInSet cmdEnd SPACE_AND_TAB = []) := by
  unfold IsCmd
  cases hm : DoesStrMatch tok name.toList cs <;> cases allow <;>
    by_cases hs : SkipCharsInSet cmdEnd SPACE_AND_TAB = [] <;> simp [hs]

theorem IsCmd_flag_of_true (tok cmdEnd : List Char) (name : String) (cs allow f : Bool)
    (h : (IsCmd tok cmdEnd name cs allow f).1 = true) :
    (IsCmd tok cmdEnd name cs allow f).2 = f := by
  unfold IsCmd at h ⊢
  cases hm : DoesStrMatch tok name.toList cs <;> cases allow <;>
    by_cases hs : SkipCharsInSet cmdEnd SPACE_AND_TAB = [] <;> simp_all

/-- When the chain of ProcessUsbSpeedTestCmd selects a test type, some entry of the table
was matched, without extra parameters. -/
theorem selectSpeedTest_some (param paramEnd : List Char) :
    ∀ (table : List (String × UsbSpeedTestEnum)) (f : Bool),
      (selectSpeedTest param paramEnd table f).1 ≠ UsbSpeedTestEnum.stNone →
      ∃ name kind, (name, kind) ∈ table ∧ DoesStrMatch param name.toList false = true ∧
        SkipCharsInSet paramEnd SPACE_AND_TAB = [] := by
  intro table
  induction table with
  | nil => intro f h; exact absurd rfl h
  | cons e rest ih =>
    intro f h
    obtain ⟨name, kind⟩ := e
    rw [selectSpeedTest] at h
    split at h
    · rename_i ht
      have := (IsCmd_true_iff param paramEnd name false false f).mp ht
      refine ⟨name, kind, List.mem_cons_self _ _, this.1, ?_⟩
      rcases this.2 with h2 | h2
      · exact Bool.noConfusion h2
      · exact h2
    · obtain ⟨n, k, hm, h1, h2⟩ := ih _ h
      exact ⟨n, k, List.mem_cons_of_mem _ hm, h1, h2⟩

/-- The names of the speed tests are pairwise different up to case: a token that equals
the name of an entry up to case, followed by blanks only, makes the chain select the test
type of that entry. -/
theorem selectSpeedTest_of_match (tok trail : List Char) (name : String)
    (kind : UsbSpeedTestEnum) (hmem : (name, kind) ∈ speedTestTable)
    (heq : eqIgnoreCase tok name.toList) (htrail : SkipCharsInSet trail SPACE_AND_TAB = []) :
    (selectSpeedTest tok trail speedTestTable false).1 = kind := by
  have hmatch : ∀ f, IsCmd tok trail name false false f = (true, f) := by
    intro f
    have h1 := (IsCmd_true_iff tok trail name false false f).mpr
      ⟨(DoesStrMatch_insensitive tok name.toList).mpr heq, Or.inr htrail⟩
    have h2 := IsCmd_flag_of_true tok trail name false false f h1
    exact Prod.ext h1 h2
  have hmis : ∀ (other : String) (f : Bool),
      name.toList.map toupper ≠ other.toList.map toupper →
      IsCmd tok trail other false false f = (false, f) := by
    intro other f hne
    apply IsCmd_mismatch
    intro h
    exact hne (heq.symm.trans h)
  simp only [speedTestTable, List.mem_cons, Prod.mk.injEq, List.mem_singleton,
    List.not_mem_nil, or_false] at hmem
  rcases hmem with ⟨hn, hk⟩ | ⟨hn, hk⟩ | ⟨hn, hk⟩ | ⟨hn, hk⟩ | ⟨hn, hk⟩ <;> subst hn <;> subst hk
  · simp only [speedTestTable, selectSpeedTest, hmatch, if_true]
  · simp only [speedTestTable, selectSpeedTest]
    rw [hmis "TxSimpleWithTimestamps" _ (by decide)]
    simp only [hmatch, Bool.false_eq_true, if_false, if_true]
  · simp only [speedTestTable, selectSpeedTest]
    rw [hmis "TxSimpleWithTimestamps" _ (by decide)]
    simp only [Bool.false_eq_true, if_false]
    rw [hmis "TxSimpleLoop" _ (by decide)]
    simp only [hmatch, Bool.false_eq_true, if_false, if_true]
  · simp only [speedTestTable, selectSpeedTest]
    rw [hmis "TxSimpleWithTimestamps" _ (by decide)]
    simp only [Bool.false_eq_true, if_false]
    rw [hmis "TxSimpleLoop" _ (by decide)]
    simp only [Bool.false_eq_true, if_false]
    rw [hmis "TxFastLoopCircularBuffer" _ (by decide)]
    simp only [hmatch, Bool.false_eq_true, if_false, if_true]
  · simp only [speedTestTable, selectSpeedTest]
    rw [hmis "TxSimpleWithTimestamps" _ (by decide)]
    simp only [Bool.false_eq_true, if_false]
    rw [hmis "TxSimpleLoop" _ (by decide)]
    simp only [Bool.false_eq_true, if_false]
    rw [hmis "TxFastLoopCircularBuffer" _ (by decide)]
    simp only [Bool.false_eq_true, if_false]
    rw [hmis "TxFastLoopRawUsb" _ (by decide)]
    simp only [hmatch, Bool.false_eq_true, if_false, if_true]

theorem speedTestTable_names :
    ∀ e ∈ speedTestTable, e.2 ≠ UsbSpeedTestEnum.stNone ∧ e.1.toList ≠ [] ∧
      ∀ u ∈ e.1.toList.map toupper, isBlank u = false := by
  decide

theorem ProcessUsbSpeedTestCmd_cases {σ : Type} (p : List Char) (t : Nat) (w : World σ) :
    (selectedSpeedTest p = UsbSpeedTestEnum.stNone ∧
      ∃ out, ProcessUsbSpeedTestCmd p t w = w.print out) ∨
    (selectedSpeedTest p ≠ UsbSpeedTestEnum.stNone ∧
      ProcessUsbSpeedTestCmd p t w = armSpeedTest (selectedSpeedTest p) t w) := by
  unfold ProcessUsbSpeedTestCmd selectedSpeedTest
  simp only []
  split
  · exact Or.inl ⟨rfl, _, rfl⟩
  · split
    · rename_i h; exact Or.inr ⟨h, rfl⟩
    · rename_i h
      refine Or.inl ⟨by simpa using h, ?_⟩
      split
      · exact ⟨_, rfl⟩
      · exact ⟨_, rfl⟩

/-- C8. ProcessUsbSpeedTestCmd arms a session exactly when the parameter region is a single
token that equals, up to ASCII letter case, one of the five names of the table
(TxSimpleWithTimestamps, TxSimpleLoop, TxFastLoopCircularBuffer, TxFastLoopRawUsb,
RxWithCircularBuffer), with nothing but spaces and tabs after it.  When it does, the kind
is the one the table gives for that name, the end time is `currentTime + 5000` (in 64
bits) and the scratch buffer is 1000 bytes, each of them a dot.  In every other case the
routine only prints: the kind, the end time and the scratch buffer are as before. -/
theorem C8_speed_test_arming {σ : Type} (p : List Char) (currentTime : Nat) (w : World σ) :
    (∀ name kind, (name, kind) ∈ speedTestTable → isSingleToken p name →
      ProcessUsbSpeedTestCmd p currentTime w = armSpeedTest kind currentTime w ∧
      kind ≠ UsbSpeedTestEnum.stNone ∧
      (ProcessUsbSpeedTestCmd p currentTime w).s_usbSpeedTestType = kind ∧
      (ProcessUsbSpeedTestCmd p currentTime w).s_usbSpeedTestEndTime =
        (currentTime + 5000) % 2 ^ 64 ∧
      (ProcessUsbSpeedTestCmd p currentTime w).s_usbSpeedTestBuffer.length = 1000 ∧
      ∀ b ∈ (ProcessUsbSpeedTestCmd p currentTime w).s_usbSpeedTestBuffer, b = '.') ∧
    ((∀ name kind, (name, kind) ∈ speedTestTable → ¬ isSingleToken p name) →
      (∃ out, ProcessUsbSpeedTestCmd p currentTime w = w.print out) ∧
      (ProcessUsbSpeedTestCmd p currentTime w).s_usbSpeedTestType = w.s_usbSpeedTestType ∧
      (ProcessUsbSpeedTestCmd p currentTime w).s_usbSpeedTestEndTime =
        w.s_usbSpeedTestEndTime ∧
      (ProcessUsbSpeedTestCmd p currentTime w).s_usbSpeedTestBuffer =
        w.s_usbSpeedTestBuffer) := by
  constructor
  · intro name kind hmem ⟨tok, trail, hp, htrail, heq⟩
    obtain ⟨hkind, hne, hnb⟩ := speedTestTable_names (name, kind) hmem
    simp only [] at hkind hne hnb
    have htok := no_blank_of_eqIgnoreCase tok name.toList heq hnb
    obtain ⟨h1, h2, h3⟩ := token_of_single tok trail htok htrail
    have hpne : p ≠ [] := by
      intro h0
      rw [h0] at hp
      have : tok = [] := (List.append_eq_nil.mp hp.symm).1
      rw [this] at heq
      unfold eqIgnoreCase at heq
      have : name.toList = [] := by simpa using heq.symm
      exact hne this
    have hsel : selectedSpeedTest p = kind := by
      unfold selectedSpeedTest
      rw [if_neg hpne, hp, h2, h1]
      exact selectSpeedTest_of_match tok trail name kind hmem heq h3
    have harm : ProcessUsbSpeedTestCmd p currentTime w = armSpeedTest kind currentTime w := by
      rcases ProcessUsbSpeedTestCmd_cases p currentTime w with ⟨h, _⟩ | ⟨_, h⟩
      · rw [hsel] at h; exact absurd h hkind
      · rw [h, hsel]
    refine ⟨harm, hkind, by rw [harm]; rfl, by rw [harm]; rfl, by rw [harm]; exact List.length_replicate _ _, ?_⟩
    rw [harm]
    intro b hb
    exact List.eq_of_mem_replicate hb
  · intro hnone
    rcases ProcessUsbSpeedTestCmd_cases p currentTime w with ⟨_, out, h⟩ | ⟨hsel, _⟩
    · exact ⟨⟨out, h⟩, by rw [h]; rfl, by rw [h]; rfl, by rw [h]; rfl⟩
    · exfalso
      unfold selectedSpeedTest at hsel
      by_cases hp : p = []
      · rw [if_pos hp] at hsel; exact hsel rfl
      · rw [if_neg hp] at hsel
        obtain ⟨name, kind, hmem, hmatch, hextra⟩ := selectSpeedTest_some _ _ _ _ hsel
        apply hnone name kind hmem
        refine ⟨span p (SkipCharsNotInSet p SPACE_AND_TAB), SkipCharsNotInSet p SPACE_AND_TAB,
          ?_, ?_, (DoesStrMatch_insensitive _ _).mp hmatch⟩
        · rw [SkipCharsNotInSet_eq, span_dropWhile, List.takeWhile_append_dropWhile]
        · rw [SkipCharsInSet_eq, List.dropWhile_eq_nil_iff] at hextra
          exact hextra

theorem C8_speed_test_arming_witness :
    ProcessUsbSpeedTestCmd ("txFASTloopRAWusb".toList ++ [' ', Char.ofNat 9]) 123
        (sampleWorld 64 64 []) =
      armSpeedTest UsbSpeedTestEnum.stTxFastLoopRawUsb 123 (sampleWorld 64 64 []) :=
  ((C8_speed_test_arming ("txFASTloopRAWusb".toList ++ [' ', Char.ofNat 9]) 123
    (sampleWorld 64 64 [])).1 "TxFastLoopRawUsb" UsbSpeedTestEnum.stTxFastLoopRawUsb
    (by decide) ⟨"txFASTloopRAWusb".toList, [' ', Char.ofNat 9], rfl, by decide,
      by unfold eqIgnoreCase; decide⟩).1

/-- When the chain of ProcessCommand enters a branch, some entry of the table for that
branch was matched, with parameters only if the entry allows them. -/
theorem selectCommand_some (tok cmdEnd : List Char) (c : Command) :
    ∀ (table : List CommandEntry) (f : Bool),
      (selectCommand tok cmdEnd table f).1 = some c →
      ∃ e ∈ table, e.command = c ∧ DoesStrMatch tok e.cmdName.toList e.isCaseSensitive = true ∧
        (e.allowExtraParams = true ∨ SkipCharsInSet cmdEnd SPACE_AND_TAB = []) := by
  intro table
  induction table with
  | nil => intro f h; exact Option.noConfusion h
  | cons e rest ih =>
    intro f h
    rw [selectCommand] at h
    split at h
    · rename_i ht
      have := (IsCmd_true_iff tok cmdEnd e.cmdName e.isCaseSensitive e.allowExtraParams f).mp ht
      simp only [Option.some.injEq] at h
      exact ⟨e, List.mem_cons_self _ _, h, this.1, this.2⟩
    · obtain ⟨e', hm, h1, h2, h3⟩ := ih _ h
      exact ⟨e', List.mem_cons_of_mem _ hm, h1, h2, h3⟩

/-- When some entry of the table is matched and every entry that is matched leads to the
branch `c`, the chain of ProcessCommand enters `c`. -/
theorem selectCommand_eq_some (tok cmdEnd : List Char) (c : Command) :
    ∀ (table : List CommandEntry) (f : Bool),
      (∃ e ∈ table, DoesStrMatch tok e.cmdName.toList e.isCaseSensitive = true ∧
        (e.allowExtraParams = true ∨ SkipCharsInSet cmdEnd SPACE_AND_TAB = [])) →
      (∀ e ∈ table, DoesStrMatch tok e.cmdName.toList e.isCaseSensitive = true →
        e.command = c) →
      (selectCommand tok cmdEnd table f).1 = some c := by
  intro table
  induction table with
  | nil => intro f ⟨e, he, _⟩ _; exact absurd he (List.not_mem_nil _)
  | cons e rest ih =>
    intro f ⟨e', he', hm', hx'⟩ hall
    rw [selectCommand]
    split
    · rename_i ht
      have := (IsCmd_true_iff tok cmdEnd e.cmdName e.isCaseSensitive e.allowExtraParams f).mp ht
      simp only [Option.some.injEq]
      exact hall e (List.mem_cons_self _ _) this.1
    · rename_i ht
      apply ih
      · rcases List.mem_cons.mp he' with h | h
        · subst h
          exact absurd ((IsCmd_true_iff tok cmdEnd e'.cmdName e'.isCaseSensitive
            e'.allowExtraParams f).mpr ⟨hm', hx'⟩) ht
        · exact ⟨e', h, hm', hx'⟩
      · intro e2 he2 hm2
        exact hall e2 (List.mem_cons_of_mem _ he2) hm2

/-- The names of the command table are pairwise different up to case, the two names of the
help branch apart: entries whose names agree up to case lead to the same branch. -/
theorem commandTable_upper :
    ∀ e ∈ commandTable, ∀ e2 ∈ commandTable,
      e.cmdName.toList.map toupper = e2.cmdName.toList.map toupper → e.command = e2.command := by
  decide

theorem commandTable_names :
    ∀ e ∈ commandTable, e.cmdName.toList ≠ [] ∧
      ∀ u ∈ e.cmdName.toList.map toupper, isBlank u = false := by
  decide

/-- A command line taken apart the way ParseCommand does it. -/
theorem line_parts (line : List Char) :
    line = line.takeWhile isBlank ++ SkipCharsInSet line SPACE_AND_TAB ∧
    SkipCharsInSet line SPACE_AND_TAB =
      span (SkipCharsInSet line SPACE_AND_TAB)
          (SkipCharsNotInSet (SkipCharsInSet line SPACE_AND_TAB) SPACE_AND_TAB) ++
        SkipCharsNotInSet (SkipCharsInSet line SPACE_AND_TAB) SPACE_AND_TAB ∧
    SkipCharsNotInSet (SkipCharsInSet line SPACE_AND_TAB) SPACE_AND_TAB =
      (SkipCharsNotInSet (SkipCharsInSet line SPACE_AND_TAB) SPACE_AND_TAB).takeWhile isBlank ++
        paramOf line := by
  refine ⟨?_, ?_, ?_⟩
  · rw [SkipCharsInSet_eq, List.takeWhile_append_dropWhile]
  · rw [SkipCharsNotInSet_eq, span_dropWhile, List.takeWhile_append_dropWhile]
  · unfold paramOf
    rw [SkipCharsInSet_eq (SkipCharsNotInSet _ _), List.takeWhile_append_dropWhile]

/-- A text that starts with a token without blanks, after leading blanks: what the skipping
routines of ParseCommand find. -/
theorem line_of_parts (lead tok rest : List Char) (hlead : ∀ c ∈ lead, isBlank c = true)
    (htok : ∀ c ∈ tok, isBlank c = false) (hne : tok ≠ [])
    (hrest : rest.dropWhile (fun c => !isBlank c) = rest) :
    SkipCharsInSet (lead ++ (tok ++ rest)) SPACE_AND_TAB = tok ++ rest ∧
    SkipCharsNotInSet (tok ++ rest) SPACE_AND_TAB = rest ∧
    span (tok ++ rest) rest = tok := by
  have hnb : ∀ x ∈ tok, (fun c => !isBlank c) x = true := by
    intro x hx; simp [htok x hx]
  have h2 : SkipCharsNotInSet (tok ++ rest) SPACE_AND_TAB = rest := by
    rw [SkipCharsNotInSet_eq, dropWhile_append_all _ tok rest hnb, hrest]
  refine ⟨?_, h2, ?_⟩
  · rw [SkipCharsInSet_eq, dropWhile_append_all _ lead _ hlead]
    cases tok with
    | nil => exact absurd rfl hne
    | cons x xs =>
      rw [List.cons_append, List.dropWhile_cons, htok x (List.mem_cons_self _ _)]
      rfl
  · have := span_dropWhile (fun c => !isBlank c) (tok ++ rest)
    rw [← SkipCharsNotInSet_eq, h2] at this
    rw [this, takeWhile_append_all _ tok rest hnb]
    have : rest.takeWhile (fun c => !isBlank c) = [] := by
      have h := List.takeWhile_append_dropWhile (fun c => !isBlank c) rest
      rw [hrest] at h
      exact List.append_left_eq_self.mp h
    rw [this, List.append_nil]

theorem head_of_dropWhile_fixed (q : Char → Bool) (x : Char) (xs : List Char)
    (h : (x :: xs).dropWhile q = x :: xs) : q x = false := by
  by_contra hx
  have hx' : q x = true := by simpa using hx
  rw [List.dropWhile_cons, hx'] at h
  have hl := (List.dropWhile_sublist q (l := xs)).length_le
  simp only [if_true] at h
  rw [h] at hl
  simp at hl

/-- A command line split the way ParseCommand does it: leading blanks, the command token,
separating blanks and the parameter region; the separator is not empty when there are
parameters. -/
theorem line_split (line : List Char) :
    ∃ lead sep,
      line = lead ++ span (SkipCharsInSet line SPACE_AND_TAB)
        (SkipCharsNotInSet (SkipCharsInSet line SPACE_AND_TAB) SPACE_AND_TAB) ++ sep ++
        paramOf line ∧
      (∀ c ∈ lead, isBlank c = true) ∧ (∀ c ∈ sep, isBlank c = true) ∧
      (paramOf line ≠ [] → sep ≠ []) := by
  obtain ⟨h1, h2, h3⟩ := line_parts line
  generalize hs : SkipCharsInSet line SPACE_AND_TAB = s at h1 h2 h3
  generalize he : SkipCharsNotInSet s SPACE_AND_TAB = cmdEnd at h2 h3
  have hfix1 : cmdEnd.dropWhile (fun c => !isBlank c) = cmdEnd := by
    rw [← he, SkipCharsNotInSet_eq]
    exact dropWhile_fixed _ _
  have hp : paramOf line = cmdEnd.dropWhile isBlank := by
    unfold paramOf
    rw [hs, he, SkipCharsInSet_eq]
  have hfix2 : (paramOf line).dropWhile isBlank = paramOf line := by
    rw [hp]
    exact dropWhile_fixed _ _
  refine ⟨line.takeWhile isBlank, cmdEnd.takeWhile isBlank, ?_, ?_, ?_, ?_⟩
  · calc line = line.takeWhile isBlank ++ s := h1
      _ = line.takeWhile isBlank ++ (span s cmdEnd ++ cmdEnd) := congrArg _ h2
      _ = line.takeWhile isBlank ++ (span s cmdEnd ++ (cmdEnd.takeWhile isBlank ++
            paramOf line)) := congrArg (fun x => line.takeWhile isBlank ++ (span s cmdEnd ++ x)) h3
      _ = _ := by simp only [List.append_assoc]
  · intro c hcm
    exact List.mem_takeWhile_imp hcm
  · intro c hcm
    exact List.mem_takeWhile_imp hcm
  · intro hpne hsep
    rw [hsep, List.nil_append] at h3
    rw [h3] at hfix1
    cases hpl : paramOf line with
    | nil => exact hpne hpl
    | cons x xs =>
      rw [hpl] at hfix1 hfix2
      have a1 := head_of_dropWhile_fixed _ x xs hfix1
      have a2 := head_of_dropWhile_fixed _ x xs hfix2
      simp only [] at a1
      rw [a2] at a1
      exact Bool.noConfusion a1

theorem commandTable_simulateError :
    ∀ e ∈ commandTable, e.command = Command.simulateError →
      e.cmdName = CMDNAME_SIMULATE_ERROR := by
  decide

theorem setsProtocolFlag_iff (p : List Char) :
    setsProtocolFlag p = true ↔
      p ≠ [] ∧ SkipCharsInSet (SkipCharsNotInSet p SPACE_AND_TAB) SPACE_AND_TAB = [] ∧
      DoesStrMatch (span p (SkipCharsNotInSet p SPACE_AND_TAB)) "command".toList false = false ∧
      DoesStrMatch (span p (SkipCharsNotInSet p SPACE_AND_TAB)) "protocol".toList false = true := by
  unfold setsProtocolFlag
  generalize DoesStrMatch (span p (SkipCharsNotInSet p SPACE_AND_TAB)) "command".toList false = a
  generalize DoesStrMatch (span p (SkipCharsNotInSet p SPACE_AND_TAB)) "protocol".toList false = b
  generalize SkipCharsInSet (SkipCharsNotInSet p SPACE_AND_TAB) SPACE_AND_TAB = q
  by_cases hp : p = [] <;> by_cases hq : q = [] <;> cases a <;> cases b <;> simp [hp, hq]

/-- The tests of the source that lead SimulateError to set the protocol-fault flag, on a
line that enters the SimulateError branch, say that the line is the command SimulateError
with the single argument `protocol`, both up to letter case. -/
theorem simulateProtocol_iff (line : List Char) :
    (commandOf line = some Command.simulateError ∧ setsProtocolFlag (paramOf line) = true) ↔
      isSimulateProtocolLine line := by
  constructor
  · intro ⟨hc, hf⟩
    obtain ⟨lead, sep, hline, hlead, hsep, hsne⟩ := line_split line
    unfold commandOf at hc
    simp only [] at hc
    split at hc
    · obtain ⟨e, hmem, hcmd, hmatch, _⟩ := selectCommand_some _ _ _ _ _ hc
      have he : e.cmdName = CMDNAME_SIMULATE_ERROR := commandTable_simulateError e hmem hcmd
      rw [he] at hmatch
      obtain ⟨hpne, hskip, _, hproto⟩ := (setsProtocolFlag_iff (paramOf line)).mp hf
      refine ⟨lead, _, sep, paramOf line, hline, hlead, hsep, hsne hpne,
        DoesStrMatch_upper _ _ _ hmatch, ?_⟩
      refine ⟨span (paramOf line) (SkipCharsNotInSet (paramOf line) SPACE_AND_TAB),
        SkipCharsNotInSet (paramOf line) SPACE_AND_TAB, ?_, ?_,
        (DoesStrMatch_insensitive _ _).mp hproto⟩
      · rw [SkipCharsNotInSet_eq, span_dropWhile, List.takeWhile_append_dropWhile]
      · rw [SkipCharsInSet_eq, List.dropWhile_eq_nil_iff] at hskip
        exact hskip
    · exact Option.noConfusion hc
  · intro ⟨lead, tok, sep, p, hline, hlead, hsep, hsne, htokeq, ptok, trail, hp, htrail, hpeq⟩
    have hsim : (⟨CMDNAME_SIMULATE_ERROR, false, true, Command.simulateError⟩ : CommandEntry) ∈
        commandTable := by decide
    obtain ⟨hne, hnb⟩ := commandTable_names _ hsim
    simp only [] at hne hnb
    have htok := no_blank_of_eqIgnoreCase tok _ htokeq hnb
    have htokne : tok ≠ [] := by
      intro h0
      rw [h0] at htokeq
      unfold eqIgnoreCase at htokeq
      exact hne (by simpa using htokeq.symm)
    have hptok := no_blank_of_eqIgnoreCase ptok "protocol".toList hpeq (by decide)
    have hptokne : ptok ≠ [] := by
      intro h0
      rw [h0] at hpeq
      unfold eqIgnoreCase at hpeq
      revert hpeq
      decide
    have hrest : (sep ++ p).dropWhile (fun c => !isBlank c) = sep ++ p := by
      cases sep with
      | nil => exact absurd rfl hsne
      | cons x xs =>
        rw [List.cons_append, List.dropWhile_cons, hsep x (List.mem_cons_self _ _)]
        rfl
    have hline' : line = lead ++ (tok ++ (sep ++ p)) := by
      rw [hline]; simp only [List.append_assoc]
    obtain ⟨l1, l2, l3⟩ := line_of_parts lead tok (sep ++ p) hlead htok htokne hrest
    have hparam : paramOf line = p := by
      unfold paramOf
      rw [hline', l1, l2, SkipCharsInSet_eq, dropWhile_append_all _ sep p hsep, hp]
      cases ptok with
      | nil => exact absurd rfl hptokne
      | cons x xs =>
        rw [List.cons_append, List.dropWhile_cons, hptok x (List.mem_cons_self _ _)]
        rfl
    constructor
    · unfold commandOf
      simp only []
      rw [hline', l1, l2, l3]
      rw [if_pos (by
        intro h0
        exact htokne (List.append_eq_nil.mp h0).1)]
      apply selectCommand_eq_some
      · exact ⟨_, hsim, (DoesStrMatch_insensitive _ _).mpr htokeq, Or.inl rfl⟩
      · intro e he hm
        have h1 := DoesStrMatch_upper _ _ _ hm
        exact commandTable_upper e he _ hsim (h1.symm.trans htokeq)
    · rw [hparam, setsProtocolFlag_iff]
      obtain ⟨t1, t2, t3⟩ := token_of_single ptok trail hptok htrail
      rw [hp, t2, t1]
      refine ⟨?_, t3, ?_, (DoesStrMatch_insensitive _ _).mpr hpeq⟩
      · intro h0
        exact hptokne (List.append_eq_nil.mp h0).1
      · have : ¬ eqIgnoreCase ptok "command".toList := by
          intro h
          have := hpeq.symm.trans h
          revert this
          decide
        have h2 : DoesStrMatch ptok "command".toList false ≠ true :=
          fun hm => this ((DoesStrMatch_insensitive _ _).mp hm)
        simpa using h2

/-- C10. Whatever state the entry point is called in, and so also with the
simulate-protocol-fault flag left set by an earlier call, BusPirateConsole_ProcessData
raises an exception exactly when the command line it parsed in this call is the command
SimulateError with the single argument `protocol` (both up to ASCII letter case, blanks
around them); the exception is then the simulated protocol fault, and the call ended in
executeLine for that line with no prompt queued: behind what the tx buffer held when the
line was completed there is the EOL echo and nothing else, and the flag is set. -/
theorem C10_protocol_fault {σ : Type} (env : Env σ) (currentTime : Nat) (w : World σ) :
    ∃ ext, (BusPirateConsole_ProcessData env currentTime w).world.calls = w.calls ++ ext ∧
      ((∃ what, (BusPirateConsole_ProcessData env currentTime w).how = Completion.threw what) ↔
        ∃ line ∈ parsed ext, isSimulateProtocolLine line) ∧
      ∀ what, (BusPirateConsole_ProcessData env currentTime w).how = Completion.threw what →
        what = "Simulated protocol error." ∧
        ∃ cmd w1, parsed ext = [cstr cmd] ∧
          BusPirateConsole_ProcessData env currentTime w = executeLine env currentTime cmd w1 ∧
          (BusPirateConsole_ProcessData env currentTime w).world =
            { w1 with
              tx := w1.tx.write EOL,
              s_simulateProcolError := true,
              calls := w1.calls ++ [Event.ParseCommand (cstr cmd)] } := by
  obtain ⟨ext, hcalls, hcase⟩ := ProcessData_summary env currentTime w
  refine ⟨ext, hcalls, ?_, ?_⟩
  · rcases hcase with ⟨hp, hret⟩ | ⟨cmd, w1, he, hp⟩
    · rw [hp, hret]
      simp
    · rw [he, hp]
      constructor
      · intro ⟨what, hw⟩
        refine ⟨cstr cmd, List.mem_cons_self _ _, ?_⟩
        apply (simulateProtocol_iff (cstr cmd)).mp
        rcases executeLine_cases env currentTime cmd w1 with
          ⟨_, h1⟩ | ⟨hs, hf, _⟩ | ⟨_, _, _, h1⟩ | ⟨_, _, _, h1⟩ | ⟨_, _, h1⟩
        · rw [h1] at hw; exact Completion.noConfusion hw
        · exact ⟨hs, hf⟩
        · rw [h1] at hw; exact Completion.noConfusion hw
        · rw [h1] at hw; exact Completion.noConfusion hw
        · rw [h1] at hw; exact Completion.noConfusion hw
      · intro ⟨line, hmem, hl⟩
        have hline : line = cstr cmd := by simpa using hmem
        subst hline
        have hcode := (simulateProtocol_iff (cstr cmd)).mpr hl
        rcases executeLine_cases env currentTime cmd w1 with
          ⟨hr, _⟩ | ⟨_, _, h1⟩ | ⟨hn, _⟩ | ⟨hn, _⟩ | ⟨hr, _⟩
        · rw [hcode.1] at hr; exact Command.noConfusion (Option.some.inj hr)
        · exact ⟨_, by rw [h1]⟩
        · exact absurd hcode hn
        · exact absurd hcode hn
        · rw [hcode.1] at hr; exact Command.noConfusion (Option.some.inj hr)
  · intro what hw
    rcases hcase with ⟨_, hret⟩ | ⟨cmd, w1, he, hp⟩
    · rw [hret] at hw; exact Completion.noConfusion hw
    · rw [he] at hw ⊢
      rcases executeLine_cases env currentTime cmd w1 with
        ⟨_, h1⟩ | ⟨_, _, h1⟩ | ⟨_, _, _, h1⟩ | ⟨_, _, _, h1⟩ | ⟨_, _, h1⟩
      · rw [h1] at hw; exact Completion.noConfusion hw
      · rw [h1] at hw
        simp only [Completion.threw.injEq] at hw
        refine ⟨hw.symm, cmd, w1, hp, rfl, ?_⟩
        rw [h1]
        simp [World.print, World.log]
      · rw [h1] at hw; exact Completion.noConfusion hw
      · rw [h1] at hw; exact Completion.noConfusion hw
      · rw [h1] at hw; exact Completion.noConfusion hw

theorem C10_protocol_fault_witness :
    (BusPirateConsole_ProcessData (sampleEnv true) 0
      { sampleLineWorld "simulateerror PROTOCOL".toList [] with
        s_simulateProcolError := true }).how = Completion.threw "Simulated protocol error." := by
  obtain ⟨ext, hcalls, hiff, hwhat⟩ := C10_protocol_fault (sampleEnv true) 0
    ({ sampleLineWorld "simulateerror PROTOCOL".toList [] with
        s_simulateProcolError := true } : World (List Char))
  have hext : ext = (BusPirateConsole_ProcessData (sampleEnv true) 0
      ({ sampleLineWorld "simulateerror PROTOCOL".toList [] with
        s_simulateProcolError := true } : World (List Char))).world.calls := by
    rw [hcalls]; rfl
  obtain ⟨what, hw⟩ := hiff.mpr ⟨"simulateerror PROTOCOL".toList, by rw [hext]; decide,
    ⟨[], "simulateerror".toList, [' '], "PROTOCOL".toList, rfl, by decide, by decide, by decide,
      by unfold eqIgnoreCase; decide,
      ⟨"PROTOCOL".toList, [], rfl, by decide, by unfold eqIgnoreCase; decide⟩⟩⟩
  rw [hw, (hwhat what hw).1]

/-! ### Name matching and dispatch -/

theorem DoesStrMatch_forall₂ (cs : Bool) (str : List Char) :
    ∀ pattern, DoesStrMatch str pattern cs = true ↔ List.Forall₂ (charsAgree cs) str pattern := by
  induction str with
  | nil =>
    intro pattern
    cases pattern <;> simp [DoesStrMatch]
  | cons c str ih =>
    intro pattern
    cases pattern with
    | nil => simp [DoesStrMatch]
    | cons m pattern =>
      rw [DoesStrMatch, List.forall₂_cons]
      by_cases hcm : c = m
      · subst hcm
        rw [if_pos rfl, ih]
        have : charsAgree cs c c := by unfold charsAgree; split <;> rfl
        simp [this]
      · rw [if_neg hcm]
        cases cs with
        | true =>
          rw [if_neg (by simp)]
          have : ¬ charsAgree true c m := by unfold charsAgree; simpa using hcm
          simp [this]
        | false =>
          by_cases hu : toupper c = toupper m
          · rw [if_pos (by simp [hu]), ih]
            have : charsAgree false c m := by unfold charsAgree; simpa using hu
            simp [this]
          · rw [if_neg (by simp [hu])]
            have : ¬ charsAgree false c m := by unfold charsAgree; simpa using hu
            simp [this]

theorem DoesStrMatch_length (str pattern : List Char) (cs : Bool)
    (h : DoesStrMatch str pattern cs = true) : str.length = pattern.length :=
  ((DoesStrMatch_forall₂ cs str pattern).mp h).length_eq

/-- C11. DoesStrMatch returns true exactly when the token and the name have the same length
and agree at every position: character for character when the comparison is
case-sensitive, after ASCII toupper when it is not.  So a token that is a proper prefix of
the name and a token that extends the name never match; the name `?`, compared
case-sensitively, is matched by the token `?` only; and `HELP`, `Help` and `help` all
match the name `help`, compared case-insensitively. -/
theorem C11_DoesStrMatch_positional :
    (∀ (str pattern : List Char) (cs : Bool),
      DoesStrMatch str pattern cs = true ↔
        str.length = pattern.length ∧
          ∀ (i : Nat) (h1 : i < str.length) (h2 : i < pattern.length),
            charsAgree cs (str.get ⟨i, h1⟩) (pattern.get ⟨i, h2⟩)) ∧
    (∀ (str ext : List Char) (cs : Bool), ext ≠ [] →
      DoesStrMatch str (str ++ ext) cs = false ∧ DoesStrMatch (str ++ ext) str cs = false) ∧
    (∀ str : List Char,
      DoesStrMatch str CMDNAME_QUESTION_MARK.toList true = true ↔ str = "?".toList) ∧
    DoesStrMatch "HELP".toList CMDNAME_HELP.toList false = true ∧
    DoesStrMatch "Help".toList CMDNAME_HELP.toList false = true ∧
    DoesStrMatch "help".toList CMDNAME_HELP.toList false = true := by
  refine ⟨?_, ?_, ?_, by decide, by decide, by decide⟩
  · intro str pattern cs
    rw [DoesStrMatch_forall₂, List.forall₂_iff_get]
  · intro str ext cs hext
    have hlen : 0 < ext.length := List.length_pos.mpr hext
    constructor
    · cases h : DoesStrMatch str (str ++ ext) cs with
      | false => rfl
      | true =>
        have := DoesStrMatch_length _ _ _ h
        rw [List.length_append] at this
        omega
    · cases h : DoesStrMatch (str ++ ext) str cs with
      | false => rfl
      | true =>
        have := DoesStrMatch_length _ _ _ h
        rw [List.length_append] at this
        omega
  · intro str
    exact DoesStrMatch_sensitive str _

theorem C11_DoesStrMatch_positional_witness :
    DoesStrMatch "res".toList ("res".toList ++ "et".toList) false = false ∧
    DoesStrMatch ("res".toList ++ "et".toList) "res".toList false = false :=
  C11_DoesStrMatch_positional.2.1 "res".toList "et".toList false (by decide)

/-- The entries of the command table that are compared case-sensitively are those of the
names `?` and `i`. -/
theorem commandTable_caseSensitive :
    ∀ e ∈ commandTable, e.isCaseSensitive = true ↔ (e.cmdName = "?" ∨ e.cmdName = "i") := by
  decide

/-- What ParseCommand finds in a line made of leading blanks, a token without blanks and a
rest that is empty or starts with a blank. -/
theorem ParseCommand_parts {σ : Type} (env : Env σ) (t : Nat) (w : World σ)
    (lead tok rest : List Char) (hlead : ∀ c ∈ lead, isBlank c = true)
    (htok : ∀ c ∈ tok, isBlank c = false) (hne : tok ≠ [])
    (hrest : rest.dropWhile (fun c => !isBlank c) = rest) :
    commandOf (lead ++ (tok ++ rest)) = (selectCommand tok rest commandTable false).1 ∧
    paramOf (lead ++ (tok ++ rest)) = rest.dropWhile isBlank ∧
    ParseCommand env (lead ++ (tok ++ rest)) t w = ProcessCommand env (tok ++ rest) t w ∧
    SkipCharsNotInSet (tok ++ rest) SPACE_AND_TAB = rest ∧
    span (tok ++ rest) rest = tok := by
  obtain ⟨h1, h2, h3⟩ := line_of_parts lead tok rest hlead htok hne hrest
  have hs : tok ++ rest ≠ [] := by
    intro h
    exact hne (List.append_eq_nil.mp h).1
  refine ⟨?_, ?_, ?_, h2, h3⟩
  · unfold commandOf
    simp only []
    rw [h1, h2, h3, if_pos hs]
  · unfold paramOf
    rw [h1, h2, SkipCharsInSet_eq]
  · unfold ParseCommand
    simp only []
    rw [h1, if_pos hs]

set_option maxRecDepth 100000 in
/-- C12 (counterexample). The line `I` is not dispatched to the handler of the command `i`:
no branch of ProcessCommand is entered and the line is answered with
`Unknown command "I".` -/
theorem C12_counterexample :
    commandOf "I".toList = none ∧
    ParseCommand (sampleEnv false) "I".toList 0 (sampleWorld 64 64 []) =
      ⟨(sampleWorld 64 64 []).print ("Unknown command ".toList ++ [dquote] ++ "I".toList ++
        [dquote] ++ ".".toList ++ EOL), Completion.returned⟩ ∧
    ParseCommand (sampleEnv false) "i".toList 0 (sampleWorld 64 64 []) =
      runCommand (sampleEnv false) [] 0 (sampleWorld 64 64 []) Command.version := by
  refine ⟨by decide, ?_, ?_⟩
  · have h := ParseCommand_parts (sampleEnv false) 0 (sampleWorld 64 64 []) [] "I".toList []
      (by decide) (by decide) (by decide) rfl
    have h3 := h.2.2.1
    simp only [List.nil_append, List.append_nil] at h3
    rw [h3]
    unfold ProcessCommand
    simp only []
    have hsel : selectCommand (span "I".toList (SkipCharsNotInSet "I".toList SPACE_AND_TAB))
        (SkipCharsNotInSet "I".toList SPACE_AND_TAB) commandTable false = (none, false) := by
      decide
    rw [hsel]
    have hspan : span "I".toList (SkipCharsNotInSet "I".toList SPACE_AND_TAB) = "I".toList := by
      decide
    rw [hspan]
  · exact ParseCommand_some _ _ _ _ _ (by decide)

/-- C12 (amended). Every command other than `?` and `i` is matched case-insensitively: for
each entry of the dispatch table whose name is neither `?` nor `i`, a line made of
optional blanks, a token that equals the name up to ASCII letter case, and a rest that is
empty or starts with a blank, where the rest is blank unless the command takes
parameters, enters the branch of that command, with the parameter region as argument. -/
theorem C12_case_insensitive_dispatch {σ : Type} (env : Env σ) (t : Nat) (w : World σ)
    (e : CommandEntry) (he : e ∈ commandTable) (hq : e.cmdName ≠ "?") (hi : e.cmdName ≠ "i")
    (lead tok rest : List Char) (hlead : ∀ c ∈ lead, isBlank c = true)
    (htok : eqIgnoreCase tok e.cmdName.toList)
    (hrest : rest.dropWhile (fun c => !isBlank c) = rest)
    (hparams : e.allowExtraParams = true ∨ ∀ c ∈ rest, isBlank c = true) :
    commandOf (lead ++ (tok ++ rest)) = some e.command ∧
    ParseCommand env (lead ++ (tok ++ rest)) t w =
      runCommand env (rest.dropWhile isBlank) t w e.command := by
  obtain ⟨hn1, hn2⟩ := commandTable_names e he
  have hnb := no_blank_of_eqIgnoreCase tok _ htok hn2
  have hne : tok ≠ [] := by
    intro h
    subst h
    unfold eqIgnoreCase at htok
    have := congrArg List.length htok
    simp only [List.map_nil, List.length_nil, List.length_map] at this
    exact hn1 (List.length_eq_zero.mp this.symm)
  obtain ⟨p1, p2, -, -, -⟩ := ParseCommand_parts env t w lead tok rest hlead hnb hne hrest
  have hcs : e.isCaseSensitive = false := by
    cases h : e.isCaseSensitive with
    | false => rfl
    | true =>
      rcases (commandTable_caseSensitive e he).mp h with h1 | h1
      · exact absurd h1 hq
      · exact absurd h1 hi
  have hsel : (selectCommand tok rest commandTable false).1 = some e.command := by
    apply selectCommand_eq_some
    · refine ⟨e, he, ?_, ?_⟩
      · rw [hcs]
        exact (DoesStrMatch_insensitive tok _).mpr htok
      · rcases hparams with h | h
        · exact Or.inl h
        · right
          rw [SkipCharsInSet_eq, List.dropWhile_eq_nil_iff]
          exact h
    · intro e2 he2 hm2
      have h2 := DoesStrMatch_upper _ _ _ hm2
      unfold eqIgnoreCase at h2 htok
      exact commandTable_upper e2 he2 e he (h2.symm.trans htok)
  have hc : commandOf (lead ++ (tok ++ rest)) = some e.command := p1.trans hsel
  refine ⟨hc, ?_⟩
  rw [ParseCommand_some env _ t w _ hc, p2]

theorem C12_case_insensitive_dispatch_witness :
    ParseCommand (sampleEnv false) (" ".toList ++ ("UpTime".toList ++ " ".toList)) 0
        (sampleWorld 64 64 []) =
      runCommand (sampleEnv false) (" ".toList.dropWhile isBlank) 0 (sampleWorld 64 64 [])
        Command.uptime :=
  (C12_case_insensitive_dispatch (sampleEnv false) 0 (sampleWorld 64 64 [])
    ⟨CMDNAME_UPTIME, false, false, Command.uptime⟩ (by decide) (by decide) (by decide)
    " ".toList "UpTime".toList " ".toList (by decide) (by unfold eqIgnoreCase; decide)
    (by decide) (Or.inr (by decide))).2

theorem IsCmd_false_iff (tok cmdEnd : List Char) (name : String) (cs allow f : Bool) :
    (IsCmd tok cmdEnd name cs allow f).1 = false ↔
      ¬ (DoesStrMatch tok name.toList cs = true ∧
        (allow = true ∨ SkipCharsInSet cmdEnd SPACE_AND_TAB = [])) := by
  rw [← IsCmd_true_iff tok cmdEnd name cs allow f]
  simp

/-- The value of `extraParamsFound` after a call of IsCmd: set when the name matches, the
command takes no parameters and there are some. -/
theorem IsCmd_flag (tok cmdEnd : List Char) (name : String) (cs allow f : Bool) :
    (IsCmd tok cmdEnd name cs allow f).2 =
      (f || (DoesStrMatch tok name.toList cs && !allow &&
        decide (SkipCharsInSet cmdEnd SPACE_AND_TAB ≠ []))) := by
  unfold IsCmd
  cases hm : DoesStrMatch tok name.toList cs <;> cases allow <;>
    by_cases hs : SkipCharsInSet cmdEnd SPACE_AND_TAB = [] <;> simp [hs]

/-- When the chain of ProcessCommand enters no branch, no entry of the table was matched
with parameters it allows. -/
theorem selectCommand_none (tok cmdEnd : List Char) :
    ∀ (table : List CommandEntry) (f : Bool),
      (selectCommand tok cmdEnd table f).1 = none →
      ∀ e ∈ table, ¬ (DoesStrMatch tok e.cmdName.toList e.isCaseSensitive = true ∧
        (e.allowExtraParams = true ∨ SkipCharsInSet cmdEnd SPACE_AND_TAB = [])) := by
  intro table
  induction table with
  | nil => intro f _ e he; exact absurd he (List.not_mem_nil _)
  | cons e rest ih =>
    intro f h e2 he2
    rw [selectCommand] at h
    split at h
    · exact Option.noConfusion h
    · rename_i ht
      rcases List.mem_cons.mp he2 with h2 | h2
      · subst h2
        exact (IsCmd_false_iff tok cmdEnd _ _ _ f).mp (by simpa using ht)
      · exact ih _ h e2 h2

/-- When no entry of the table is matched with parameters it allows, the chain of
ProcessCommand enters no branch, and `extraParamsFound` is set exactly when it was set
before or some entry was matched with parameters that it does not allow. -/
theorem selectCommand_eq_none (tok cmdEnd : List Char) :
    ∀ (table : List CommandEntry) (f : Bool),
      (∀ e ∈ table, ¬ (DoesStrMatch tok e.cmdName.toList e.isCaseSensitive = true ∧
        (e.allowExtraParams = true ∨ SkipCharsInSet cmdEnd SPACE_AND_TAB = []))) →
      selectCommand tok cmdEnd table f =
        (none, f || table.any (fun e => DoesStrMatch tok e.cmdName.toList e.isCaseSensitive &&
          !e.allowExtraParams && decide (SkipCharsInSet cmdEnd SPACE_AND_TAB ≠ []))) := by
  intro table
  induction table with
  | nil => intro f _; simp [selectCommand]
  | cons e rest ih =>
    intro f h
    rw [selectCommand]
    have h1 := (IsCmd_false_iff tok cmdEnd e.cmdName e.isCaseSensitive e.allowExtraParams f).mpr
      (h e (List.mem_cons_self _ _))
    simp only [h1, Bool.false_eq_true, if_false]
    rw [ih _ (fun e2 he2 => h e2 (List.mem_cons_of_mem _ he2)), IsCmd_flag, List.any_cons,
      Bool.or_assoc]

/-- Entries of the command table whose names agree up to case agree on whether parameters
are allowed. -/
theorem commandTable_allow :
    ∀ e ∈ commandTable, ∀ e2 ∈ commandTable,
      e.cmdName.toList.map toupper = e2.cmdName.toList.map toupper →
        e.allowExtraParams = e2.allowExtraParams := by
  decide

/-- The branch ProcessCommand takes, told from the entries of the table the token matches:
none matched means the unknown-command report; a matched entry that does not allow the
parameters found means the usage report; otherwise the branch of the matched entry. -/
theorem ProcessCommand_cases {σ : Type} (env : Env σ) (cmdBegin : List Char) (t : Nat)
    (w : World σ) :
    ((∀ e ∈ commandTable, DoesStrMatch (span cmdBegin (SkipCharsNotInSet cmdBegin SPACE_AND_TAB))
        e.cmdName.toList e.isCaseSensitive = false) ∧
      ProcessCommand env cmdBegin t w =
        ⟨w.print ("Unknown command ".toList ++ [dquote] ++
          span cmdBegin (SkipCharsNotInSet cmdBegin SPACE_AND_TAB) ++ [dquote] ++ ".".toList ++
          EOL), Completion.returned⟩) ∨
    ((∃ e ∈ commandTable, DoesStrMatch (span cmdBegin (SkipCharsNotInSet cmdBegin SPACE_AND_TAB))
        e.cmdName.toList e.isCaseSensitive = true ∧ e.allowExtraParams = false) ∧
      SkipCharsInSet (SkipCharsNotInSet cmdBegin SPACE_AND_TAB) SPACE_AND_TAB ≠ [] ∧
      ProcessCommand env cmdBegin t w =
        ⟨w.print ("Command ".toList ++ [dquote] ++
          span cmdBegin (SkipCharsNotInSet cmdBegin SPACE_AND_TAB) ++ [dquote] ++
          " does not take any parameters.".toList ++ EOL), Completion.returned⟩) ∨
    (∃ e ∈ commandTable, DoesStrMatch (span cmdBegin (SkipCharsNotInSet cmdBegin SPACE_AND_TAB))
        e.cmdName.toList e.isCaseSensitive = true ∧
      (e.allowExtraParams = true ∨
        SkipCharsInSet (SkipCharsNotInSet cmdBegin SPACE_AND_TAB) SPACE_AND_TAB = []) ∧
      ProcessCommand env cmdBegin t w =
        runCommand env (SkipCharsInSet (SkipCharsNotInSet cmdBegin SPACE_AND_TAB) SPACE_AND_TAB)
          t w e.command) := by
  unfold ProcessCommand
  simp only []
  generalize hce : SkipCharsNotInSet cmdBegin SPACE_AND_TAB = cmdEnd
  generalize htk : span cmdBegin cmdEnd = tok
  cases hsel : (selectCommand tok cmdEnd commandTable false).1 with
  | some c =>
    right; right
    obtain ⟨e, he, hc, hm, hx⟩ := selectCommand_some tok cmdEnd c commandTable false hsel
    refine ⟨e, he, hm, hx, ?_⟩
    split
    · rename_i c1 f heq
      rw [heq] at hsel
      simp only [Option.some.injEq] at hsel
      rw [hsel, hc]
    · rename_i heq
      rw [heq] at hsel
      exact Option.noConfusion hsel
    · rename_i heq
      rw [heq] at hsel
      exact Option.noConfusion hsel
  | none =>
    have hno := selectCommand_none tok cmdEnd commandTable false hsel
    have heq := selectCommand_eq_none tok cmdEnd commandTable false hno
    rw [heq]
    simp only [Bool.false_or]
    cases hany : commandTable.any (fun e => DoesStrMatch tok e.cmdName.toList e.isCaseSensitive &&
          !e.allowExtraParams && decide (SkipCharsInSet cmdEnd SPACE_AND_TAB ≠ [])) with
    | true =>
      right; left
      obtain ⟨e, he, hp⟩ := List.any_eq_true.mp hany
      simp only [Bool.and_eq_true, Bool.not_eq_true', decide_eq_true_eq] at hp
      exact ⟨⟨e, he, hp.1.1, hp.1.2⟩, hp.2, rfl⟩
    | false =>
      left
      refine ⟨?_, rfl⟩
      intro e he
      cases hm : DoesStrMatch tok e.cmdName.toList e.isCaseSensitive with
      | false => rfl
      | true =>
        exfalso
        have h1 := hno e he
        have h2 : ¬ (e.allowExtraParams = true ∨ SkipCharsInSet cmdEnd SPACE_AND_TAB = []) :=
          fun h => h1 ⟨hm, h⟩
        have h3 : e.allowExtraParams = false := by
          cases ha : e.allowExtraParams with
          | false => rfl
          | true => exact absurd (Or.inl ha) h2
        have h4 : SkipCharsInSet cmdEnd SPACE_AND_TAB ≠ [] := fun h => h2 (Or.inr h)
        have : commandTable.any (fun e => DoesStrMatch tok e.cmdName.toList e.isCaseSensitive &&
          !e.allowExtraParams && decide (SkipCharsInSet cmdEnd SPACE_AND_TAB ≠ [])) = true := by
          apply List.any_eq_true.mpr
          refine ⟨e, he, ?_⟩
          simp only [Bool.and_eq_true, Bool.not_eq_true', decide_eq_true_eq]
          exact ⟨⟨hm, h3⟩, h4⟩
        rw [hany] at this
        exact Bool.noConfusion this

/-- C13. ProcessCommand answers with `Command "<token>" does not take any parameters.`
exactly when the command token matches the name of an entry of the dispatch table that
disallows parameters and the parameter region is not empty: in that case the report is all
that happens (no branch of a command is entered, nothing but the tx queue changes); in
every other case ProcessCommand either enters the branch of a matched entry or reports an
unknown command, a different text.  An entry that allows parameters always has its branch
entered when its name matches, and those entries are PrintMemory, BusyWait, UsbSpeedTest
and SimulateError. -/
theorem C13_no_parameters_report {σ : Type} (env : Env σ) (cmdBegin : List Char) (t : Nat)
    (w : World σ) :
    (((∃ e ∈ commandTable, DoesStrMatch (firstToken cmdBegin) e.cmdName.toList
          e.isCaseSensitive = true ∧ e.allowExtraParams = false) ∧ paramRegion cmdBegin ≠ []) →
      ProcessCommand env cmdBegin t w =
        ⟨w.print ("Command ".toList ++ [dquote] ++ firstToken cmdBegin ++ [dquote] ++
          " does not take any parameters.".toList ++ EOL), Completion.returned⟩) ∧
    (¬ ((∃ e ∈ commandTable, DoesStrMatch (firstToken cmdBegin) e.cmdName.toList
          e.isCaseSensitive = true ∧ e.allowExtraParams = false) ∧ paramRegion cmdBegin ≠ []) →
      (ProcessCommand env cmdBegin t w =
          ⟨w.print ("Unknown command ".toList ++ [dquote] ++ firstToken cmdBegin ++ [dquote] ++
            ".".toList ++ EOL), Completion.returned⟩ ∧
        "Unknown command ".toList ++ [dquote] ++ firstToken cmdBegin ++ [dquote] ++
            ".".toList ++ EOL ≠
          "Command ".toList ++ [dquote] ++ firstToken cmdBegin ++ [dquote] ++
            " does not take any parameters.".toList ++ EOL) ∨
      ∃ e ∈ commandTable, DoesStrMatch (firstToken cmdBegin) e.cmdName.toList
          e.isCaseSensitive = true ∧
        (e.allowExtraParams = true ∨ paramRegion cmdBegin = []) ∧
        ProcessCommand env cmdBegin t w =
          runCommand env (paramRegion cmdBegin) t w e.command) ∧
    (∀ e ∈ commandTable, e.allowExtraParams = true →
      DoesStrMatch (firstToken cmdBegin) e.cmdName.toList e.isCaseSensitive = true →
      ProcessCommand env cmdBegin t w = runCommand env (paramRegion cmdBegin) t w e.command) ∧
    (∀ e ∈ commandTable, e.allowExtraParams = true ↔
      e.command ∈ [Command.printMemory, Command.busyWait, Command.usbSpeedTest,
        Command.simulateError]) := by
  have hcases := ProcessCommand_cases env cmdBegin t w
  unfold firstToken paramRegion
  generalize hce : SkipCharsNotInSet cmdBegin SPACE_AND_TAB = cmdEnd at hcases ⊢
  generalize htk : span cmdBegin cmdEnd = tok at hcases ⊢
  have hsame : ∀ e ∈ commandTable, ∀ e2 ∈ commandTable,
      DoesStrMatch tok e.cmdName.toList e.isCaseSensitive = true →
      DoesStrMatch tok e2.cmdName.toList e2.isCaseSensitive = true →
      e.cmdName.toList.map toupper = e2.cmdName.toList.map toupper := by
    intro e _ e2 _ h1 h2
    have a1 := DoesStrMatch_upper _ _ _ h1
    have a2 := DoesStrMatch_upper _ _ _ h2
    unfold eqIgnoreCase at a1 a2
    exact a1.symm.trans a2
  refine ⟨?_, ?_, ?_, by decide⟩
  · rintro ⟨⟨e, he, hm, ha⟩, hp⟩
    rcases hcases with ⟨hall, _⟩ | ⟨_, _, heq⟩ | ⟨e2, he2, hm2, hx2, _⟩
    · rw [hall e he] at hm
      exact Bool.noConfusion hm
    · exact heq
    · exfalso
      rcases hx2 with h | h
      · have := commandTable_allow e he e2 he2 (hsame e he e2 he2 hm hm2)
        rw [ha, h] at this
        exact Bool.noConfusion this
      · exact hp h
  · intro hn
    rcases hcases with ⟨_, heq⟩ | ⟨hex, hp, _⟩ | ⟨e2, he2, hm2, hx2, heq⟩
    · left
      refine ⟨heq, ?_⟩
      intro h
      have := congrArg List.head? h
      simp at this
    · exact absurd ⟨hex, hp⟩ hn
    · right
      exact ⟨e2, he2, hm2, hx2, heq⟩
  · intro e he ha hm
    rcases hcases with ⟨hall, _⟩ | ⟨⟨e2, he2, hm2, ha2⟩, _, _⟩ | ⟨e2, he2, hm2, _, heq⟩
    · rw [hall e he] at hm
      exact Bool.noConfusion hm
    · exfalso
      have := commandTable_allow e he e2 he2 (hsame e he e2 he2 hm hm2)
      rw [ha, ha2] at this
      exact Bool.noConfusion this
    · rw [heq, commandTable_upper e2 he2 e he (hsame e2 he2 e he hm2 hm)]

set_option maxRecDepth 100000 in
theorem C13_no_parameters_report_witness :
    ProcessCommand (sampleEnv false) "UpTime now".toList 0 (sampleWorld 64 64 []) =
      ⟨(sampleWorld 64 64 []).print ("Command ".toList ++ [dquote] ++
        firstToken "UpTime now".toList ++ [dquote] ++
        " does not take any parameters.".toList ++ EOL), Completion.returned⟩ ∧
    firstToken "UpTime now".toList = "UpTime".toList :=
  ⟨(C13_no_parameters_report (sampleEnv false) "UpTime now".toList 0 (sampleWorld 64 64 [])).1
    ⟨⟨⟨CMDNAME_UPTIME, false, false, Command.uptime⟩, by decide, by decide, rfl⟩, by decide⟩,
    by decide⟩

/-- C14. When the first token of the text handed to ProcessCommand matches no name of the
dispatch table, the call returns with the state it was given but for one text queued in
the tx buffer: `Unknown command "<token>".` followed by EOL, where the token is the text
up to the first space or tab.  No branch of a command is entered and the trace of calls is
as before. -/
theorem C14_unknown_command {σ : Type} (env : Env σ) (cmdBegin : List Char) (t : Nat)
    (w : World σ)
    (h : ∀ e ∈ commandTable,
      DoesStrMatch (firstToken cmdBegin) e.cmdName.toList e.isCaseSensitive = false) :
    ProcessCommand env cmdBegin t w =
      ⟨w.print ("Unknown command ".toList ++ [dquote] ++ firstToken cmdBegin ++ [dquote] ++
        ".".toList ++ EOL), Completion.returned⟩ ∧
    (ProcessCommand env cmdBegin t w).world.calls = w.calls ∧
    firstToken cmdBegin = cmdBegin.takeWhile (fun c => !isBlank c) := by
  have hcases := ProcessCommand_cases env cmdBegin t w
  have htok : firstToken cmdBegin = cmdBegin.takeWhile (fun c => !isBlank c) := by
    unfold firstToken
    rw [SkipCharsNotInSet_eq, span_dropWhile]
  unfold firstToken at h ⊢
  rcases hcases with ⟨_, heq⟩ | ⟨⟨e, he, hm, _⟩, _, _⟩ | ⟨e, he, hm, _, _⟩
  · refine ⟨heq, ?_, htok⟩
    rw [heq]
    rfl
  · rw [h e he] at hm
    exact Bool.noConfusion hm
  · rw [h e he] at hm
    exact Bool.noConfusion hm

set_option maxRecDepth 100000 in
theorem C14_unknown_command_witness :
    ProcessCommand (sampleEnv false) "foo bar".toList 0 (sampleWorld 64 64 []) =
      ⟨(sampleWorld 64 64 []).print ("Unknown command ".toList ++ [dquote] ++
        firstToken "foo bar".toList ++ [dquote] ++ ".".toList ++ EOL), Completion.returned⟩ ∧
    firstToken "foo bar".toList = "foo".toList :=
  ⟨(C14_unknown_command (sampleEnv false) "foo bar".toList 0 (sampleWorld 64 64 [])
    (by decide)).1, by decide⟩

/-- C15. For a completed line that is empty or made of spaces and tabs only, ParseCommand
returns the state it was given: no branch of a command is entered, nothing is printed, no
exception is raised.  The statements of BusPirateConsole_ProcessData around it then queue
EOL and the prompt `>` and nothing else, so a call of BusPirateConsole_ProcessData that
completes such a line leaves in the tx buffer what the accumulator left there, then EOL,
then `>`, and returns. -/
theorem C15_blank_line {σ : Type} (env : Env σ) (t : Nat) (cmd : List Char)
    (hblank : ∀ c ∈ cstr cmd, isBlank c = true) :
    (∀ w : World σ, ParseCommand env (cstr cmd) t w = ⟨w, Completion.returned⟩) ∧
    (∀ w : World σ, executeLine env t cmd w =
      ⟨{ w with
          tx := (w.tx.write EOL).write ">".toList,
          s_simulateProcolError := false,
          calls := w.calls ++ [Event.ParseCommand (cstr cmd)] }, Completion.returned⟩) ∧
    (∀ (w : World σ) (byte : Char) (rest : List Char),
      w.s_usbSpeedTestType = UsbSpeedTestEnum.stNone → w.tx.elems = [] →
      w.rx.elems = byte :: rest → byte ≠ BIN_MODE_CHAR →
      (env.AddChar w.s_console byte w.tx).2.2 = some cmd →
      (BusPirateConsole_ProcessData env t w).how = Completion.returned ∧
      (BusPirateConsole_ProcessData env t w).world.tx.elems =
        (env.AddChar w.s_console byte w.tx).2.1.elems ++ EOL ++ ">".toList ∧
      (BusPirateConsole_ProcessData env t w).world.calls =
        w.calls ++ [Event.ReadElement byte, Event.AddChar byte,
          Event.ParseCommand (cstr cmd)]) := by
  have hskip : SkipCharsInSet (cstr cmd) SPACE_AND_TAB = [] := by
    rw [SkipCharsInSet_eq, List.dropWhile_eq_nil_iff]
    exact hblank
  have hparse : ∀ w : World σ, ParseCommand env (cstr cmd) t w = ⟨w, Completion.returned⟩ := by
    intro w
    unfold ParseCommand
    simp only []
    rw [hskip, if_neg (by simp)]
  have hexec : ∀ w : World σ, executeLine env t cmd w =
      ⟨{ w with
          tx := (w.tx.write EOL).write ">".toList,
          s_simulateProcolError := false,
          calls := w.calls ++ [Event.ParseCommand (cstr cmd)] }, Completion.returned⟩ := by
    intro w
    unfold executeLine
    simp only [hparse]
    rfl
  refine ⟨hparse, hexec, ?_⟩
  intro w byte rest hnone htx hrx hb hcmd
  rw [ProcessData_line env t w byte rest cmd hnone htx hrx hb hcmd, hexec]
  refine ⟨rfl, ?_, ?_⟩
  · simp [CUsbBuffer.write]
  · simp

theorem C15_blank_line_witness :
    ParseCommand (sampleEnv false) (cstr [' ', Char.ofNat 9, ' ']) 0
        (sampleLineWorld [' ', Char.ofNat 9, ' '] []) =
      ⟨sampleLineWorld [' ', Char.ofNat 9, ' '] [], Completion.returned⟩ ∧
    (BusPirateConsole_ProcessData (sampleEnv false) 0
        (sampleLineWorld [' ', Char.ofNat 9, ' '] [])).world.tx.elems =
      EOL ++ ">".toList :=
  ⟨(C15_blank_line (sampleEnv false) 0 [' ', Char.ofNat 9, ' '] (by decide)).1 _,
    ((C15_blank_line (sampleEnv false) 0 [' ', Char.ofNat 9, ' '] (by decide)).2.2
      (sampleLineWorld [' ', Char.ofNat 9, ' '] []) (Char.ofNat 13) [] rfl rfl rfl
      (by decide) rfl).2.1⟩

/-! ### The hex dump -/

theorem hexDigit_table : ∀ d, d < 16 → hexDigit d = "0123456789ABCDEF".toList.getD d ' ' := by
  decide

theorem fmt02X_table (b : Nat) (h : b < 256) :
    fmt02X b = ["0123456789ABCDEF".toList.getD (b / 16) ' ',
      "0123456789ABCDEF".toList.getD (b % 16) ' ', ' '] := by
  unfold fmt02X
  rw [hexDigit_table _ (Nat.mod_lt _ (by decide)), hexDigit_table _ (Nat.mod_lt _ (by decide)),
    Nat.mod_eq_of_lt (by omega : b / 16 < 16)]

/-- The tx queue after the loop of HexDump, started at index `i` with the line counter the
loop has there, for the last `n` of `N` bytes. -/
theorem HexDumpLoop_text {σ : Type} (env : Env σ) (ptr : Nat) (eol : List Char) (N : Nat) :
    ∀ (n i l : Nat) (w : World σ), 1 ≤ n → i + n = N →
      l = (if i = 0 then 0 else (i - 1) % 32 + 1) →
      (HexDumpLoop env ptr eol n i l w).tx.elems ++ eol =
        w.tx.elems ++ (if l = 32 then eol else []) ++
          ((List.range' i n).map (fun j =>
            ["0123456789ABCDEF".toList.getD (env.memory ((ptr + j) % 2 ^ 32) % 256 / 16) ' ',
              "0123456789ABCDEF".toList.getD (env.memory ((ptr + j) % 2 ^ 32) % 256 % 16) ' ',
              ' '] ++
            (if (j + 1) % 32 = 0 ∨ j + 1 = N then eol else []))).flatten := by
  intro n
  induction n with
  | zero => intro i l w h; omega
  | succ n ih =>
    intro i l w _ hN hl
    rw [HexDumpLoop]
    have hb : env.memory ((ptr + i) % 2 ^ 32) % 256 < 256 := Nat.mod_lt _ (by decide)
    rw [fmt02X_table _ hb]
    rw [List.range'_succ, List.map_cons, List.flatten_cons]
    rcases Nat.eq_zero_or_pos n with hn | hn
    · subst hn
      have hlast : (i + 1) % 32 = 0 ∨ i + 1 = N := Or.inr hN
      rw [if_pos hlast]
      simp only [HexDumpLoop, List.range'_zero, List.map_nil, List.flatten_nil, List.append_nil]
      by_cases h32 : l = 32
      · simp [h32, World.print, World.log, CUsbBuffer.write]
      · simp [h32, World.print, World.log, CUsbBuffer.write]
    · have hcase : (i = 0 ∧ l = 0) ∨ (0 < i ∧ l = (i - 1) % 32 + 1) := by
        by_cases hi : i = 0
        · left; rw [if_pos hi] at hl; exact ⟨hi, hl⟩
        · right; rw [if_neg hi] at hl; exact ⟨by omega, hl⟩
      have hl2 : (if l = 32 then 0 else l) + 1 =
          (if i + 1 = 0 then 0 else (i + 1 - 1) % 32 + 1) := by
        rw [if_neg (by omega : ¬ i + 1 = 0)]
        by_cases h32 : l = 32
        · rw [if_pos h32]; omega
        · rw [if_neg h32]; omega
      rw [ih (i + 1) _ _ hn (by omega) hl2]
      have hiff : ((if l = 32 then 0 else l) + 1 = 32) ↔ ((i + 1) % 32 = 0 ∨ i + 1 = N) := by
        by_cases h32 : l = 32
        · rw [if_pos h32]
          constructor
          · intro h; omega
          · intro h; omega
        · rw [if_neg h32]
          constructor
          · intro h; left; omega
          · intro h; omega
      by_cases hq : (i + 1) % 32 = 0 ∨ i + 1 = N
      · rw [if_pos (hiff.mpr hq), if_pos hq]
        by_cases h32 : l = 32
        · simp [h32, World.print, World.log, CUsbBuffer.write]
        · simp [h32, World.print, World.log, CUsbBuffer.write]
      · rw [if_neg (fun h => hq (hiff.mp h)), if_neg hq]
        by_cases h32 : l = 32
        · simp [h32, World.print, World.log, CUsbBuffer.write]
        · simp [h32, World.print, World.log, CUsbBuffer.write]

/-- The number of bytes the loop of HexDump queues. -/
theorem HexDumpLoop_length {σ : Type} (env : Env σ) (ptr : Nat) (eol : List Char) :
    ∀ (n i l : Nat) (w : World σ), l ≤ 32 →
      (HexDumpLoop env ptr eol n i l w).tx.elems.length =
        w.tx.elems.length + (n * 3 + (n + l - 1) / 32 * eol.length) := by
  intro n
  induction n with
  | zero =>
    intro i l w hl
    have : (0 + l - 1) / 32 = 0 := by omega
    rw [this]
    simp [HexDumpLoop]
  | succ n ih =>
    intro i l w hl
    rw [HexDumpLoop]
    have hb : ∀ w0 : World σ, ((w0.log (Event.readMemory ((ptr + i) % 2 ^ 32))).print
        (fmt02X (env.memory ((ptr + i) % 2 ^ 32) % 256))).tx.elems.length =
          w0.tx.elems.length + 3 := by
      intro w0
      simp [World.print, World.log, CUsbBuffer.write, fmt02X]
    by_cases h32 : l = 32
    · subst h32
      simp only [↓reduceIte]
      rw [ih _ _ _ (by omega), hb]
      have h1 : (n + 1 + 32 - 1) / 32 = (n + (0 + 1) - 1) / 32 + 1 := by omega
      rw [h1, Nat.add_mul _ 1 eol.length]
      generalize (n + (0 + 1) - 1) / 32 * eol.length = K
      have h2 : (w.print eol).tx.elems.length = w.tx.elems.length + eol.length := by
        simp [World.print, CUsbBuffer.write]
      rw [h2]
      omega
    · simp only [if_neg h32]
      rw [ih _ _ _ (by omega), hb]
      have h1 : (n + 1 + l - 1) / 32 = (n + (l + 1) - 1) / 32 := by omega
      rw [h1]
      generalize (n + (l + 1) - 1) / 32 * eol.length = K
      omega

/-- The counter `actualOutputLen` of HexDump, kept modulo `2 ^ 32`, counts what the loop
queues. -/
theorem actualOutputLenLoop_eq (e : Nat) :
    ∀ (n l acc : Nat), l ≤ 32 →
      actualOutputLenLoop e n l acc % 2 ^ 32 = (acc + (n * 3 + (n + l - 1) / 32 * e)) % 2 ^ 32 := by
  intro n
  induction n with
  | zero =>
    intro l acc hl
    have : (0 + l - 1) / 32 = 0 := by omega
    rw [this]
    simp [actualOutputLenLoop]
  | succ n ih =>
    intro l acc hl
    rw [actualOutputLenLoop]
    by_cases h32 : l = 32
    · subst h32
      simp only [↓reduceIte]
      rw [ih _ _ (by omega)]
      have h1 : (n + 1 + 32 - 1) / 32 = (n + (0 + 1) - 1) / 32 + 1 := by omega
      rw [h1, Nat.add_mul _ 1 e]
      generalize (n + (0 + 1) - 1) / 32 * e = K
      omega
    · simp only [if_neg h32]
      rw [ih _ _ (by omega)]
      have h1 : (n + 1 + l - 1) / 32 = (n + (l + 1) - 1) / 32 := by omega
      rw [h1]
      generalize (n + (l + 1) - 1) / 32 * e = K
      omega

/-- C16. For a byte count N of at least 1, any memory content and a tx buffer (of a capacity
below 2^32) with room for N*3 + ceil(N/32)*len(EOL) more bytes, HexDump returns having
appended exactly the dump the specification describes: N groups, each the byte as two
uppercase hexadecimal digits and a blank, with the end-of-line text after every 32nd group
and after the last group, so that every end-of-line text follows a group.  The text is
N*3 + ceil(N/32)*len(EOL) bytes long, and the two sides of the final assertion,
`actualOutputLen` and `expectedOutputLen`, both have that value. -/
theorem C16_hex_dump_layout {σ : Type} (env : Env σ) (ptr N : Nat) (eol : List Char)
    (w : World σ) (hN : 1 ≤ N) (hcap : w.tx.cap < 2 ^ 32)
    (hfit : N * 3 + (N + 31) / 32 * eol.length ≤ w.tx.GetFreeCount) :
    (HexDump env ptr N eol w).how = Completion.returned ∧
    (HexDump env ptr N eol w).world.tx.elems =
      w.tx.elems ++ hexDumpSpec (fun j => env.memory ((ptr + j) % 2 ^ 32) % 256) eol N ∧
    (hexDumpSpec (fun j => env.memory ((ptr + j) % 2 ^ 32) % 256) eol N).length =
      N * 3 + (N + 31) / 32 * eol.length ∧
    actualOutputLen N eol = expectedOutputLen N eol ∧
    expectedOutputLen N eol = N * 3 + (N + 31) / 32 * eol.length := by
  have hfree : w.tx.GetFreeCount ≤ w.tx.cap := Nat.sub_le _ _
  have hdiv : (N + 31) / 32 = (N + 0 - 1) / 32 + 1 := by omega
  have hexp : expectedOutputLen N eol = N * 3 + (N + 31) / 32 * eol.length := by
    unfold expectedOutputLen
    have h1 : (N + 32 - 1) % 2 ^ 32 = N + 31 := by
      generalize (N + 31) / 32 * eol.length = K at hfit
      omega
    rw [h1]
    generalize (N + 31) / 32 * eol.length = K at hfit ⊢
    omega
  have hact : actualOutputLen N eol = N * 3 + (N + 31) / 32 * eol.length := by
    unfold actualOutputLen
    rw [Nat.add_mod, actualOutputLenLoop_eq _ N 0 0 (by omega), ← Nat.add_mod]
    rw [hdiv, Nat.add_mul _ 1 eol.length] at hfit ⊢
    generalize (N + 0 - 1) / 32 * eol.length = K at hfit ⊢
    omega
  have htext := HexDumpLoop_text env ptr eol N N 0 0 w hN (by omega) rfl
  have hlen := HexDumpLoop_length env ptr eol N 0 0 w (by omega)
  have hhow : HexDump env ptr N eol w =
      ⟨(HexDumpLoop env ptr eol N 0 0 w).print eol, Completion.returned⟩ := by
    unfold HexDump
    simp only []
    have : (N * 3 + (N + 32 - 1) % 2 ^ 32 / 32 * eol.length) % 2 ^ 32 =
        expectedOutputLen N eol := rfl
    rw [this, hexp, if_neg (by omega)]
  have hspec : (HexDumpLoop env ptr eol N 0 0 w).tx.elems ++ eol =
      w.tx.elems ++ hexDumpSpec (fun j => env.memory ((ptr + j) % 2 ^ 32) % 256) eol N := by
    rw [htext]
    unfold hexDumpSpec
    rw [List.range_eq_range']
    simp
  refine ⟨by rw [hhow], ?_, ?_, hact.trans hexp.symm, hexp⟩
  · rw [hhow]
    exact hspec
  · have := congrArg List.length hspec
    rw [List.length_append, List.length_append, hlen] at this
    rw [hdiv, Nat.add_mul _ 1 eol.length]
    generalize (N + 0 - 1) / 32 * eol.length = K at this ⊢
    omega

set_option maxRecDepth 100000 in
theorem C16_hex_dump_layout_witness :
    (HexDump (sampleEnv false) 0 33 EOL (sampleWorld 64 256 [])).world.tx.elems =
      (sampleWorld 64 256 []).tx.elems ++
        hexDumpSpec (fun j => (sampleEnv false).memory ((0 + j) % 2 ^ 32) % 256) EOL 33 ∧
    (hexDumpSpec (fun j => (sampleEnv false).memory ((0 + j) % 2 ^ 32) % 256) EOL 33).length =
      103 :=
  ⟨(C16_hex_dump_layout (sampleEnv false) 0 33 EOL (sampleWorld 64 256 []) (by decide)
    (by decide) (by decide)).2.1,
   (C16_hex_dump_layout (sampleEnv false) 0 33 EOL (sampleWorld 64 256 []) (by decide)
    (by decide) (by decide)).2.2.1⟩

/-- When the capacity check of HexDump passes, the loop runs. -/
theorem HexDump_passes {σ : Type} (env : Env σ) (ptr N : Nat) (eol : List Char) (w : World σ)
    (h : expectedOutputLen N eol ≤ w.tx.GetFreeCount) :
    HexDump env ptr N eol w =
      ⟨(HexDumpLoop env ptr eol N 0 0 w).print eol, Completion.returned⟩ := by
  unfold HexDump
  simp only []
  have h1 : (N * 3 + (N + 32 - 1) % 2 ^ 32 / 32 * eol.length) % 2 ^ 32 =
      expectedOutputLen N eol := rfl
  rw [h1, if_neg (by omega)]

/-- When the capacity check of HexDump fails, nothing is done but raising the exception. -/
theorem HexDump_refuses {σ : Type} (env : Env σ) (ptr N : Nat) (eol : List Char) (w : World σ)
    (h : w.tx.GetFreeCount < expectedOutputLen N eol) :
    HexDump env ptr N eol w =
      ⟨w, Completion.threw "Not enough room in the Tx buffer for the hex dump."⟩ := by
  unfold HexDump
  simp only []
  have h1 : (N * 3 + (N + 32 - 1) % 2 ^ 32 / 32 * eol.length) % 2 ^ 32 =
      expectedOutputLen N eol := rfl
  rw [h1, if_pos (by omega)]

/-- The first pass of the loop of HexDump reads the byte at `ptr + i`. -/
theorem HexDumpLoop_reads {σ : Type} (env : Env σ) (ptr : Nat) (eol : List Char)
    (n i l : Nat) (w : World σ) :
    Event.readMemory ((ptr + i) % 2 ^ 32) ∈ (HexDumpLoop env ptr eol (n + 1) i l w).calls := by
  rw [HexDumpLoop]
  obtain ⟨out, ext, h, _⟩ := HexDumpLoop_touched env ptr eol n (i + 1) ((if l = 32 then 0 else l) + 1)
    (((if l = 32 then w.print eol else w).log (Event.readMemory ((ptr + i) % 2 ^ 32))).print
      (fmt02X (env.memory ((ptr + i) % 2 ^ 32) % 256)))
  rw [h]
  simp [World.touch, World.print, World.log]

/-- A dump that passes the capacity check reads memory, for a count of at least 1. -/
theorem HexDump_reads {σ : Type} (env : Env σ) (ptr N : Nat) (eol : List Char) (w : World σ)
    (hN : 1 ≤ N) (h : expectedOutputLen N eol ≤ w.tx.GetFreeCount) :
    Event.readMemory (ptr % 2 ^ 32) ∈ (HexDump env ptr N eol w).world.calls := by
  rw [HexDump_passes env ptr N eol w h]
  obtain ⟨n, rfl⟩ : ∃ n, N = n + 1 := ⟨N - 1, by omega⟩
  have := HexDumpLoop_reads env ptr eol n 0 0 w
  rw [Nat.add_zero] at this
  exact this

/-- PrintMemory with two arguments that parse, the second not to 0, calls HexDump. -/
theorem PrintMemory_dump {σ : Type} (env : Env σ) (p : List Char) (w : World σ)
    (addr count : Nat) (h1 : p ≠ [])
    (h2 : SkipCharsInSet (SkipCharsNotInSet p SPACE_AND_TAB) SPACE_AND_TAB ≠ [])
    (h3 : SkipCharsInSet (SkipCharsNotInSet (SkipCharsInSet (SkipCharsNotInSet p SPACE_AND_TAB)
      SPACE_AND_TAB) SPACE_AND_TAB) SPACE_AND_TAB = [])
    (ha : ParseUnsignedIntArg p = Except.ok addr)
    (hc : ParseUnsignedIntArg (SkipCharsInSet (SkipCharsNotInSet p SPACE_AND_TAB) SPACE_AND_TAB) =
      Except.ok count) (h0 : count ≠ 0) :
    PrintMemory env p w = HexDump env addr count EOL w := by
  unfold PrintMemory
  simp only []
  rw [if_neg (by simp [h1, h2, h3]), ha]
  simp only []
  rw [hc]
  simp only []
  rw [if_neg h0]

set_option maxRecDepth 100000 in
/-- C17 (failing input). With a count of 1402438304 bytes the dump is 4294967306 bytes long,
which is 10 modulo 2^32: on an empty tx buffer of 1024 bytes the capacity check of HexDump
compares 10 with 1024 and passes, so no exception is raised, the loop starts and memory is
read.  PrintMemory reaches HexDump with that count from the parameters `0 1402438304`. -/
theorem C17_capacity_check_wraps :
    (sampleWorld 64 1024 []).tx.GetFreeCount <
      1402438304 * 3 + (1402438304 + 31) / 32 * EOL.length ∧
    expectedOutputLen 1402438304 EOL = 10 ∧
    (HexDump (sampleEnv false) 0 1402438304 EOL (sampleWorld 64 1024 [])).how =
      Completion.returned ∧
    Event.readMemory (0 % 2 ^ 32) ∈
      (HexDump (sampleEnv false) 0 1402438304 EOL (sampleWorld 64 1024 [])).world.calls ∧
    PrintMemory (sampleEnv false) "0 1402438304".toList (sampleWorld 64 1024 []) =
      HexDump (sampleEnv false) 0 1402438304 EOL (sampleWorld 64 1024 []) := by
  have hexp : expectedOutputLen 1402438304 EOL = 10 := by decide
  have hpass : expectedOutputLen 1402438304 EOL ≤ (sampleWorld 64 1024 []).tx.GetFreeCount := by
    rw [hexp]
    decide
  refine ⟨by decide, hexp, ?_, ?_, ?_⟩
  · rw [HexDump_passes _ _ _ _ _ hpass]
  · exact HexDump_reads _ _ _ _ _ (by decide) hpass
  · exact PrintMemory_dump _ _ _ 0 1402438304 (by decide) (by decide) (by decide) (by decide)
      (by decide) (by decide)

/-! ### The numeric argument parser -/


/-- The only exception ParseUnsignedIntArg raises. -/
theorem ParseUnsignedIntArg_error (p : List Char) (what : String)
    (h : ParseUnsignedIntArg p = Except.error what) : what = ERR_MSG := by
  unfold ParseUnsignedIntArg at h
  simp only [] at h
  split_ifs at h <;> exact (Except.error.inj h).symm

/-- A leading minus sign, at the start or right after the prefix `0x`, is rejected. -/
theorem ParseUnsignedIntArg_minus (rest : List Char) :
    ParseUnsignedIntArg ('-' :: rest) = Except.error ERR_MSG ∧
    ParseUnsignedIntArg ('0' :: 'x' :: '-' :: rest) = Except.error ERR_MSG := by
  constructor
  · unfold ParseUnsignedIntArg
    simp
  · unfold ParseUnsignedIntArg
    simp

theorem strtoulDigits_junk (base : Nat) (c : Char) (rest : List Char)
    (h : (digitValue c).any (fun d => decide (d < base)) = false) :
    strtoulDigits base (c :: rest) 0 false = (0, false, c :: rest) := by
  rw [strtoulDigits]
  cases hd : digitValue c with
  | none => rfl
  | some d =>
    rw [hd] at h
    simp only [Option.any_some, decide_eq_false_iff_not] at h
    simp only [if_neg h]

/-- A text that starts with a character which is no white space, no sign and no digit of
the base: strtoul reads no number and hands back its argument as the end pointer. -/
theorem strtoul_junk (base : Nat) (c : Char) (rest : List Char)
    (h : startsNumber base c = false) (hm : c ≠ '-') :
    strtoul (c :: rest) base = ⟨0, c :: rest, 0⟩ := by
  unfold startsNumber at h
  simp only [Bool.or_eq_false_iff, beq_eq_false_iff_ne, ne_eq] at h
  obtain ⟨⟨hsp, hplus⟩, hdig⟩ := h
  have hz : ¬ (base = 16 ∧ c = '0') := by
    rintro ⟨hb, hc⟩
    rw [hc, hb] at hdig
    have : (digitValue '0').any (fun d => decide (d < 16)) = true := by decide
    rw [this] at hdig
    exact Bool.noConfusion hdig
  have hd := strtoulDigits_junk base c
  unfold strtoul
  simp only [List.dropWhile_cons, hsp, Bool.false_eq_true, if_false, List.head?_cons,
    Option.some.injEq, hm, hplus, or_self]
  rcases rest with _ | ⟨x, _ | ⟨h1, r⟩⟩
  · simp only [hd [] hdig]
    rfl
  · simp only [hd [x] hdig]
    rfl
  · have hif : (if base = 16 ∧ c = '0' ∧ (x = 'x' ∨ x = 'X') ∧
        (digitValue h1).any (fun d => decide (d < 16)) = true then h1 :: r
        else c :: x :: h1 :: r) = c :: x :: h1 :: r :=
      if_neg (fun hc => hz ⟨hc.1, hc.2.1⟩)
    simp only [hif, hd _ hdig]
    rfl

/-- An argument that starts, directly or after the prefix `0x`, with a character that is
no white space, no plus sign and no digit of the base is rejected. -/
theorem ParseUnsignedIntArg_junk (c : Char) (rest : List Char) :
    (startsNumber 10 c = false → ParseUnsignedIntArg (c :: rest) = Except.error ERR_MSG) ∧
    (startsNumber 16 c = false →
      ParseUnsignedIntArg ('0' :: 'x' :: c :: rest) = Except.error ERR_MSG) := by
  have hblank : ∀ base, startsNumber base c = false → IsCharInSet c SPACE_AND_TAB = false := by
    intro base h
    unfold startsNumber at h
    simp only [Bool.or_eq_false_iff] at h
    rw [IsCharInSet_blank]
    cases hb : isBlank c with
    | false => rfl
    | true =>
      exfalso
      unfold isBlank at hb
      simp only [Bool.or_eq_true, decide_eq_true_eq] at hb
      have hsp := h.1.1
      have h1 : isspace ' ' = true := by decide
      have h2 : isspace (Char.ofNat 9) = true := by decide
      rcases hb with hb | hb
      · rw [hb, h1] at hsp
        exact Bool.noConfusion hsp
      · rw [hb, h2] at hsp
        exact Bool.noConfusion hsp
  constructor
  · intro h
    by_cases hm : c = '-'
    · rw [hm]
      exact (ParseUnsignedIntArg_minus rest).1
    · have hz : c ≠ '0' := by
        intro hc
        rw [hc] at h
        have : startsNumber 10 '0' = true := by decide
        rw [this] at h
        exact Bool.noConfusion h
      unfold ParseUnsignedIntArg
      simp only [List.head?_cons, Option.some.injEq, hz, false_and, if_false, hm]
      rw [strtoul_junk 10 c rest h hm]
      simp [hblank 10 h]
  · intro h
    by_cases hm : c = '-'
    · rw [hm]
      exact (ParseUnsignedIntArg_minus rest).2
    · unfold ParseUnsignedIntArg
      simp only [List.head?_cons, List.tail_cons, and_self, if_true, List.drop_succ_cons,
        List.drop_zero, Option.some.injEq, hm, if_false]
      rw [strtoul_junk 16 c rest h hm]
      simp [hblank 16 h]

/-- C19 (counterexample). A plus sign in front of the digits, at the start of the argument or
right after the prefix `0x`, is accepted: `+5` and `0x+5` are both read as 5. -/
theorem C19_counterexample :
    ParseUnsignedIntArg "+5".toList = Except.ok 5 ∧
    ParseUnsignedIntArg "0x+5".toList = Except.ok 5 := by
  decide

/-- C19 (amended). ParseUnsignedIntArg permits no leading minus sign: for every argument that
starts with `-`, directly or right after the prefix `0x`, it raises
`Invalid unsigned integer value.` instead of returning a number. -/
theorem C19_no_leading_minus (rest : List Char) :
    ParseUnsignedIntArg ('-' :: rest) = Except.error "Invalid unsigned integer value." ∧
    ParseUnsignedIntArg ('0' :: 'x' :: '-' :: rest) =
      Except.error "Invalid unsigned integer value." :=
  ParseUnsignedIntArg_minus rest

/-- The digit loop of strtoul over a run of digits of the base that ends at the end of the
text or in front of a character that is no digit of the base. -/
theorem strtoulDigits_run (base : Nat) (rest : List Char)
    (hstop : ∀ b ∈ rest.head?, isDigitOf base b = false) :
    ∀ (ds : List Char) (acc : Nat) (any : Bool), (∀ c ∈ ds, isDigitOf base c = true) →
      strtoulDigits base (ds ++ rest) acc any =
        (ds.foldl (fun a c => a * base + (digitValue c).getD 0) acc, any || !ds.isEmpty, rest) := by
  intro ds
  induction ds with
  | nil =>
    intro acc any _
    cases rest with
    | nil => simp [strtoulDigits]
    | cons b r =>
      have hb := hstop b (by simp)
      unfold isDigitOf at hb
      rw [List.nil_append, strtoulDigits]
      cases hd : digitValue b with
      | none => simp
      | some d =>
        rw [hd] at hb
        simp only [Option.any_some, decide_eq_false_iff_not] at hb
        simp [hb]
  | cons c ds ih =>
    intro acc any hds
    have hc := hds c (List.mem_cons_self _ _)
    unfold isDigitOf at hc
    rw [List.cons_append, strtoulDigits]
    cases hd : digitValue c with
    | none =>
      rw [hd] at hc
      exact Bool.noConfusion hc
    | some d =>
      rw [hd] at hc
      simp only [Option.any_some, decide_eq_true_eq] at hc
      simp only [if_pos hc]
      rw [ih _ _ (fun x hx => hds x (List.mem_cons_of_mem _ hx))]
      simp [hd]

/-- A digit of base 10 or 16 is no white space, no sign and not the letter of the prefix
`0x`. -/
theorem isDigitOf_plain (base : Nat) (c : Char) (hbase : base ≤ 16)
    (h : isDigitOf base c = true) :
    isspace c = false ∧ c ≠ '-' ∧ c ≠ '+' ∧ c ≠ 'x' ∧ c ≠ 'X' ∧ isBlank c = false := by
  have hsp : ∀ b : Char, (isspace b = true ∨ b = '-' ∨ b = '+' ∨ b = 'x' ∨ b = 'X' ∨
      isBlank b = true) → isDigitOf 16 b = false := by
    intro b hb
    have hn : b.toNat = 32 ∨ (9 ≤ b.toNat ∧ b.toNat ≤ 13) ∨ b.toNat = 45 ∨ b.toNat = 43 ∨
        b.toNat = 120 ∨ b.toNat = 88 := by
      rcases hb with hb | hb | hb | hb | hb | hb
      · unfold isspace at hb
        simp only [Bool.or_eq_true, decide_eq_true_eq, Bool.and_eq_true] at hb
        rcases hb with hb | hb
        · left; rw [hb]; rfl
        · right; left; exact hb
      · rw [hb]; decide
      · rw [hb]; decide
      · rw [hb]; decide
      · rw [hb]; decide
      · unfold isBlank at hb
        simp only [Bool.or_eq_true, decide_eq_true_eq] at hb
        rcases hb with hb | hb
        · left; rw [hb]; rfl
        · right; left; rw [hb]; decide
    unfold isDigitOf digitValue
    split_ifs with h1 h2 h3
    · omega
    · simp only [Option.any_some, decide_eq_false_iff_not]
      omega
    · simp only [Option.any_some, decide_eq_false_iff_not]
      omega
    · rfl
  have hmono : isDigitOf 16 c = true := by
    unfold isDigitOf at h ⊢
    cases hd : digitValue c with
    | none => rw [hd] at h; exact Bool.noConfusion h
    | some d =>
      rw [hd] at h
      simp only [Option.any_some, decide_eq_true_eq] at h ⊢
      omega
  have hno : ∀ P : Prop, (P → isDigitOf 16 c = false) → ¬ P := by
    intro P hP hp
    rw [hP hp] at hmono
    exact Bool.noConfusion hmono
  refine ⟨?_, ?_, ?_, ?_, ?_, ?_⟩
  · cases hs : isspace c with
    | false => rfl
    | true => exact absurd hs (hno _ (fun hp => hsp c (Or.inl hp)))
  · exact hno _ (fun hp => hsp c (Or.inr (Or.inl hp)))
  · exact hno _ (fun hp => hsp c (Or.inr (Or.inr (Or.inl hp))))
  · exact hno _ (fun hp => hsp c (Or.inr (Or.inr (Or.inr (Or.inl hp)))))
  · exact hno _ (fun hp => hsp c (Or.inr (Or.inr (Or.inr (Or.inr (Or.inl hp))))))
  · cases hs : isBlank c with
    | false => rfl
    | true => exact absurd hs (hno _ (fun hp => hsp c (Or.inr (Or.inr (Or.inr (Or.inr (Or.inr hp)))))))

/-- A blank is no digit and not the letter of the prefix `0x`. -/
theorem isBlank_plain (base : Nat) (b : Char) (hbase : base ≤ 16) (h : isBlank b = true) :
    isDigitOf base b = false ∧ b ≠ 'x' ∧ b ≠ 'X' ∧ b ≠ '-' := by
  refine ⟨?_, ?_, ?_, ?_⟩
  · cases hd : isDigitOf base b with
    | false => rfl
    | true =>
      rw [(isDigitOf_plain base b hbase hd).2.2.2.2.2] at h
      exact Bool.noConfusion h
  · intro hb; rw [hb] at h; exact absurd h (by decide)
  · intro hb; rw [hb] at h; exact absurd h (by decide)
  · intro hb; rw [hb] at h; exact absurd h (by decide)

/-- What strtoul returns for a text that starts with a run of digits of the base (10 or 16)
which ends at the end of the text or in front of a character that is no digit and not the
letter of the prefix `0x`: the value of the run, or `ULONG_MAX` and `ERANGE` when the value
is out of range, and the end of the run as end pointer. -/
theorem strtoul_run (base : Nat) (d0 : Char) (ds rest : List Char) (hbase : base ≤ 16)
    (hds : ∀ c ∈ d0 :: ds, isDigitOf base c = true)
    (hstop : ∀ b ∈ rest.head?, isDigitOf base b = false ∧ b ≠ 'x' ∧ b ≠ 'X') :
    strtoul (d0 :: ds ++ rest) base =
      if digitsValue base (d0 :: ds) > ULONG_MAX then ⟨ULONG_MAX, rest, ERANGE⟩
      else ⟨digitsValue base (d0 :: ds), rest, 0⟩ := by
  obtain ⟨hsp, hminus, hplus, -, -, -⟩ :=
    isDigitOf_plain base d0 hbase (hds d0 (List.mem_cons_self _ _))
  have hrun := strtoulDigits_run base rest (fun b hb => (hstop b hb).1) (d0 :: ds) 0 false hds
  have hx : ∀ x tl, ds ++ rest = x :: tl → x ≠ 'x' ∧ x ≠ 'X' := by
    intro x tl hl
    cases ds with
    | nil =>
      rw [List.nil_append] at hl
      have := hstop x (by rw [hl]; simp)
      exact ⟨this.2.1, this.2.2⟩
    | cons y ys =>
      rw [List.cons_append] at hl
      have hy : y = x := (List.cons.inj hl).1
      have := isDigitOf_plain base y hbase (hds y (by simp))
      rw [hy] at this
      exact ⟨this.2.2.2.1, this.2.2.2.2.1⟩
  unfold strtoul
  rw [List.cons_append] at hrun ⊢
  simp only [List.dropWhile_cons, hsp, Bool.false_eq_true, if_false, List.head?_cons,
    Option.some.injEq, hminus, hplus, or_self]
  generalize hl : ds ++ rest = tl at hrun ⊢
  have hfin : (if (!(digitsValue base (d0 :: ds), false || !(d0 :: ds).isEmpty, rest).2.1) = true
      then (⟨0, d0 :: tl, 0⟩ : StrtoulResult)
      else if (digitsValue base (d0 :: ds), false || !(d0 :: ds).isEmpty, rest).1 > ULONG_MAX
        then ⟨ULONG_MAX, (digitsValue base (d0 :: ds), false || !(d0 :: ds).isEmpty, rest).2.2,
          ERANGE⟩
      else ⟨if False then (2 ^ 32 - (digitsValue base (d0 :: ds),
          false || !(d0 :: ds).isEmpty, rest).1) % 2 ^ 32
        else (digitsValue base (d0 :: ds), false || !(d0 :: ds).isEmpty, rest).1,
        (digitsValue base (d0 :: ds), false || !(d0 :: ds).isEmpty, rest).2.2, 0⟩) =
      if digitsValue base (d0 :: ds) > ULONG_MAX then ⟨ULONG_MAX, rest, ERANGE⟩
      else ⟨digitsValue base (d0 :: ds), rest, 0⟩ := by
    simp
  rcases tl with _ | ⟨x, _ | ⟨h1, r⟩⟩
  · simp only [hrun]
    exact hfin
  · simp only [hrun]
    exact hfin
  · have hif : (if base = 16 ∧ d0 = '0' ∧ (x = 'x' ∨ x = 'X') ∧
        (digitValue h1).any (fun d => decide (d < 16)) = true then h1 :: r
        else d0 :: x :: h1 :: r) = d0 :: x :: h1 :: r := by
      apply if_neg
      rintro ⟨-, -, hxx, -⟩
      have := hx x (h1 :: r) hl
      rcases hxx with hxx | hxx
      · exact this.1 hxx
      · exact this.2 hxx
    simp only [hif, hrun]
    exact hfin

/-- The checks of ParseUnsignedIntArg around strtoul, for a run of digits of the base that
ends at the end of the text or in front of a blank: the value when it is below 2^32, the
exception otherwise. -/
theorem ParseUnsignedIntArg_core (base : Nat) (d0 : Char) (ds rest : List Char)
    (hbase : base ≤ 16) (hds : ∀ c ∈ d0 :: ds, isDigitOf base c = true)
    (hrest : ∀ b ∈ rest.head?, isBlank b = true) :
    (if (d0 :: ds ++ rest).head? = some '-' then (Except.error ERR_MSG : Except String Nat)
      else
        if (strtoul (d0 :: ds ++ rest) base).errno ≠ 0 ∨
            ((strtoul (d0 :: ds ++ rest) base).endPtr ≠ [] ∧
              !((strtoul (d0 :: ds ++ rest) base).endPtr.head?.any
                (IsCharInSet · SPACE_AND_TAB))) then
          Except.error ERR_MSG
        else Except.ok ((strtoul (d0 :: ds ++ rest) base).val % 2 ^ 32)) =
      if digitsValue base (d0 :: ds) < 2 ^ 32 then Except.ok (digitsValue base (d0 :: ds))
      else Except.error ERR_MSG := by
  have hminus := (isDigitOf_plain base d0 hbase (hds d0 (List.mem_cons_self _ _))).2.1
  rw [strtoul_run base d0 ds rest hbase hds
    (fun b hb => ⟨(isBlank_plain base b hbase (hrest b hb)).1,
      (isBlank_plain base b hbase (hrest b hb)).2.1, (isBlank_plain base b hbase (hrest b hb)).2.2.1⟩)]
  rw [List.cons_append, List.head?_cons, if_neg (by simpa using hminus)]
  by_cases hv : digitsValue base (d0 :: ds) > ULONG_MAX
  · have h2 : ¬ digitsValue base (d0 :: ds) < 2 ^ 32 := by
      unfold ULONG_MAX at hv
      omega
    simp only [if_pos hv, if_neg h2]
    rw [if_pos (Or.inl (by decide))]
  · have h2 : digitsValue base (d0 :: ds) < 2 ^ 32 := by
      unfold ULONG_MAX at hv
      omega
    simp only [if_neg hv, if_pos h2]
    rw [if_neg, Nat.mod_eq_of_lt h2]
    rintro (h | ⟨h3, h4⟩)
    · exact h rfl
    · cases rest with
      | nil => exact h3 rfl
      | cons b r =>
        have hb := hrest b (by simp)
        rw [← IsCharInSet_blank] at hb
        simp [hb] at h4

/-- ParseUnsignedIntArg on a run of decimal digits that ends at the end of the text or in
front of a blank. -/
theorem ParseUnsignedIntArg_decimal (d0 : Char) (ds rest : List Char)
    (hds : ∀ c ∈ d0 :: ds, isDigitOf 10 c = true)
    (hrest : ∀ b ∈ rest.head?, isBlank b = true) :
    ParseUnsignedIntArg (d0 :: ds ++ rest) =
      if digitsValue 10 (d0 :: ds) < 2 ^ 32 then Except.ok (digitsValue 10 (d0 :: ds))
      else Except.error ERR_MSG := by
  have hhex : ¬ ((d0 :: ds ++ rest).head? = some '0' ∧
      (d0 :: ds ++ rest).tail.head? = some 'x') := by
    rintro ⟨-, h⟩
    rw [List.cons_append, List.tail_cons] at h
    cases ds with
    | nil =>
      rw [List.nil_append] at h
      exact (isBlank_plain 10 'x' (by decide) (hrest _ h)).2.1 rfl
    | cons y ys =>
      rw [List.cons_append, List.head?_cons, Option.some.injEq] at h
      have := isDigitOf_plain 10 y (by decide) (hds y (by simp))
      exact this.2.2.2.1 h
  unfold ParseUnsignedIntArg
  simp only [if_neg hhex]
  exact ParseUnsignedIntArg_core 10 d0 ds rest (by decide) hds hrest

/-- ParseUnsignedIntArg on the prefix `0x` and a run of hexadecimal digits that ends at the
end of the text or in front of a blank. -/
theorem ParseUnsignedIntArg_hex (d0 : Char) (ds rest : List Char)
    (hds : ∀ c ∈ d0 :: ds, isDigitOf 16 c = true)
    (hrest : ∀ b ∈ rest.head?, isBlank b = true) :
    ParseUnsignedIntArg ('0' :: 'x' :: (d0 :: ds ++ rest)) =
      if digitsValue 16 (d0 :: ds) < 2 ^ 32 then Except.ok (digitsValue 16 (d0 :: ds))
      else Except.error ERR_MSG := by
  have hhex : ('0' :: 'x' :: (d0 :: ds ++ rest)).head? = some '0' ∧
      ('0' :: 'x' :: (d0 :: ds ++ rest)).tail.head? = some 'x' := ⟨rfl, rfl⟩
  unfold ParseUnsignedIntArg
  simp only [if_pos hhex]
  exact ParseUnsignedIntArg_core 16 d0 ds rest (by decide) hds hrest

/-- ParseUnsignedIntArg on a well-formed unsigned number that ends at the end of the text or
in front of a blank: its value when that is below 2^32, the exception otherwise. -/
theorem ParseUnsignedIntArg_denotes (tok rest : List Char) (n : Nat) (h : denotes tok n)
    (hrest : ∀ b ∈ rest.head?, isBlank b = true) :
    ParseUnsignedIntArg (tok ++ rest) =
      if n < 2 ^ 32 then Except.ok n else Except.error ERR_MSG := by
  rcases h with ⟨hne, hds, hv⟩ | ⟨hs, htok, hne, hds, hv⟩
  · cases tok with
    | nil => exact absurd rfl hne
    | cons d0 ds =>
      rw [← hv]
      exact ParseUnsignedIntArg_decimal d0 ds rest hds hrest
  · cases hs with
    | nil => exact absurd rfl hne
    | cons d0 ds =>
      rw [← hv, htok]
      exact ParseUnsignedIntArg_hex d0 ds rest hds hrest

/-- A well-formed unsigned number is not empty and has no blank in it. -/
theorem denotes_token (tok : List Char) (n : Nat) (h : denotes tok n) :
    tok ≠ [] ∧ ∀ c ∈ tok, isBlank c = false := by
  rcases h with ⟨hne, hds, -⟩ | ⟨hs, htok, -, hds, -⟩
  · exact ⟨hne, fun c hc => (isDigitOf_plain 10 c (by decide) (hds c hc)).2.2.2.2.2⟩
  · rw [htok]
    refine ⟨by simp, ?_⟩
    intro c hc
    rcases List.mem_cons.mp hc with h1 | h1
    · rw [h1]; decide
    · rcases List.mem_cons.mp h1 with h2 | h2
      · rw [h2]; decide
      · exact (isDigitOf_plain 16 c (by decide) (hds c h2)).2.2.2.2.2

/-- C20 (counterexample). The parameter `4294967296` is a run of decimal digits, a number
above 60000, and BusyWait does not print `Invalid arguments.` for it: the call is left by
the exception `Invalid unsigned integer value.` with nothing printed. -/
theorem C20_counterexample :
    denotes "4294967296".toList 4294967296 ∧
    BusyWait (sampleEnv false) "4294967296".toList (sampleWorld 64 64 []) =
      ⟨sampleWorld 64 64 [], Completion.threw "Invalid unsigned integer value."⟩ := by
  constructor
  · left
    decide
  · unfold BusyWait
    simp only []
    rw [if_neg (by decide),
      show ParseUnsignedIntArg "4294967296".toList = Except.error ERR_MSG from by decide]
    rfl

/-- C20 (amended). For every parameter string that consists of one well-formed unsigned
number n (decimal digits, or `0x` and hexadecimal digits), with nothing but blanks after
it: when 1 <= n <= 60000, BusyWait calls BusyWaitLoop with the 1-millisecond iteration
count exactly n times and then prints `Waited n ms.`; when n = 0 or 60000 < n < 2^32 it
prints `Invalid arguments.` and makes no call; when n >= 2^32 it raises
`Invalid unsigned integer value.`, prints nothing and makes no call.  Without an argument,
and with a second token after the first, it prints `Invalid arguments.` and makes no
call. -/
theorem C20_busy_wait {σ : Type} (env : Env σ) (w : World σ) (tok trail : List Char) (n : Nat)
    (h : denotes tok n) (htrail : ∀ c ∈ trail, isBlank c = true) :
    (1 ≤ n ∧ n ≤ 60000 →
      BusyWait env (tok ++ trail) w =
        ⟨({ w with calls := w.calls ++
            List.replicate n (Event.BusyWaitLoop env.oneMsIterationCount) } : World σ).print
          ("Waited ".toList ++ fmtU n ++ " ms.".toList ++ EOL), Completion.returned⟩) ∧
    ((n = 0 ∨ 60000 < n) ∧ n < 2 ^ 32 →
      BusyWait env (tok ++ trail) w =
        ⟨w.print ("Invalid arguments.".toList ++ EOL), Completion.returned⟩) ∧
    (2 ^ 32 ≤ n →
      BusyWait env (tok ++ trail) w =
        ⟨w, Completion.threw "Invalid unsigned integer value."⟩) ∧
    BusyWait env [] w = ⟨w.print ("Invalid arguments.".toList ++ EOL), Completion.returned⟩ ∧
    (∀ p : List Char, paramRegion p ≠ [] →
      BusyWait env p w = ⟨w.print ("Invalid arguments.".toList ++ EOL), Completion.returned⟩) := by
  obtain ⟨hne, hnb⟩ := denotes_token tok n h
  obtain ⟨ht1, -, ht3⟩ := token_of_single tok trail hnb htrail
  have hparse := ParseUnsignedIntArg_denotes tok trail n h (by
    intro b hb
    exact htrail b (List.mem_of_mem_head? hb))
  have hfirst : ¬ (tok ++ trail = [] ∨
      SkipCharsInSet (SkipCharsNotInSet (tok ++ trail) SPACE_AND_TAB) SPACE_AND_TAB ≠ []) := by
    rintro (h1 | h1)
    · exact hne (List.append_eq_nil.mp h1).1
    · rw [ht1] at h1
      exact h1 ht3
  refine ⟨?_, ?_, ?_, ?_, ?_⟩
  · rintro ⟨h1, h2⟩
    unfold BusyWait
    simp only []
    rw [if_neg hfirst, hparse, if_pos (by omega)]
    simp only []
    rw [if_neg (by omega)]
  · rintro ⟨h1, h2⟩
    unfold BusyWait
    simp only []
    rw [if_neg hfirst, hparse, if_pos h2]
    simp only []
    rw [if_pos (by omega)]
  · intro h1
    unfold BusyWait
    simp only []
    rw [if_neg hfirst, hparse, if_neg (by omega)]
    rfl
  · unfold BusyWait
    simp
  · intro p hp
    unfold paramRegion at hp
    unfold BusyWait
    simp only []
    rw [if_pos (Or.inr hp)]

set_option maxRecDepth 100000 in
theorem C20_busy_wait_witness :
    BusyWait (sampleEnv false) ("0x10".toList ++ [' ']) (sampleWorld 64 64 []) =
      ⟨World.print
        { sampleWorld 64 64 [] with
          calls := List.replicate 16 (Event.BusyWaitLoop (sampleEnv false).oneMsIterationCount) }
        ("Waited ".toList ++ fmtU 16 ++ " ms.".toList ++ EOL), Completion.returned⟩ :=
  (C20_busy_wait (sampleEnv false) (sampleWorld 64 64 []) "0x10".toList [' '] 16
    (Or.inr ⟨"10".toList, rfl, by decide, by decide, by decide⟩) (by decide)).1
    ⟨by decide, by decide⟩

/-- A run of digits of the base with a character right behind it that is no digit, no blank
and not the letter of the prefix `0x`: the argument is rejected. -/
theorem ParseUnsignedIntArg_trailing (d0 b : Char) (ds r : List Char) :
    (isDigitOf 10 b = false → isBlank b = false → b ≠ 'x' → b ≠ 'X' →
      (∀ c ∈ d0 :: ds, isDigitOf 10 c = true) →
      ParseUnsignedIntArg (d0 :: ds ++ b :: r) = Except.error ERR_MSG) ∧
    (isDigitOf 16 b = false → isBlank b = false → b ≠ 'x' → b ≠ 'X' →
      (∀ c ∈ d0 :: ds, isDigitOf 16 c = true) →
      ParseUnsignedIntArg ('0' :: 'x' :: (d0 :: ds ++ b :: r)) = Except.error ERR_MSG) := by
  have core : ∀ base, base ≤ 16 → isDigitOf base b = false → isBlank b = false → b ≠ 'x' →
      b ≠ 'X' → (∀ c ∈ d0 :: ds, isDigitOf base c = true) →
      (if (d0 :: ds ++ b :: r).head? = some '-' then (Except.error ERR_MSG : Except String Nat)
        else
          if (strtoul (d0 :: ds ++ b :: r) base).errno ≠ 0 ∨
              ((strtoul (d0 :: ds ++ b :: r) base).endPtr ≠ [] ∧
                !((strtoul (d0 :: ds ++ b :: r) base).endPtr.head?.any
                  (IsCharInSet · SPACE_AND_TAB))) then
            Except.error ERR_MSG
          else Except.ok ((strtoul (d0 :: ds ++ b :: r) base).val % 2 ^ 32)) =
        Except.error ERR_MSG := by
    intro base hbase hb hblank hx hX hds
    have hminus := (isDigitOf_plain base d0 hbase (hds d0 (List.mem_cons_self _ _))).2.1
    rw [strtoul_run base d0 ds (b :: r) hbase hds (by
      intro c hc
      simp only [List.head?_cons, Option.mem_def, Option.some.injEq] at hc
      rw [← hc]
      exact ⟨hb, hx, hX⟩)]
    rw [List.cons_append, List.head?_cons, if_neg (by simpa using hminus)]
    by_cases hv : digitsValue base (d0 :: ds) > ULONG_MAX
    · simp only [if_pos hv]
      rw [if_pos (Or.inl (by decide))]
    · simp only [if_neg hv]
      rw [if_pos]
      right
      rw [← IsCharInSet_blank] at hblank
      simp [hblank]
  constructor
  · intro hb hblank hx hX hds
    have hhex : ¬ ((d0 :: ds ++ b :: r).head? = some '0' ∧
        (d0 :: ds ++ b :: r).tail.head? = some 'x') := by
      rintro ⟨-, h⟩
      rw [List.cons_append, List.tail_cons] at h
      cases ds with
      | nil =>
        simp only [List.nil_append, List.head?_cons, Option.some.injEq] at h
        exact hx h
      | cons y ys =>
        rw [List.cons_append, List.head?_cons, Option.some.injEq] at h
        have := isDigitOf_plain 10 y (by decide) (hds y (by simp))
        exact this.2.2.2.1 h
    unfold ParseUnsignedIntArg
    simp only [if_neg hhex]
    exact core 10 (by decide) hb hblank hx hX hds
  · intro hb hblank hx hX hds
    have hhex : ('0' :: 'x' :: (d0 :: ds ++ b :: r)).head? = some '0' ∧
        ('0' :: 'x' :: (d0 :: ds ++ b :: r)).tail.head? = some 'x' := ⟨rfl, rfl⟩
    unfold ParseUnsignedIntArg
    simp only [if_pos hhex]
    exact core 16 (by decide) hb hblank hx hX hds

/-- C22 (failing input). The argument `0x0x5` is the prefix `0x`, the hexadecimal digit `0`
and, right behind it, the character `x`, which is no hexadecimal digit and no blank;
ParseUnsignedIntArg does not reject it but returns 5: it hands `0x5` to strtoul with base
16, which takes `0x` for the prefix of a hexadecimal number once more.  The same happens
for `0x0X1f`, read as 31. -/
theorem C22_second_prefix_accepted :
    isDigitOf 16 '0' = true ∧ isDigitOf 16 'x' = false ∧ isBlank 'x' = false ∧
    ParseUnsignedIntArg "0x0x5".toList = Except.ok 5 ∧
    ParseUnsignedIntArg "0x0X1f".toList = Except.ok 31 ∧
    strtoul "0x5".toList 16 = ⟨5, [], 0⟩ := by
  decide

/-! ### Reset of the console, and the loops of SpeedTest -/

/-- C26 (counterexample). From a console state in which the simulate-protocol-fault flag is
set, BusPirateConsole_Init and BusPirateConsole_Terminate both return with the flag still
set. -/
theorem C26_counterexample :
    (BusPirateConsole_Init (sampleEnv false)
      { sampleWorld 64 64 [] with s_simulateProcolError := true }).s_simulateProcolError = true ∧
    (BusPirateConsole_Terminate (sampleEnv false)
      { sampleWorld 64 64 [] with s_simulateProcolError := true }).s_simulateProcolError = true :=
  ⟨rfl, rfl⟩

/-- C26 (amended). From any console state, BusPirateConsole_Init and
BusPirateConsole_Terminate each set the escape counter to 0 and the speed-test kind to
None and reset the line accumulator; they leave everything else as it is, the
simulate-protocol-fault flag and both buffers included, so nothing is written to the tx
buffer; and, the reset of the accumulator being idempotent, running either twice gives the
same state as running it once. -/
theorem C26_reset_console {σ : Type} (env : Env σ) (w : World σ)
    (hidem : ∀ s, env.Reset (env.Reset s) = env.Reset s) :
    BusPirateConsole_Init env w =
      { w with
        s_binaryModeCount := 0,
        s_usbSpeedTestType := UsbSpeedTestEnum.stNone,
        s_console := env.Reset w.s_console } ∧
    BusPirateConsole_Terminate env w = BusPirateConsole_Init env w ∧
    (BusPirateConsole_Init env w).tx = w.tx ∧
    (BusPirateConsole_Init env w).s_simulateProcolError = w.s_simulateProcolError ∧
    BusPirateConsole_Init env (BusPirateConsole_Init env w) = BusPirateConsole_Init env w ∧
    BusPirateConsole_Terminate env (BusPirateConsole_Terminate env w) =
      BusPirateConsole_Terminate env w := by
  have h2 : ResetBusPirateConsole env (ResetBusPirateConsole env w) =
      ResetBusPirateConsole env w := by
    unfold ResetBusPirateConsole
    simp only [hidem]
  exact ⟨rfl, rfl, rfl, rfl, h2, h2⟩

theorem C26_reset_console_witness :
    BusPirateConsole_Init (sampleEnv false)
        (BusPirateConsole_Init (sampleEnv false) (sampleLineWorld "help".toList [])) =
      BusPirateConsole_Init (sampleEnv false) (sampleLineWorld "help".toList []) :=
  (C26_reset_console (sampleEnv false) (sampleLineWorld "help".toList [])
    (fun _ => rfl)).2.2.2.2.1

/-- The loop of the raw USB test: it makes at least one call when it may, goes on while the
calls return a remaining count other than 0, and stops early only behind a call that
returned 0. -/
theorem rawUsbLoop_writes {σ : Type} (env : Env σ) (n : Nat) :
    ∀ (i : Nat) (w : World σ), ∃ k, k ≤ n ∧ (0 < n → 1 ≤ k) ∧
      rawUsbLoop env n i w =
        { w with calls := w.calls ++ List.replicate k (Event.udi_cdc_write_buf 1000) } ∧
      (∀ j, j + 1 < k → env.udi_cdc_write_buf (i + j) ≠ 0) ∧
      (k < n → env.udi_cdc_write_buf (i + (k - 1)) = 0) := by
  induction n with
  | zero => intro i w; exact ⟨0, le_refl _, by omega, by simp [rawUsbLoop], by omega, by omega⟩
  | succ n ih =>
    intro i w
    rw [rawUsbLoop]
    by_cases h0 : env.udi_cdc_write_buf i = 0
    · rw [if_pos h0]
      refine ⟨1, by omega, by omega, by simp [World.log], by omega, ?_⟩
      intro _
      simpa using h0
    · rw [if_neg h0]
      obtain ⟨k, hk, hpos, heq, hgo, hstop⟩ := ih (i + 1) (w.log (Event.udi_cdc_write_buf 1000))
      refine ⟨k + 1, by omega, by omega, ?_, ?_, ?_⟩
      · rw [heq]
        simp [World.log, List.replicate_succ]
      · intro j hj
        cases j with
        | zero => simpa using h0
        | succ j =>
          have := hgo j (by omega)
          rw [show i + (j + 1) = i + 1 + j from by omega]
          exact this
      · intro hlt
        have hk1 : 1 ≤ k := hpos (by omega)
        have := hstop (by omega)
        rw [show i + (k + 1 - 1) = i + 1 + (k - 1) from by omega]
        exact this

/-- C23 (counterexample). With a USB transport that takes every block whole (every call of
udi_cdc_write_buf returns a remaining count of 0, so there is room throughout), a pass of
the raw-hardware-write test before the deadline does not write again and again: it makes
one call of udi_cdc_write_buf and then requests the wake-up. -/
theorem C23_counterexample :
    (∀ i, (sampleEnv false).udi_cdc_write_buf i = 0) ∧
    SpeedTest (sampleEnv false) 10
        { sampleWorld 64 64 [] with
          s_usbSpeedTestType := UsbSpeedTestEnum.stTxFastLoopRawUsb,
          s_usbSpeedTestEndTime := 5000 } =
      { sampleWorld 64 64 [] with
        s_usbSpeedTestType := UsbSpeedTestEnum.stTxFastLoopRawUsb,
        s_usbSpeedTestEndTime := 5000,
        calls := [Event.SpeedTest, Event.udi_cdc_write_buf 1000,
          Event.WakeFromMainLoopSleep] } := by
  refine ⟨fun _ => rfl, ?_⟩
  unfold SpeedTest
  simp only [World.log]
  rw [if_neg (by decide)]
  have h : ∀ w : World (List Char), rawUsbLoop (sampleEnv false) (999 + 1) 0 w =
      w.log (Event.udi_cdc_write_buf 1000) := by
    intro w
    rw [rawUsbLoop]
    exact if_pos rfl
  exact congrArg (fun x => World.log x Event.WakeFromMainLoopSleep) (h _)

/-- C23 (amended). In a raw-hardware-write pass of SpeedTest before the deadline, the
scratch block of 1000 bytes is written to the USB transport k times, with 1 <= k <= 1000:
every write but the last returned a remaining count other than 0, and the loop stopped
before 1000 writes only behind a write that returned a remaining count of 0, that is when
the transport had taken the block whole.  Afterwards WakeFromMainLoopSleep is requested
exactly once, and nothing but the trace of calls has changed: the tx ring buffer is not
touched. -/
theorem C23_raw_usb_pass {σ : Type} (env : Env σ) (t : Nat) (w : World σ)
    (hkind : w.s_usbSpeedTestType = UsbSpeedTestEnum.stTxFastLoopRawUsb)
    (htime : t < w.s_usbSpeedTestEndTime) :
    ∃ k, 1 ≤ k ∧ k ≤ 1000 ∧
      SpeedTest env t w =
        { w with calls := w.calls ++ Event.SpeedTest ::
          (List.replicate k (Event.udi_cdc_write_buf 1000) ++ [Event.WakeFromMainLoopSleep]) } ∧
      (∀ j, j + 1 < k → env.udi_cdc_write_buf j ≠ 0) ∧
      (k < 1000 → env.udi_cdc_write_buf (k - 1) = 0) ∧
      (SpeedTest env t w).tx = w.tx := by
  obtain ⟨rx, tx, c, f, buf, e, kind, con, calls⟩ := w
  simp only at hkind htime
  subst hkind
  obtain ⟨k, hk, hpos, heq, hgo, hstop⟩ := rawUsbLoop_writes env 1000 0
    (⟨rx, tx, c, f, buf, e, UsbSpeedTestEnum.stTxFastLoopRawUsb, con,
      calls ++ [Event.SpeedTest]⟩ : World σ)
  have hrun : SpeedTest env t
        ⟨rx, tx, c, f, buf, e, UsbSpeedTestEnum.stTxFastLoopRawUsb, con, calls⟩ =
      ⟨rx, tx, c, f, buf, e, UsbSpeedTestEnum.stTxFastLoopRawUsb, con,
        calls ++ Event.SpeedTest :: (List.replicate k (Event.udi_cdc_write_buf 1000) ++
          [Event.WakeFromMainLoopSleep])⟩ := by
    unfold SpeedTest
    simp only [World.log]
    rw [if_neg (by simpa using htime), heq]
    simp
  refine ⟨k, hpos (by decide), hk, hrun, ?_, ?_, by rw [hrun]⟩
  · intro j hj
    have := hgo j hj
    rwa [Nat.zero_add] at this
  · intro hlt
    have := hstop hlt
    rwa [Nat.zero_add] at this

theorem C23_raw_usb_pass_witness :
    ∃ k, 1 ≤ k ∧ k ≤ 1000 ∧
      SpeedTest (sampleEnv false) 10
          { sampleWorld 64 64 [] with
            s_usbSpeedTestType := UsbSpeedTestEnum.stTxFastLoopRawUsb,
            s_usbSpeedTestEndTime := 5000 } =
        { ({ sampleWorld 64 64 [] with
            s_usbSpeedTestType := UsbSpeedTestEnum.stTxFastLoopRawUsb,
            s_usbSpeedTestEndTime := 5000 } : World (List Char)) with
          calls := ({ sampleWorld 64 64 [] with
              s_usbSpeedTestType := UsbSpeedTestEnum.stTxFastLoopRawUsb,
              s_usbSpeedTestEndTime := 5000 } : World (List Char)).calls ++ Event.SpeedTest ::
            (List.replicate k (Event.udi_cdc_write_buf 1000) ++
              [Event.WakeFromMainLoopSleep]) } :=
  (C23_raw_usb_pass (sampleEnv false) 10
    { sampleWorld 64 64 [] with
      s_usbSpeedTestType := UsbSpeedTestEnum.stTxFastLoopRawUsb,
      s_usbSpeedTestEndTime := 5000 } rfl (by decide)).imp
    (fun _ h => ⟨h.1, h.2.1, h.2.2.1⟩)

/-- The simple-fill loop appends one `.` per pass. -/
theorem simpleLoop_eq (n : Nat) :
    ∀ tx : CUsbBuffer, simpleLoop n tx = ⟨tx.cap, tx.elems ++ List.replicate n '.'⟩ := by
  induction n with
  | zero => intro tx; simp [simpleLoop]
  | succ n ih =>
    intro tx
    rw [simpleLoop, ih]
    simp [CUsbBuffer.write, List.replicate_succ]

/-- The zero-copy-fill loop, given fuel for one pass more than there are free bytes, fills
the buffer: every pass but the last commits at least one byte. -/
theorem fastLoop_eq {σ : Type} (env : Env σ)
    (hpos : ∀ b : CUsbBuffer, 0 < b.GetFreeCount → 0 < env.GetWritePtr b) (fuel : Nat) :
    ∀ tx : CUsbBuffer, tx.GetFreeCount + 1 ≤ fuel →
      fastLoop env fuel tx = ⟨tx.cap, tx.elems ++ List.replicate tx.GetFreeCount '.'⟩ := by
  induction fuel with
  | zero => intro tx h; omega
  | succ fuel ih =>
    intro tx hfuel
    rw [fastLoop]
    by_cases h0 : env.GetWritePtr tx = 0
    · have hfree : tx.GetFreeCount = 0 := by
        by_contra hne
        have := hpos tx (by omega)
        omega
      simp only [h0, if_true]
      rw [hfree]
      simp
    · have hle := env.GetWritePtr_le tx
      simp only [h0, if_false]
      have hfree : (tx.write (List.replicate (env.GetWritePtr tx) '.')).GetFreeCount =
          tx.GetFreeCount - env.GetWritePtr tx := by
        unfold CUsbBuffer.GetFreeCount CUsbBuffer.write
        simp only [List.length_append, List.length_replicate]
        omega
      rw [ih _ (by rw [hfree]; omega), hfree]
      have hsplit : List.replicate tx.GetFreeCount '.' =
          List.replicate (env.GetWritePtr tx) '.' ++
            List.replicate (tx.GetFreeCount - env.GetWritePtr tx) '.' := by
        rw [List.append_replicate_replicate]
        congr 1
        omega
      rw [hsplit]
      simp [CUsbBuffer.write]

/-- C24. For every tx ring buffer (with less than 2^32 free bytes) and a GetWritePtr that
hands out a span of at least 1 whenever there is free space (and never more than the free
count), the zero-copy-fill loop of SpeedTest reaches its `break` within one pass more than
there are free bytes, whatever fuel beyond that it is given, and it leaves exactly the
buffer the simple-fill loop leaves: the previous content followed by as many `.` as there
were free bytes, with a free count of 0.  So the two tests leave the same tx buffer after
a pass before the deadline. -/
theorem C24_fill_loops_agree {σ : Type} (env : Env σ) (tx : CUsbBuffer)
    (hpos : ∀ b : CUsbBuffer, 0 < b.GetFreeCount → 0 < env.GetWritePtr b)
    (h32 : tx.GetFreeCount < 2 ^ 32) :
    (∀ fuel, tx.GetFreeCount + 1 ≤ fuel →
      fastLoop env fuel tx = ⟨tx.cap, tx.elems ++ List.replicate tx.GetFreeCount '.'⟩) ∧
    simpleLoop (tx.GetFreeCount % 2 ^ 32) tx =
      ⟨tx.cap, tx.elems ++ List.replicate tx.GetFreeCount '.'⟩ ∧
    (⟨tx.cap, tx.elems ++ List.replicate tx.GetFreeCount '.'⟩ : CUsbBuffer).GetFreeCount = 0 ∧
    (∀ (t : Nat) (w : World σ), w.tx = tx → t < w.s_usbSpeedTestEndTime →
      (SpeedTest env t
        { w with s_usbSpeedTestType := UsbSpeedTestEnum.stTxFastLoopCircularBuffer }).tx =
          ⟨tx.cap, tx.elems ++ List.replicate tx.GetFreeCount '.'⟩ ∧
      (SpeedTest env t { w with s_usbSpeedTestType := UsbSpeedTestEnum.stTxSimpleLoop }).tx =
          ⟨tx.cap, tx.elems ++ List.replicate tx.GetFreeCount '.'⟩) := by
  have hfast := fun fuel => fastLoop_eq env hpos fuel tx
  have hsimple : simpleLoop (tx.GetFreeCount % 2 ^ 32) tx =
      ⟨tx.cap, tx.elems ++ List.replicate tx.GetFreeCount '.'⟩ := by
    rw [Nat.mod_eq_of_lt h32, simpleLoop_eq]
  refine ⟨hfast, hsimple, ?_, ?_⟩
  · unfold CUsbBuffer.GetFreeCount
    simp only [List.length_append, List.length_replicate]
    omega
  · intro t w hw htime
    constructor
    · unfold SpeedTest
      simp only [World.log]
      rw [if_neg (by simpa using htime)]
      show fastLoop env (w.tx.GetFreeCount + 1) w.tx = _
      rw [hw]
      exact hfast _ (le_refl _)
    · unfold SpeedTest
      simp only [World.log]
      rw [if_neg (by simpa using htime)]
      show simpleLoop (w.tx.GetFreeCount % 2 ^ 32) w.tx = _
      rw [hw]
      exact hsimple

theorem C24_fill_loops_agree_witness :
    fastLoop (sampleEnv false) 9 ⟨8, "ab".toList⟩ =
      ⟨8, "ab".toList ++ List.replicate (CUsbBuffer.GetFreeCount ⟨8, "ab".toList⟩) '.'⟩ ∧
    simpleLoop (CUsbBuffer.GetFreeCount ⟨8, "ab".toList⟩ % 2 ^ 32) ⟨8, "ab".toList⟩ =
      ⟨8, "ab".toList ++ List.replicate (CUsbBuffer.GetFreeCount ⟨8, "ab".toList⟩) '.'⟩ :=
  ⟨(C24_fill_loops_agree (sampleEnv false) ⟨8, "ab".toList⟩ (fun _ h => h) (by decide)).1 9
      (by decide),
    (C24_fill_loops_agree (sampleEnv false) ⟨8, "ab".toList⟩ (fun _ h => h) (by decide)).2.1⟩

/-- The conversion `%u` of a 32-bit value has at most 10 characters. -/
theorem fmtU_length (n : Nat) (h : n < 2 ^ 32) : (fmtU n).length ≤ 10 := by
  unfold fmtU Nat.toDigits
  exact Nat.toDigitsCore_length 10 (by decide) (n + 1) n 10 (by omega) (by decide)

/-- The loop of the timestamped test: `k` lines are queued, each one with at least 40 bytes
free in front of it, and the loop stops before its last pass only with fewer than 40 bytes
free. -/
theorem timestampLoop_lines {σ : Type} (line : List Char) (n : Nat) :
    ∀ w : World σ, ∃ k, k ≤ n ∧
      timestampLoop line n w = w.print (List.replicate k line).flatten ∧
      (∀ j, j < k → 40 ≤ (w.tx.write (List.replicate j line).flatten).GetFreeCount) ∧
      (k < n → (w.tx.write (List.replicate k line).flatten).GetFreeCount < 40) := by
  induction n with
  | zero =>
    intro w
    exact ⟨0, le_refl _, by simp [timestampLoop, print_nil], by omega, by omega⟩
  | succ n ih =>
    intro w
    rw [timestampLoop]
    by_cases hfree : w.tx.GetFreeCount < 40
    · rw [if_pos hfree]
      refine ⟨0, by omega, by simp [print_nil], by omega, ?_⟩
      intro _
      simpa [CUsbBuffer.write] using hfree
    · rw [if_neg hfree]
      obtain ⟨k, hk, heq, hroom, hstop⟩ := ih (w.print line)
      have hw : ∀ j, (w.print line).tx.write (List.replicate j line).flatten =
          w.tx.write (List.replicate (j + 1) line).flatten := by
        intro j
        simp [World.print, CUsbBuffer.write, List.replicate_succ]
      refine ⟨k + 1, by omega, ?_, ?_, ?_⟩
      · rw [heq, print_print]
        simp [List.replicate_succ]
      · intro j hj
        cases j with
        | zero => simpa [CUsbBuffer.write] using hfree
        | succ j =>
          rw [← hw]
          exact hroom j (by omega)
      · intro hlt
        rw [← hw]
        exact hstop (by omega)

/-- C25. In a timestamped-spam pass of SpeedTest before the deadline, k lines are queued in
the tx buffer and nothing else happens, with k at most 100; every line is the current time
and the deadline, both truncated to 32 bits and printed in decimal, with ` - ` between
them and EOL behind, which makes at most 25 bytes, below the 40 that are checked; each of
the k lines was queued with at least 40 bytes free in the tx buffer, so it fits; and fewer
than 100 lines are printed only when fewer than 40 bytes are free after the last one. -/
theorem C25_timestamp_pass {σ : Type} (env : Env σ) (t : Nat) (w : World σ)
    (hkind : w.s_usbSpeedTestType = UsbSpeedTestEnum.stTxSimpleWithTimestamps)
    (htime : t < w.s_usbSpeedTestEndTime) :
    ∃ k line, k ≤ 100 ∧
      line = fmtU (t % 2 ^ 32) ++ " - ".toList ++ fmtU (w.s_usbSpeedTestEndTime % 2 ^ 32) ++ EOL ∧
      line.length ≤ 25 ∧
      SpeedTest env t w =
        { w with
          tx := w.tx.write (List.replicate k line).flatten,
          calls := w.calls ++ [Event.SpeedTest] } ∧
      (∀ j, j < k → 40 ≤ (w.tx.write (List.replicate j line).flatten).GetFreeCount) ∧
      (k < 100 → (w.tx.write (List.replicate k line).flatten).GetFreeCount < 40) := by
  obtain ⟨rx, tx, c, f, buf, e, kind, con, calls⟩ := w
  simp only at hkind htime
  subst hkind
  obtain ⟨k, hk, heq, hroom, hstop⟩ := timestampLoop_lines
    (fmtU (t % 2 ^ 32) ++ " - ".toList ++ fmtU (e % 2 ^ 32) ++ EOL) 100
    (⟨rx, tx, c, f, buf, e, UsbSpeedTestEnum.stTxSimpleWithTimestamps, con,
      calls ++ [Event.SpeedTest]⟩ : World σ)
  refine ⟨k, _, hk, rfl, ?_, ?_, hroom, hstop⟩
  · have h1 := fmtU_length (t % 2 ^ 32) (Nat.mod_lt _ (by decide))
    have h2 := fmtU_length (e % 2 ^ 32) (Nat.mod_lt _ (by decide))
    have h3 : " - ".toList.length = 3 := rfl
    have h4 : EOL.length = 2 := rfl
    show (fmtU (t % 2 ^ 32) ++ " - ".toList ++ fmtU (e % 2 ^ 32) ++ EOL).length ≤ 25
    rw [List.length_append, List.length_append, List.length_append, h3, h4]
    omega
  · unfold SpeedTest
    simp only [World.log]
    rw [if_neg (by simpa using htime), heq]
    rfl

theorem C25_timestamp_pass_witness :
    ∃ k line, k ≤ 100 ∧
      line = fmtU (4294967297 % 2 ^ 32) ++ " - ".toList ++ fmtU (4294972296 % 2 ^ 32) ++ EOL ∧
      line.length ≤ 25 :=
  (C25_timestamp_pass (sampleEnv false) 4294967297
    { sampleWorld 64 64 [] with
      s_usbSpeedTestType := UsbSpeedTestEnum.stTxSimpleWithTimestamps,
      s_usbSpeedTestEndTime := 4294972296 } rfl (by decide)).imp
    (fun _ h => h.imp (fun _ h2 => ⟨h2.1, h2.2.1, h2.2.2.1⟩))

/-! ### The CPU load report -/

/-- A sum kept modulo `2 ^ 32` that cannot overflow is the plain sum. -/
theorem foldl_mod_sum (f : Nat → Nat) (hf : ∀ j, f j ≤ 255) :
    ∀ (l : List Nat) (acc : Nat), acc + l.length * 255 < 2 ^ 32 →
      l.foldl (fun a j => (a + f j) % 2 ^ 32) acc = acc + (l.map f).sum := by
  intro l
  induction l with
  | nil => intro acc _; simp
  | cons x l ih =>
    intro acc h
    have hx := hf x
    simp only [List.length_cons] at h
    simp only [List.foldl_cons, List.map_cons, List.sum_cons]
    rw [Nat.mod_eq_of_lt (by omega), ih _ (by omega)]
    omega

theorem sum_le_255 (f : Nat → Nat) (hf : ∀ j, f j ≤ 255) (l : List Nat) :
    (l.map f).sum ≤ l.length * 255 := by
  induction l with
  | nil => simp
  | cons x l ih =>
    have := hf x
    simp only [List.map_cons, List.sum_cons, List.length_cons]
    omega

/-- Summing a ring from any start index, with wrap-around, sums every slot once. -/
theorem sum_rotate (g : Nat → Nat) (n i : Nat) :
    ((List.range n).map (fun j => g ((i + j) % n))).sum = ((List.range n).map g).sum := by
  have hconv : ∀ f : Nat → Nat, ((List.range n).map f).sum = ∑ j in Finset.range n, f j := by
    intro f
    rfl
  rw [hconv, hconv]
  rcases Nat.eq_zero_or_pos n with hn | hn
  · subst hn; rfl
  · refine Finset.sum_bij (fun j _ => (i + j) % n) ?_ ?_ ?_ ?_
    · intro a _
      exact Finset.mem_range.mpr (Nat.mod_lt _ hn)
    · intro a ha b hb hab
      have ha' := Finset.mem_range.mp ha
      have hb' := Finset.mem_range.mp hb
      have h1 : a ≡ b [MOD n] := Nat.ModEq.add_left_cancel' i hab
      have h2 : a % n = b % n := h1
      rwa [Nat.mod_eq_of_lt ha', Nat.mod_eq_of_lt hb'] at h2
    · intro k hk
      have hk' := Finset.mem_range.mp hk
      refine ⟨(k + (n - i % n)) % n, Finset.mem_range.mpr (Nat.mod_lt _ hn), ?_⟩
      have hi : i % n < n := Nat.mod_lt _ hn
      show (i + (k + (n - i % n)) % n) % n = k
      have h1 : (i + (k + (n - i % n)) % n) % n = (i % n + (k + (n - i % n))) % n := by
        conv_lhs => rw [Nat.add_mod, Nat.mod_mod]
        conv_rhs => rw [Nat.add_mod, Nat.mod_mod]
      have : i % n + (k + (n - i % n)) = k + n := by omega
      rw [h1, this, Nat.add_mod_right, Nat.mod_eq_of_lt hk']
    · intro a _
      rfl

/-- The sum and the average DisplayCpuLoad computes for a ring of up to 100000 slots, from
any start index: no 32-bit quantity overflows, and the average is the figure of the
specification, at most 100. -/
theorem cpuLoadAverage_spec (ring : Nat → Nat) (index count : Nat) (h0 : 0 < count)
    (hc : count ≤ 100000) :
    cpuLoadSum ring index count = ((List.range count).map (fun k => ring k % 256)).sum ∧
    cpuLoadSum ring index count * 100 < 2 ^ 32 ∧
    cpuLoadAverage ring index count = ringAverageSpec ring count ∧
    ringAverageSpec ring count ≤ 100 := by
  have hf : ∀ j, ring j % 256 ≤ 255 := fun j => by omega
  have hsum : cpuLoadSum ring index count =
      ((List.range count).map (fun k => ring k % 256)).sum := by
    unfold cpuLoadSum
    rw [foldl_mod_sum (fun j => ring ((index + j) % count) % 256)
      (fun j => Nat.le_of_lt_succ (Nat.mod_lt _ (by decide)))
      (List.range count) 0 (by rw [List.length_range]; omega), Nat.zero_add]
    exact sum_rotate (fun k => ring k % 256) count index
  have hle := sum_le_255 (fun k => ring k % 256) hf (List.range count)
  rw [List.length_range] at hle
  have hspec : ringAverageSpec ring count ≤ 100 := by
    unfold ringAverageSpec
    apply Nat.div_le_of_le_mul
    generalize ((List.range count).map (fun k => ring k % 256)).sum = S at hle
    nlinarith
  refine ⟨hsum, by rw [hsum]; omega, ?_, hspec⟩
  unfold cpuLoadAverage ringAverageSpec
  rw [hsum, Nat.mod_eq_of_lt (by omega), Nat.mod_eq_of_lt (by omega)]

theorem sum_const (g : Nat → Nat) (v : Nat) (h : ∀ k, g k = v) (l : List Nat) :
    (l.map g).sum = l.length * v := by
  induction l with
  | nil => simp
  | cons x l ih =>
    simp only [List.map_cons, List.sum_cons, List.length_cons, ih, h x]
    rw [Nat.add_mul, Nat.one_mul, Nat.add_comm]

/-- The printing loops of DisplayCpuLoad list the slots oldest to newest and print, for
each, the figure `value*100/255`. -/
theorem cpuLoadLines_spec (ring : Nat → Nat) (index count width : Nat) :
    cpuLoadLines ring index count width =
      slotLinesSpec (ringOldestFirstSpec ring index count) width := by
  unfold cpuLoadLines slotLinesSpec ringOldestFirstSpec
  rw [List.flatMap_def]
  congr 1
  apply List.ext_getElem
  · simp
  · intro n h1 h2
    simp only [List.length_map, List.length_range] at h1
    simp only [List.getElem_map, List.getElem_range, List.getElem_rotate, List.length_map,
      List.length_range, slotFigureSpec]
    rw [Nat.add_comm n index]

theorem ringOldestFirstSpec_mem (ring : Nat → Nat) (index count : Nat) :
    ∀ v ∈ ringOldestFirstSpec ring index count, v ≤ 255 := by
  intro v hv
  unfold ringOldestFirstSpec at hv
  rw [List.mem_rotate, List.mem_map] at hv
  obtain ⟨k, _, hk⟩ := hv
  omega

theorem cpuLoadLines_const (ring : Nat → Nat) (index count width v : Nat)
    (hall : ∀ k, ring k % 256 = v) :
    cpuLoadLines ring index count width =
      (List.replicate count (fmtUw width (v * 100 / 255) ++ " %".toList ++ EOL)).flatten := by
  unfold cpuLoadLines
  simp only [hall]
  rw [List.map_const', List.length_range]

/-- C21. For every content of the per-minute ring of 60 slots and of the per-second ring of
20 slots (every slot a byte) and every start index, the sum DisplayCpuLoad accumulates in
32 bits is the sum of the 60, or 20, slots, that sum times 100 is below 2^32, and the
average it prints is sum_of_slots*100/(slot_count*255), rounded down, a figure of at most
100; the per-slot lines it prints are, for the slots oldest to newest (from the start
index on, with wrap-around), the figures value*100/255, rounded down, each computed
without overflow and at most 100, so that none of the four assertions of the routine can
fail.  The text DisplayCpuLoad queues is the two headings, each followed by those
per-slot lines, and the two lines with those averages.  A ring whose slots all hold 255
has the average 100 and per-slot lines that all show 100, a ring whose slots all hold 0
has the average 0 and per-slot lines that all show 0, whatever the start index. -/
theorem C21_cpu_load_figures {σ : Type} (env : Env σ) (w : World σ) :
    (∀ (ring : Nat → Nat) (index count width : Nat),
      count = CPU_LOAD_MINUTE_SLOT_COUNT ∨ count = CPU_LOAD_SECOND_SLOT_COUNT →
      cpuLoadSum ring index count = ((List.range count).map (fun k => ring k % 256)).sum ∧
      cpuLoadSum ring index count * 100 < 2 ^ 32 ∧
      cpuLoadAverage ring index count = ringAverageSpec ring count ∧
      cpuLoadAverage ring index count ≤ 100 ∧
      cpuLoadLines ring index count width =
        slotLinesSpec (ringOldestFirstSpec ring index count) width ∧
      (ringOldestFirstSpec ring index count).length = count ∧
      (∀ v ∈ ringOldestFirstSpec ring index count,
        v ≤ 255 ∧ v * 100 < 2 ^ 32 ∧ slotFigureSpec v ≤ 100) ∧
      (∀ k, ring k % 256 * 100 / 255 ≤ 100) ∧
      ((∀ k, ring k % 256 = 255) →
        cpuLoadAverage ring index count = 100 ∧
        (∀ k, ring k % 256 * 100 / 255 = 100) ∧
        cpuLoadLines ring index count width =
          (List.replicate count (fmtUw width 100 ++ " %".toList ++ EOL)).flatten) ∧
      ((∀ k, ring k % 256 = 0) →
        cpuLoadAverage ring index count = 0 ∧
        (∀ k, ring k % 256 * 100 / 255 = 0) ∧
        cpuLoadLines ring index count width =
          (List.replicate count (fmtUw width 0 ++ " %".toList ++ EOL)).flatten)) ∧
    DisplayCpuLoad env w =
      ((((((w.print ("CPU load in the last 60 seconds (1 second intervals, oldest to newest):".toList
          ++ EOL)).print
        (slotLinesSpec (ringOldestFirstSpec env.lastMinute (env.lastMinuteIndex % 256)
          CPU_LOAD_MINUTE_SLOT_COUNT) 3)).print
        ("CPU load in the last second (50 ms intervals, oldest to newest):".toList ++ EOL)).print
        (slotLinesSpec (ringOldestFirstSpec env.lastSecond (env.lastSecondIndex % 256)
          CPU_LOAD_SECOND_SLOT_COUNT) 2)).print
        ("Average CPU load in the last 60 seconds: ".toList ++
          fmtUw 2 (ringAverageSpec env.lastMinute CPU_LOAD_MINUTE_SLOT_COUNT) ++ " %".toList ++
          EOL)).print
        ("Average CPU load in the last    second : ".toList ++
          fmtUw 2 (ringAverageSpec env.lastSecond CPU_LOAD_SECOND_SLOT_COUNT) ++ " %".toList ++
          EOL)) := by
  have hgen : ∀ (count : Nat),
      count = CPU_LOAD_MINUTE_SLOT_COUNT ∨ count = CPU_LOAD_SECOND_SLOT_COUNT →
      0 < count ∧ count ≤ 100000 := by
    intro count hcount
    rcases hcount with h | h <;> rw [h] <;> decide
  constructor
  · intro ring index count width hcount
    obtain ⟨h0, hc⟩ := hgen count hcount
    obtain ⟨hsum, hov, havg, hle⟩ := cpuLoadAverage_spec ring index count h0 hc
    refine ⟨hsum, hov, havg, by rw [havg]; exact hle, cpuLoadLines_spec ring index count width,
      ?_, ?_, fun k => by omega, ?_, ?_⟩
    · unfold ringOldestFirstSpec
      rw [List.length_rotate, List.length_map, List.length_range]
    · intro v hv
      have h255 := ringOldestFirstSpec_mem ring index count v hv
      unfold slotFigureSpec
      omega
    · intro hall
      refine ⟨?_, fun k => by rw [hall k], cpuLoadLines_const ring index count width 255 hall⟩
      rw [havg]
      unfold ringAverageSpec
      rw [sum_const _ 255 hall, List.length_range, Nat.mul_assoc, Nat.mul_comm 255 100,
        ← Nat.mul_assoc, Nat.mul_right_comm]
      exact Nat.mul_div_cancel_left 100 (by omega)
    · intro hall
      refine ⟨?_, fun k => by rw [hall k], cpuLoadLines_const ring index count width 0 hall⟩
      rw [havg]
      unfold ringAverageSpec
      rw [sum_const _ 0 hall]
      simp
  · unfold DisplayCpuLoad
    simp only []
    rw [(cpuLoadAverage_spec env.lastMinute (env.lastMinuteIndex % 256)
        CPU_LOAD_MINUTE_SLOT_COUNT (by decide) (by decide)).2.2.1,
      (cpuLoadAverage_spec env.lastSecond (env.lastSecondIndex % 256)
        CPU_LOAD_SECOND_SLOT_COUNT (by decide) (by decide)).2.2.1,
      cpuLoadLines_spec, cpuLoadLines_spec]

theorem C21_cpu_load_figures_witness :
    (cpuLoadAverage (fun _ => 255) 7 CPU_LOAD_MINUTE_SLOT_COUNT = 100 ∧
      cpuLoadLines (fun _ => 255) 7 CPU_LOAD_MINUTE_SLOT_COUNT 3 =
        (List.replicate CPU_LOAD_MINUTE_SLOT_COUNT
          (fmtUw 3 100 ++ " %".toList ++ EOL)).flatten) ∧
    (cpuLoadAverage (fun _ => 0) 7 CPU_LOAD_SECOND_SLOT_COUNT = 0 ∧
      cpuLoadLines (fun _ => 0) 7 CPU_LOAD_SECOND_SLOT_COUNT 2 =
        (List.replicate CPU_LOAD_SECOND_SLOT_COUNT
          (fmtUw 2 0 ++ " %".toList ++ EOL)).flatten) := by
  have h1 := ((C21_cpu_load_figures (sampleEnv false) (sampleWorld 64 64 [])).1 (fun _ => 255) 7
    CPU_LOAD_MINUTE_SLOT_COUNT 3 (Or.inl rfl)).2.2.2.2.2.2.2.2.1 (fun _ => rfl)
  have h2 := ((C21_cpu_load_figures (sampleEnv false) (sampleWorld 64 64 [])).1 (fun _ => 0) 7
    CPU_LOAD_SECOND_SLOT_COUNT 2 (Or.inr rfl)).2.2.2.2.2.2.2.2.2 (fun _ => rfl)
  exact ⟨⟨h1.1, h1.2.2⟩, ⟨h2.1, h2.2.2⟩⟩

/-! ### The tick handler and the watchdog period -/

/-- One call of SysTick_Handler from a wake-up counter below 64. -/
theorem SysTick_Handler_step (s : TickState) (h : s.s_mainLoopWakeUpCounter < 64) :
    (SysTick_Handler s).s_mainLoopWakeUpCounter = (s.s_mainLoopWakeUpCounter + 1) % 64 ∧
    (SysTick_Handler s).uptime = (s.uptime + 1) % 2 ^ 64 ∧
    (SysTick_Handler s).calls = s.calls ++
      (if (s.s_mainLoopWakeUpCounter + 1) % 64 = 0 then
        [TickEvent.IncrementUptime, TickEvent.TriggerMainLoopIteration]
      else [TickEvent.IncrementUptime]) := by
  unfold SysTick_Handler IncrementUptime MAINLOOP_WAKE_UP_FACTOR
  simp only []
  have hmod : (s.s_mainLoopWakeUpCounter + 1) % 2 ^ 32 = s.s_mainLoopWakeUpCounter + 1 :=
    Nat.mod_eq_of_lt (by omega)
  rw [hmod]
  by_cases h64 : (s.s_mainLoopWakeUpCounter + 1) % 64 = 0
  · rw [if_pos h64.symm, if_pos h64]
    exact ⟨h64.symm, rfl, by simp⟩
  · rw [if_neg (fun h => h64 h.symm), if_neg h64]
    refine ⟨?_, rfl, rfl⟩
    show s.s_mainLoopWakeUpCounter + 1 = _
    omega

/-- The wake-up counter after `k` calls, from 0. -/
theorem ticks_counter (s0 : TickState) (h0 : s0.s_mainLoopWakeUpCounter = 0) (k : Nat) :
    (ticks k s0).s_mainLoopWakeUpCounter = k % 64 := by
  induction k with
  | zero => exact h0
  | succ k ih =>
    rw [ticks, (SysTick_Handler_step _ (by rw [ih]; omega)).1, ih]
    omega

/-- C27. Starting from a wake-up counter of 0, after k calls of SysTick_Handler the counter
is k modulo 64, a value in 0..63; the call number k+1 makes exactly one call of
IncrementUptime, which advances the uptime (a counter of 64 bits) by one tick, and it
requests a main-loop wake-up, once and after that call, if and only if k+1 is a multiple
of 64. -/
theorem C27_sys_tick (s0 : TickState) (h0 : s0.s_mainLoopWakeUpCounter = 0) (k : Nat) :
    (ticks k s0).s_mainLoopWakeUpCounter = k % 64 ∧
    (ticks k s0).s_mainLoopWakeUpCounter ≤ 63 ∧
    (ticks (k + 1) s0).calls = (ticks k s0).calls ++
      (if (k + 1) % 64 = 0 then
        [TickEvent.IncrementUptime, TickEvent.TriggerMainLoopIteration]
      else [TickEvent.IncrementUptime]) ∧
    (ticks (k + 1) s0).uptime = ((ticks k s0).uptime + 1) % 2 ^ 64 ∧
    ((ticks k s0).uptime + 1 < 2 ^ 64 →
      (ticks (k + 1) s0).uptime = (ticks k s0).uptime + 1) := by
  have hc := ticks_counter s0 h0 k
  have hlt : (ticks k s0).s_mainLoopWakeUpCounter < 64 := by rw [hc]; omega
  obtain ⟨_, hup, hcalls⟩ := SysTick_Handler_step (ticks k s0) hlt
  have hiff : ((ticks k s0).s_mainLoopWakeUpCounter + 1) % 64 = 0 ↔ (k + 1) % 64 = 0 := by
    rw [hc]; omega
  refine ⟨hc, by omega, ?_, hup, ?_⟩
  · show (SysTick_Handler (ticks k s0)).calls = _
    rw [hcalls]
    by_cases h : (k + 1) % 64 = 0
    · rw [if_pos h, if_pos (hiff.mpr h)]
    · rw [if_neg h, if_neg (fun h1 => h (hiff.mp h1))]
  · intro hno
    show (SysTick_Handler (ticks k s0)).uptime = _
    rw [hup, Nat.mod_eq_of_lt hno]

theorem C27_sys_tick_witness :
    (ticks (63 + 1) ⟨0, 0, []⟩).calls = (ticks 63 ⟨0, 0, []⟩).calls ++
      (if (63 + 1) % 64 = 0 then
        [TickEvent.IncrementUptime, TickEvent.TriggerMainLoopIteration]
      else [TickEvent.IncrementUptime]) :=
  (C27_sys_tick ⟨0, 0, []⟩ rfl 63).2.2.1

/-- GetWdtPeriod away from the upper end of its range: 0 exactly outside 4..16000, and for
4..15999 the value dwMs*256/1000, computed without overflow, which lies in 1..4095. -/
theorem GetWdtPeriod_range (dwMs : Nat) :
    (GetWdtPeriod dwMs = 0 ↔ dwMs < 4 ∨ 16000 < dwMs) ∧
    (4 ≤ dwMs → dwMs ≤ 16000 →
      dwMs <<< 8 < 2 ^ 32 ∧ GetWdtPeriod dwMs = dwMs * 256 / 1000) ∧
    (4 ≤ dwMs → dwMs ≤ 15999 → 1 ≤ GetWdtPeriod dwMs ∧ GetWdtPeriod dwMs ≤ 4095) := by
  have hshift : dwMs <<< 8 = dwMs * 256 := by
    rw [Nat.shiftLeft_eq]
  have hin : 4 ≤ dwMs → dwMs ≤ 16000 → GetWdtPeriod dwMs = dwMs * 256 / 1000 := by
    intro h1 h2
    unfold GetWdtPeriod
    rw [if_neg (by omega), hshift, Nat.mod_eq_of_lt (by omega)]
  refine ⟨?_, ?_, ?_⟩
  · constructor
    · intro h
      by_contra hc
      rw [hin (by omega) (by omega)] at h
      omega
    · intro h
      unfold GetWdtPeriod
      rw [if_pos h]
  · intro h1 h2
    exact ⟨by rw [hshift]; omega, hin h1 h2⟩
  · intro h1 h2
    rw [hin h1 (by omega)]
    omega

/-- The mode word of a period below 2^12: the three parts occupy disjoint bits, so that the
word is their sum. -/
theorem wdp_mode_sum (v : Nat) (hv : v < 2 ^ 12) :
    v <<< 16 < 2 ^ 32 ∧ wdp_mode v = v + v * 2 ^ 16 + 0x2000 := by
  have hshift : v <<< 16 = 2 ^ 16 * v := by rw [Nat.shiftLeft_eq, Nat.mul_comm]
  have hlt : v <<< 16 < 2 ^ 32 := by rw [hshift]; omega
  refine ⟨hlt, ?_⟩
  unfold wdp_mode
  rw [Nat.mod_eq_of_lt hlt, hshift, Nat.or_comm v, Nat.lor_assoc]
  have h1 : v ||| 0x2000 = 2 ^ 13 * 1 + v := by
    rw [Nat.or_comm]
    exact (@Nat.mul_add_lt_is_or 13 v (by omega) 1).symm
  rw [h1, ← @Nat.mul_add_lt_is_or 16 (2 ^ 13 * 1 + v) (by omega) v]
  omega

/-- C30, as stated, fails: 16000 lies in 4..16000, and the value GetWdtPeriod returns for
it, 4096, is not in 1..4095. -/
theorem C30_counterexample :
    4 ≤ 16000 ∧ 16000 ≤ 16000 ∧ GetWdtPeriod 16000 = 4096 ∧
    ¬ (1 ≤ GetWdtPeriod 16000 ∧ GetWdtPeriod 16000 ≤ 4095) := by
  decide

/-- C30, amended. GetWdtPeriod returns 0 exactly when dwMs is outside 4..16000; for every
dwMs in 4..16000 it returns dwMs*256/1000, rounded down, computed without overflow in 32
bits; for every dwMs in 4..15999 that value is in 1..4095, and in the mode word Configure
builds from it the field WDV (bits 0..11) and the field WDD (bits 16..27) each hold the
value, the shift does not overflow, and of the bits 12..15 and 28..31 only the
reset-enable bit 0x2000 is set. -/
theorem C30_wdt_period_fields (dwMs : Nat) :
    (GetWdtPeriod dwMs = 0 ↔ dwMs < 4 ∨ 16000 < dwMs) ∧
    (4 ≤ dwMs → dwMs ≤ 16000 →
      dwMs <<< 8 < 2 ^ 32 ∧ GetWdtPeriod dwMs = dwMs * 256 / 1000) ∧
    (4 ≤ dwMs → dwMs ≤ 15999 →
      1 ≤ GetWdtPeriod dwMs ∧ GetWdtPeriod dwMs ≤ 4095 ∧
      GetWdtPeriod dwMs <<< 16 < 2 ^ 32 ∧
      wdp_mode (GetWdtPeriod dwMs) =
        GetWdtPeriod dwMs + GetWdtPeriod dwMs * 2 ^ 16 + 0x2000 ∧
      wdp_mode (GetWdtPeriod dwMs) % 2 ^ 12 = GetWdtPeriod dwMs ∧
      wdp_mode (GetWdtPeriod dwMs) / 2 ^ 16 % 2 ^ 12 = GetWdtPeriod dwMs ∧
      wdp_mode (GetWdtPeriod dwMs) / 2 ^ 12 % 2 ^ 4 = 2 ∧
      wdp_mode (GetWdtPeriod dwMs) / 2 ^ 28 = 0) := by
  obtain ⟨hzero, hin, hfit⟩ := GetWdtPeriod_range dwMs
  refine ⟨hzero, hin, ?_⟩
  intro h1 h2
  obtain ⟨hlo, hhi⟩ := hfit h1 h2
  obtain ⟨hshift, hsum⟩ := wdp_mode_sum (GetWdtPeriod dwMs) (by omega)
  rw [hsum]
  generalize GetWdtPeriod dwMs = v at hlo hhi hshift
  have e16 : (v + v * 2 ^ 16 + 0x2000) / 2 ^ 16 = v := by
    rw [show v + v * 2 ^ 16 + 0x2000 = (v + 0x2000) + 2 ^ 16 * v by omega,
      Nat.add_mul_div_left _ _ (by decide), Nat.div_eq_of_lt (by omega), Nat.zero_add]
  have e12 : (v + v * 2 ^ 16 + 0x2000) / 2 ^ 12 = 2 + 16 * v := by
    rw [show v + v * 2 ^ 16 + 0x2000 = v + 2 ^ 12 * (2 + 16 * v) by omega,
      Nat.add_mul_div_left _ _ (by decide), Nat.div_eq_of_lt (by omega), Nat.zero_add]
  refine ⟨hlo, hhi, hshift, rfl, by omega, ?_, ?_, Nat.div_eq_of_lt (by omega)⟩
  · rw [e16]
    exact Nat.mod_eq_of_lt (by omega)
  · rw [e12]
    omega

theorem C30_wdt_period_fields_witness :
    4 ≤ 1000 ∧ 1000 ≤ 15999 ∧
    1 ≤ GetWdtPeriod 1000 ∧ GetWdtPeriod 1000 ≤ 4095 ∧
    GetWdtPeriod 1000 <<< 16 < 2 ^ 32 ∧
    wdp_mode (GetWdtPeriod 1000) = GetWdtPeriod 1000 + GetWdtPeriod 1000 * 2 ^ 16 + 0x2000 ∧
    wdp_mode (GetWdtPeriod 1000) % 2 ^ 12 = GetWdtPeriod 1000 ∧
    wdp_mode (GetWdtPeriod 1000) / 2 ^ 16 % 2 ^ 12 = GetWdtPeriod 1000 ∧
    wdp_mode (GetWdtPeriod 1000) / 2 ^ 12 % 2 ^ 4 = 2 ∧
    wdp_mode (GetWdtPeriod 1000) / 2 ^ 28 = 0 :=
  ⟨by decide, by decide, (C30_wdt_period_fields 1000).2.2 (by decide) (by decide)⟩

/-! ### The speed-test kind at the calls of ParseCommand and SpeedTest -/

/-- One pass of the console loop entered with no speed test armed: either no command line
is parsed and, when the loop goes on, still no speed test is armed; or the pass ends in
executeLine, entered with no speed test armed. -/
theorem loopBody_kind {σ : Type} (env : Env σ) (t : Nat) (byte : Char) (w : World σ)
    (hk : w.s_usbSpeedTestType = UsbSpeedTestEnum.stNone) :
    ((loopBody env t byte w).1.how = Completion.returned ∧
      (loopBody env t byte w).1.world.s_usbSpeedTestType = UsbSpeedTestEnum.stNone ∧
      ∃ ext, (loopBody env t byte w).1.world.calls = w.calls ++ ext ∧ parsed ext = []) ∨
    ((loopBody env t byte w).2 = true ∧
      ∃ cmd w1, (loopBody env t byte w).1 = executeLine env t cmd w1 ∧
        w1.s_usbSpeedTestType = UsbSpeedTestEnum.stNone) := by
  by_cases hb : byte = BIN_MODE_CHAR
  · subst hb
    left
    by_cases h20 : (w.s_binaryModeCount + 1) % 2 ^ 32 = 20
    · rw [loopBody_switch env t w h20]
      exact ⟨rfl, rfl, _, rfl, rfl⟩
    · rw [loopBody_escape env t w h20]
      exact ⟨rfl, hk, _, rfl, rfl⟩
  · rw [loopBody_other env t byte w hb]
    cases hc : (env.AddChar w.s_console byte w.tx).2.2 with
    | none => exact Or.inl ⟨rfl, hk, _, rfl, rfl⟩
    | some cmd => exact Or.inr ⟨rfl, cmd, _, rfl, hk⟩

/-- The console loop entered with no speed test armed: either it returns without having
parsed a command line, or it ends in executeLine, entered with no speed test armed. -/
theorem consoleLoop_kind {σ : Type} (env : Env σ) (t n : Nat) (w : World σ) :
    w.s_usbSpeedTestType = UsbSpeedTestEnum.stNone →
    ((consoleLoop env t n w).how = Completion.returned ∧
      ∃ ext, (consoleLoop env t n w).world.calls = w.calls ++ ext ∧ parsed ext = []) ∨
    ∃ cmd w1, consoleLoop env t n w = executeLine env t cmd w1 ∧
      w1.s_usbSpeedTestType = UsbSpeedTestEnum.stNone := by
  refine consoleLoop_induct env t (fun n w o =>
    w.s_usbSpeedTestType = UsbSpeedTestEnum.stNone →
    (o.how = Completion.returned ∧ ∃ ext, o.world.calls = w.calls ++ ext ∧ parsed ext = []) ∨
    ∃ cmd w1, o = executeLine env t cmd w1 ∧
      w1.s_usbSpeedTestType = UsbSpeedTestEnum.stNone) ?_ ?_ n w
  · intro n w _
    exact Or.inl ⟨rfl, [], by simp, rfl⟩
  · intro n w byte rest hrx htx r hr
    have hbody := fun hk => loopBody_kind env t byte
      ({ w with rx := { w.rx with elems := rest } } : World σ) hk
    rw [← hr] at hbody
    simp only [] at hbody
    constructor
    · intro _ hk
      rcases hbody hk with ⟨hhow, _, ext, hcalls, hp⟩ | ⟨_, cmd, w1, he, hw1⟩
      · exact Or.inl ⟨hhow, ext, hcalls, hp⟩
      · exact Or.inr ⟨cmd, w1, he, hw1⟩
    · intro h2 o ho hk
      rcases hbody hk with ⟨_, hkind, ext, hcalls, hp⟩ | ⟨h3, _⟩
      · rcases ho hkind with ⟨hhow, ext2, hcalls2, hp2⟩ | ⟨cmd, w1, he, hw1⟩
        · refine Or.inl ⟨hhow, ext ++ ext2, ?_, ?_⟩
          · rw [hcalls2, hcalls, List.append_assoc]
          · rw [parsed_append, hp, hp2]; rfl
        · exact Or.inr ⟨cmd, w1, he, hw1⟩
      · rw [h3] at h2
        exact Bool.noConfusion h2

/-- C28. In every console state, reachable from a reset console or not, a call of
BusPirateConsole_ProcessData enters SpeedTest only when the speed-test kind is not None,
that is one of the five active kinds, so that the `default` branch of the switch of
SpeedTest is not reached; entered with the kind None it is the console loop alone and adds
no entry into SpeedTest to the trace.  A command line is parsed only with the kind None:
either the call returns without a call of ParseCommand, or it ends in the statements that
follow a completed line, entered with the kind None, and these hand ParseCommand a state
with the kind None; for a line of the command UsbSpeedTest that very state is the one
ProcessUsbSpeedTestCmd starts in, so its assertion `s_usbSpeedTestType == stNone`
holds. -/
theorem C28_kind_at_calls {σ : Type} (env : Env σ) (t : Nat) (w : World σ) :
    (w.s_usbSpeedTestType = UsbSpeedTestEnum.stNone →
      BusPirateConsole_ProcessData env t w = consoleLoop env t 100 w ∧
      ∃ ext, (BusPirateConsole_ProcessData env t w).world.calls = w.calls ++ ext ∧
        Event.SpeedTest ∉ ext) ∧
    (w.s_usbSpeedTestType ≠ UsbSpeedTestEnum.stNone →
      w.s_usbSpeedTestType ∈ [UsbSpeedTestEnum.stTxSimpleWithTimestamps,
        UsbSpeedTestEnum.stTxSimpleLoop, UsbSpeedTestEnum.stTxFastLoopCircularBuffer,
        UsbSpeedTestEnum.stTxFastLoopRawUsb, UsbSpeedTestEnum.stRxWithCircularBuffer] ∧
      BusPirateConsole_ProcessData env t w =
        if (SpeedTest env t w).s_usbSpeedTestType ≠ UsbSpeedTestEnum.stNone then
          ⟨SpeedTest env t w, Completion.returned⟩
        else consoleLoop env t 100 (SpeedTest env t w)) ∧
    (((BusPirateConsole_ProcessData env t w).how = Completion.returned ∧
        ∃ ext, (BusPirateConsole_ProcessData env t w).world.calls = w.calls ++ ext ∧
          parsed ext = []) ∨
      ∃ cmd w1, BusPirateConsole_ProcessData env t w = executeLine env t cmd w1 ∧
        w1.s_usbSpeedTestType = UsbSpeedTestEnum.stNone) ∧
    (∀ (cmd : List Char) (w1 : World σ),
      w1.s_usbSpeedTestType = UsbSpeedTestEnum.stNone →
      (({ w1.print EOL with s_simulateProcolError := false } : World σ).log
        (Event.ParseCommand (cstr cmd))).s_usbSpeedTestType = UsbSpeedTestEnum.stNone ∧
      (commandOf (cstr cmd) = some Command.usbSpeedTest →
        ParseCommand env (cstr cmd) t
            (({ w1.print EOL with s_simulateProcolError := false } : World σ).log
              (Event.ParseCommand (cstr cmd))) =
          ⟨ProcessUsbSpeedTestCmd (paramOf (cstr cmd)) t
            (({ w1.print EOL with s_simulateProcolError := false } : World σ).log
              (Event.ParseCommand (cstr cmd))), Completion.returned⟩)) := by
  refine ⟨?_, ?_, ?_, ?_⟩
  · intro hk
    have heq : BusPirateConsole_ProcessData env t w = consoleLoop env t 100 w := by
      unfold BusPirateConsole_ProcessData
      rw [if_neg (by simp [hk])]
    refine ⟨heq, ?_⟩
    rw [heq]
    obtain ⟨ext, hc, hh⟩ := consoleLoop_events env t 100 w
    refine ⟨ext, hc, ?_⟩
    intro hm
    rcases hh _ hm with h | h <;> exact Bool.noConfusion h
  · intro hk
    constructor
    · cases hkind : w.s_usbSpeedTestType with
      | stNone => exact absurd hkind hk
      | stTxSimpleWithTimestamps => simp
      | stTxSimpleLoop => simp
      | stTxFastLoopCircularBuffer => simp
      | stTxFastLoopRawUsb => simp
      | stRxWithCircularBuffer => simp
    · unfold BusPirateConsole_ProcessData
      rw [if_pos hk]
  · obtain ⟨_, pre, hpre, hq⟩ := SpeedTest_quiet env t w
    have key : ∀ w0 : World σ, w0.s_usbSpeedTestType = UsbSpeedTestEnum.stNone →
        ∀ pre0, w0.calls = w.calls ++ pre0 → parsed pre0 = [] →
        ((consoleLoop env t 100 w0).how = Completion.returned ∧
          ∃ ext, (consoleLoop env t 100 w0).world.calls = w.calls ++ ext ∧ parsed ext = []) ∨
        ∃ cmd w1, consoleLoop env t 100 w0 = executeLine env t cmd w1 ∧
          w1.s_usbSpeedTestType = UsbSpeedTestEnum.stNone := by
      intro w0 hk0 pre0 hc0 hp0
      rcases consoleLoop_kind env t 100 w0 hk0 with ⟨hhow, ext, hc, hp⟩ | h
      · refine Or.inl ⟨hhow, pre0 ++ ext, ?_, ?_⟩
        · rw [hc, hc0, List.append_assoc]
        · rw [parsed_append, hp0, hp]; rfl
      · exact Or.inr h
    unfold BusPirateConsole_ProcessData
    by_cases hk : w.s_usbSpeedTestType = UsbSpeedTestEnum.stNone
    · rw [if_neg (by simp [hk])]
      exact key w hk [] (by simp) rfl
    · rw [if_pos hk]
      simp only []
      by_cases hk1 : (SpeedTest env t w).s_usbSpeedTestType = UsbSpeedTestEnum.stNone
      · rw [if_neg (by simp [hk1])]
        exact key _ hk1 pre hpre (parsed_quiet pre hq)
      · rw [if_pos hk1]
        exact Or.inl ⟨rfl, pre, hpre, parsed_quiet pre hq⟩
  · intro cmd w1 hk1
    refine ⟨hk1, ?_⟩
    intro hcmd
    rw [ParseCommand_some env _ t _ _ hcmd]
    rfl

theorem C28_kind_at_calls_witness :
    BusPirateConsole_ProcessData (sampleEnv false) 0 (sampleLineWorld "help".toList []) =
      consoleLoop (sampleEnv false) 0 100 (sampleLineWorld "help".toList []) :=
  ((C28_kind_at_calls (sampleEnv false) 0 (sampleLineWorld "help".toList [])).1 rfl).1

/-! ### The assertions of the parsing helpers -/

/-- A text that is not empty and starts behind skipped blanks: its first token is not empty,
the end of the token lies further on, and the token is made of characters of the text. -/
theorem token_of_skipped (q : List Char) (hne : SkipCharsInSet q SPACE_AND_TAB ≠ []) :
    0 < (firstToken (SkipCharsInSet q SPACE_AND_TAB)).length ∧
    (SkipCharsNotInSet (SkipCharsInSet q SPACE_AND_TAB) SPACE_AND_TAB).length <
      (SkipCharsInSet q SPACE_AND_TAB).length ∧
    (∀ c ∈ firstToken (SkipCharsInSet q SPACE_AND_TAB), c ∈ q) ∧
    (∀ c ∈ paramRegion (SkipCharsInSet q SPACE_AND_TAB), c ∈ q) := by
  have hsub : ∀ c ∈ SkipCharsInSet q SPACE_AND_TAB, c ∈ q := by
    intro c hc
    rw [SkipCharsInSet_eq] at hc
    exact (List.dropWhile_sublist _).subset hc
  have hfix : (SkipCharsInSet q SPACE_AND_TAB).dropWhile isBlank =
      SkipCharsInSet q SPACE_AND_TAB := by
    rw [SkipCharsInSet_eq]
    exact dropWhile_fixed _ _
  generalize SkipCharsInSet q SPACE_AND_TAB = s at hne hsub hfix
  cases s with
  | nil => exact absurd rfl hne
  | cons x xs =>
    have hx : isBlank x = false := head_of_dropWhile_fixed isBlank x xs hfix
    have htok : firstToken (x :: xs) = x :: xs.takeWhile (fun c => !isBlank c) := by
      unfold firstToken
      rw [SkipCharsNotInSet_eq, span_dropWhile, List.takeWhile_cons]
      simp [hx]
    have hend : SkipCharsNotInSet (x :: xs) SPACE_AND_TAB =
        xs.dropWhile (fun c => !isBlank c) := by
      rw [SkipCharsNotInSet_eq, List.dropWhile_cons]
      simp [hx]
    refine ⟨by rw [htok]; simp, ?_, ?_, ?_⟩
    · rw [hend]
      have := (List.dropWhile_sublist (fun c => !isBlank c) (l := xs)).length_le
      simp only [List.length_cons]
      omega
    · intro c hc
      rw [htok] at hc
      apply hsub
      rcases List.mem_cons.mp hc with h | h
      · rw [h]; exact List.mem_cons_self _ _
      · exact List.mem_cons_of_mem _ ((List.takeWhile_sublist _).subset h)
    · intro c hc
      unfold paramRegion at hc
      rw [hend, SkipCharsInSet_eq] at hc
      apply hsub
      exact List.mem_cons_of_mem _ ((List.dropWhile_sublist _).subset
        ((List.dropWhile_sublist _).subset hc))

theorem cstr_no_nul (buf : List Char) : ∀ c ∈ cstr buf, c ≠ Char.ofNat 0 := by
  intro c hc
  have := List.mem_takeWhile_imp hc
  simpa using this

/-- C29. For every NUL-terminated command line that is not blank, so that ParseCommand
calls ProcessCommand, the assertions of the parsing helpers hold where the calls made from
ParseCommand reach them: `cmdBegin != cmdEnd` in ProcessCommand; `len > 0` and `c != 0` in
DoesStrMatch for the command token every IsCmd of ProcessCommand passes on; the same two
for the first token of the parameter region whenever that region is not empty, which is
the token ProcessUsbSpeedTestCmd and SimulateError compare after their check for an empty
argument; and `countBegin > paramBegin` in PrintMemory behind its check of the
arguments. -/
theorem C29_parsing_asserts (buf : List Char)
    (hs : SkipCharsInSet (cstr buf) SPACE_AND_TAB ≠ []) :
    (∀ {σ : Type} (env : Env σ) (t : Nat) (w : World σ),
      ParseCommand env (cstr buf) t w =
        ProcessCommand env (SkipCharsInSet (cstr buf) SPACE_AND_TAB) t w) ∧
    ProcessCommand_assert (SkipCharsInSet (cstr buf) SPACE_AND_TAB) ∧
    DoesStrMatch_asserts (firstToken (SkipCharsInSet (cstr buf) SPACE_AND_TAB)) ∧
    paramOf (cstr buf) = paramRegion (SkipCharsInSet (cstr buf) SPACE_AND_TAB) ∧
    (paramOf (cstr buf) ≠ [] → DoesStrMatch_asserts (firstToken (paramOf (cstr buf)))) ∧
    PrintMemory_assert (paramOf (cstr buf)) := by
  obtain ⟨h1, h2, h3, h4⟩ := token_of_skipped (cstr buf) hs
  have hnul := cstr_no_nul buf
  have hp : paramOf (cstr buf) =
      SkipCharsInSet (SkipCharsNotInSet (SkipCharsInSet (cstr buf) SPACE_AND_TAB) SPACE_AND_TAB)
        SPACE_AND_TAB := rfl
  refine ⟨?_, ?_, ⟨h1, fun c hc => hnul c (h3 c hc)⟩, rfl, ?_, ?_⟩
  · intro σ env t w
    unfold ParseCommand
    simp only []
    rw [if_pos hs]
  · unfold ProcessCommand_assert
    omega
  · intro hne
    rw [hp] at hne ⊢
    obtain ⟨g1, -, g3, -⟩ := token_of_skipped _ hne
    refine ⟨g1, fun c hc => hnul c ?_⟩
    have hc2 := g3 c hc
    rw [SkipCharsNotInSet_eq, SkipCharsInSet_eq] at hc2
    exact (List.dropWhile_sublist _).subset ((List.dropWhile_sublist _).subset hc2)
  · rw [hp]
    unfold PrintMemory_assert
    intro hnot
    have hne : SkipCharsInSet (SkipCharsNotInSet (SkipCharsInSet (cstr buf) SPACE_AND_TAB)
        SPACE_AND_TAB) SPACE_AND_TAB ≠ [] := fun h => hnot (Or.inl h)
    obtain ⟨-, g2, -, -⟩ := token_of_skipped _ hne
    have hle : ∀ x : List Char, (SkipCharsInSet x SPACE_AND_TAB).length ≤ x.length := by
      intro x
      rw [SkipCharsInSet_eq]
      exact (List.dropWhile_sublist _).length_le
    exact Nat.lt_of_le_of_lt (hle _) g2

set_option maxRecDepth 100000 in
theorem C29_parsing_asserts_witness :
    DoesStrMatch_asserts
        (firstToken (SkipCharsInSet (cstr (" PrintMemory 0x10 4".toList ++ [Char.ofNat 0, 'x']))
          SPACE_AND_TAB)) ∧
    PrintMemory_assert (paramOf (cstr (" PrintMemory 0x10 4".toList ++ [Char.ofNat 0, 'x']))) :=
  ⟨(C29_parsing_asserts (" PrintMemory 0x10 4".toList ++ [Char.ofNat 0, 'x'])
      (by decide)).2.2.1,
   (C29_parsing_asserts (" PrintMemory 0x10 4".toList ++ [Char.ofNat 0, 'x'])
      (by decide)).2.2.2.2.2⟩

/-- The routine strtoul on a text that starts with neither white space nor a minus sign and
in which no prefix `0x` is skipped: the digit loop runs from behind the plus sign, if there
is one. -/
theorem strtoul_plain (base : Nat) (nptr : List Char)
    (hsp : ∀ c ∈ nptr.head?, isspace c = false) (hminus : nptr.head? ≠ some '-')
    (hpre : ¬ (base = 16 ∧ hasSecondPrefix (dropPlus nptr) = true)) :
    strtoul nptr base =
      if !(strtoulDigits base (dropPlus nptr) 0 false).2.1 then ⟨0, nptr, 0⟩
      else if (strtoulDigits base (dropPlus nptr) 0 false).1 > ULONG_MAX then
        ⟨ULONG_MAX, (strtoulDigits base (dropPlus nptr) 0 false).2.2, ERANGE⟩
      else ⟨(strtoulDigits base (dropPlus nptr) 0 false).1,
        (strtoulDigits base (dropPlus nptr) 0 false).2.2, 0⟩ := by
  have hdw : nptr.dropWhile isspace = nptr := by
    cases nptr with
    | nil => rfl
    | cons c t => rw [List.dropWhile_cons, hsp c (by simp)]; rfl
  have hsign : (if nptr.head? = some '-' ∨ nptr.head? = some '+' then nptr.tail else nptr) =
      dropPlus nptr := by
    unfold dropPlus
    by_cases hp : nptr.head? = some '+'
    · rw [if_pos (Or.inr hp), if_pos hp]
    · rw [if_neg (by rintro (h | h); exact hminus h; exact hp h), if_neg hp]
  unfold strtoul
  simp only [hdw, hsign, if_neg hminus]
  generalize hd : dropPlus nptr = s at hpre ⊢
  rcases s with _ | ⟨z, _ | ⟨x, _ | ⟨h, r⟩⟩⟩
  · rfl
  · rfl
  · rfl
  · have hif : (if base = 16 ∧ z = '0' ∧ (x = 'x' ∨ x = 'X') ∧
        (digitValue h).any (fun d => decide (d < 16)) = true then h :: r
        else z :: x :: h :: r) = z :: x :: h :: r := by
      apply if_neg
      rintro ⟨hb, hz, hx, hh⟩
      apply hpre
      refine ⟨hb, ?_⟩
      unfold hasSecondPrefix isDigitOf
      simp only [hz, beq_self_eq_true, Bool.true_and, Bool.and_eq_true, Bool.or_eq_true,
        beq_iff_eq]
      exact ⟨hx, hh⟩
    simp only [hif]

theorem dropWhile_head (q : Char → Bool) (l : List Char) :
    ∀ b ∈ (l.dropWhile q).head?, q b = false := by
  induction l with
  | nil => intro b hb; simp at hb
  | cons x l ih =>
    intro b hb
    by_cases hx : q x = true
    · rw [List.dropWhile_cons, if_pos hx] at hb
      exact ih b hb
    · rw [List.dropWhile_cons, if_neg hx] at hb
      simp only [List.head?_cons, Option.mem_def, Option.some.injEq] at hb
      rw [← hb]
      simpa using hx

theorem takeWhile_all (q : Char → Bool) (l : List Char) :
    ∀ c ∈ l.takeWhile q, q c = true := by
  intro c hc
  exact (List.mem_takeWhile_imp hc)

theorem dropPlus_subset (s : List Char) : ∀ c ∈ dropPlus s, c ∈ s := by
  intro c hc
  unfold dropPlus at hc
  split at hc
  · exact List.mem_of_mem_tail hc
  · exact hc

theorem dropPlus_append (body rest : List Char) (hne : body ≠ []) :
    dropPlus (body ++ rest) = dropPlus body ++ rest := by
  cases body with
  | nil => exact absurd rfl hne
  | cons c t =>
    unfold dropPlus
    simp only [List.cons_append, List.head?_cons, List.tail_cons]
    split <;> rfl

/-- A second prefix found in a text that goes on with a blank lies in the text itself. -/
theorem hasSecondPrefix_append (d rest : List Char) (hnb : ∀ c ∈ d, isBlank c = false)
    (hrest : ∀ b ∈ rest.head?, isBlank b = true)
    (h : hasSecondPrefix (d ++ rest) = true) : hasSecondPrefix d = true := by
  have hblank : ∀ b r, rest = b :: r → isBlank b = true := by
    intro b r hr
    exact hrest b (by rw [hr]; simp)
  rcases d with _ | ⟨z, _ | ⟨x, _ | ⟨h1, r⟩⟩⟩
  · rcases rest with _ | ⟨z, _ | ⟨x, _ | ⟨h1, r⟩⟩⟩
    · exact h
    · exact h
    · exact h
    · exfalso
      have hb := hblank z _ rfl
      unfold hasSecondPrefix at h
      simp only [List.nil_append, Bool.and_eq_true, beq_iff_eq] at h
      rw [h.1.1] at hb
      exact absurd hb (by decide)
  · rcases rest with _ | ⟨x, _ | ⟨h1, r⟩⟩
    · exact h
    · exact h
    · exfalso
      have hb := isBlank_plain 16 x (by decide) (hblank x _ rfl)
      unfold hasSecondPrefix at h
      simp only [List.cons_append, List.nil_append, Bool.and_eq_true, Bool.or_eq_true,
        beq_iff_eq] at h
      rcases h.1.2 with hx | hx
      · exact hb.2.1 hx
      · exact hb.2.2.1 hx
  · rcases rest with _ | ⟨h1, r⟩
    · exact h
    · exfalso
      have hb := isBlank_plain 16 h1 (by decide) (hblank h1 _ rfl)
      unfold hasSecondPrefix at h
      simp only [List.cons_append, List.nil_append, Bool.and_eq_true] at h
      rw [hb.1] at h
      exact absurd h.2 (by decide)
  · exact h

/-- The checks ParseUnsignedIntArg makes behind strtoul fail for every text whose first
token is no number with an optional plus sign, when it starts with neither white space
nor a minus sign and has no second prefix. -/
theorem strtoul_malformed (base : Nat) (hbase : base ≤ 16) (body rest : List Char)
    (hne : body ≠ []) (hnb : ∀ c ∈ body, isBlank c = false)
    (hrest : ∀ b ∈ rest.head?, isBlank b = true)
    (hsp : ∀ c ∈ body.head?, isspace c = false) (hminus : body.head? ≠ some '-')
    (hpre : ¬ (base = 16 ∧ hasSecondPrefix (dropPlus body) = true))
    (hbad : ¬ (dropPlus body ≠ [] ∧ ∀ c ∈ dropPlus body, isDigitOf base c = true)) :
    (strtoul (body ++ rest) base).errno ≠ 0 ∨
      ((strtoul (body ++ rest) base).endPtr ≠ [] ∧
        (strtoul (body ++ rest) base).endPtr.head?.any (IsCharInSet · SPACE_AND_TAB) = false) := by
  obtain ⟨c0, t, hbody⟩ : ∃ c0 t, body = c0 :: t := by
    cases body with
    | nil => exact absurd rfl hne
    | cons c t => exact ⟨c, t, rfl⟩
  have hhead : (body ++ rest).head? = body.head? := by rw [hbody]; rfl
  have hdnb : ∀ c ∈ dropPlus body, isBlank c = false :=
    fun c hc => hnb c (dropPlus_subset body c hc)
  have hplain := strtoul_plain base (body ++ rest) (by rw [hhead]; exact hsp)
    (by rw [hhead]; exact hminus) (by
      rw [dropPlus_append body rest hne]
      rintro ⟨hb, h⟩
      exact hpre ⟨hb, hasSecondPrefix_append _ rest hdnb hrest h⟩)
  rw [dropPlus_append body rest hne] at hplain
  have hsplit := List.takeWhile_append_dropWhile (isDigitOf base) (dropPlus body)
  generalize hds : (dropPlus body).takeWhile (isDigitOf base) = ds at hsplit
  generalize hd' : (dropPlus body).dropWhile (isDigitOf base) = d' at hsplit
  have hdsall : ∀ c ∈ ds, isDigitOf base c = true := by
    rw [← hds]; exact takeWhile_all _ _
  have hd'head : ∀ b ∈ d'.head?, isDigitOf base b = false := by
    rw [← hd']; exact dropWhile_head _ _
  have hd'nb : ∀ c ∈ d', isBlank c = false := by
    intro c hc
    apply hdnb
    rw [← hsplit]
    exact List.mem_append_right _ hc
  have hstop : ∀ b ∈ (d' ++ rest).head?, isDigitOf base b = false := by
    intro b hb
    cases d' with
    | nil =>
      rw [List.nil_append] at hb
      exact (isBlank_plain base b hbase (hrest b hb)).1
    | cons x xs => exact hd'head b hb
  have hrun := strtoulDigits_run base (d' ++ rest) hstop ds 0 false hdsall
  rw [← List.append_assoc, hsplit] at hrun
  rw [hplain, hrun]
  have hc0 : IsCharInSet c0 SPACE_AND_TAB = false := by
    rw [IsCharInSet_blank]
    exact hnb c0 (by rw [hbody]; simp)
  cases ds with
  | nil =>
    right
    simp only [List.isEmpty_nil, Bool.not_true, Bool.or_false, Bool.not_false, if_true]
    rw [hbody]
    refine ⟨by simp, ?_⟩
    simp [hc0]
  | cons y ys =>
    simp only [List.isEmpty_cons, Bool.not_false, Bool.or_true, Bool.not_true,
      Bool.false_eq_true, if_false]
    split
    · left
      show ERANGE ≠ 0
      decide
    · right
      cases d' with
      | nil =>
        exfalso
        apply hbad
        rw [← hsplit, List.append_nil]
        exact ⟨by simp, hdsall⟩
      | cons x xs =>
        have hx : IsCharInSet x SPACE_AND_TAB = false := by
          rw [IsCharInSet_blank]
          exact hd'nb x (by simp)
        refine ⟨by simp, ?_⟩
        simp [hx]

/-- ParseUnsignedIntArg raises its exception for every token that is no well-formed
unsigned number with an optional plus sign, the three shapes of isSlipShape apart. -/
theorem ParseUnsignedIntArg_malformed (tok rest : List Char) (hne : tok ≠ [])
    (hnb : ∀ c ∈ tok, isBlank c = false) (hrest : ∀ b ∈ rest.head?, isBlank b = true)
    (hbad : isPlusNumeral tok = false) (hslip : isSlipShape tok = false) :
    ParseUnsignedIntArg (tok ++ rest) = Except.error ERR_MSG := by
  unfold isSlipShape at hslip
  simp only [Bool.or_eq_false_iff] at hslip
  obtain ⟨⟨hs1, hs2⟩, hs3⟩ := hslip
  have hhex : ((tok ++ rest).head? = some '0' ∧ (tok ++ rest).tail.head? = some 'x') ↔
      hasHexPrefix tok = true := by
    unfold hasHexPrefix
    rw [decide_eq_true_iff]
    rcases tok with _ | ⟨c, _ | ⟨c2, t⟩⟩
    · exact absurd rfl hne
    · simp only [List.cons_append, List.nil_append, List.head?_cons, List.tail_cons,
        List.head?_nil]
      constructor
      · rintro ⟨-, h⟩
        exact absurd rfl (isBlank_plain 16 'x' (by decide) (hrest 'x' h)).2.1
      · rintro ⟨-, h⟩
        exact Option.noConfusion h
    · rfl
  have hbody : (if (tok ++ rest).head? = some '0' ∧ (tok ++ rest).tail.head? = some 'x'
      then (tok ++ rest).drop 2 else tok ++ rest) = numeralBody tok ++ rest := by
    unfold numeralBody
    by_cases hx : hasHexPrefix tok = true
    · rw [if_pos (hhex.mpr hx), if_pos hx]
      rcases tok with _ | ⟨c, _ | ⟨c2, t⟩⟩
      · exact absurd rfl hne
      · unfold hasHexPrefix at hx
        simp at hx
      · rfl
    · rw [if_neg (fun h => hx (hhex.mp h)), if_neg hx]
  have hbase : (if (tok ++ rest).head? = some '0' ∧ (tok ++ rest).tail.head? = some 'x'
      then 16 else 10) = numeralBase tok := by
    unfold numeralBase
    by_cases hx : hasHexPrefix tok = true
    · rw [if_pos (hhex.mpr hx), if_pos hx]
    · rw [if_neg (fun h => hx (hhex.mp h)), if_neg hx]
  have hb16 : numeralBase tok ≤ 16 := by
    unfold numeralBase
    split <;> decide
  have hbne : numeralBody tok ≠ [] := by
    intro h0
    by_cases hx : hasHexPrefix tok = true
    · rw [hx, h0] at hs1
      exact absurd hs1 (by decide)
    · unfold numeralBody at h0
      rw [if_neg hx] at h0
      exact hne h0
  have hbnb : ∀ c ∈ numeralBody tok, isBlank c = false := by
    intro c hc
    apply hnb
    unfold numeralBody at hc
    split at hc
    · exact List.mem_of_mem_drop hc
    · exact hc
  unfold ParseUnsignedIntArg
  simp only [hbody, hbase]
  by_cases hm : (numeralBody tok ++ rest).head? = some '-'
  · rw [if_pos hm]
  · rw [if_neg hm]
    have hhead : (numeralBody tok ++ rest).head? = (numeralBody tok).head? := by
      cases hb : numeralBody tok with
      | nil => exact absurd hb hbne
      | cons c t => rfl
    have hmal := strtoul_malformed (numeralBase tok) hb16 (numeralBody tok) rest hbne hbnb hrest
      (by
        intro c hc
        cases hb : numeralBody tok with
        | nil => exact absurd hb hbne
        | cons c1 t =>
          rw [hb] at hc hs2
          simp only [List.head?_cons, Option.mem_def, Option.some.injEq] at hc
          simp only [List.head?_cons, Option.any_some] at hs2
          rw [← hc]
          exact hs2)
      (by rw [← hhead]; exact hm)
      (by
        rintro ⟨hb, h⟩
        have hx : hasHexPrefix tok = true := by
          unfold numeralBase at hb
          by_contra hx
          rw [if_neg hx] at hb
          exact absurd hb (by decide)
        rw [hx, h] at hs3
        exact absurd hs3 (by decide))
      (by
        rintro ⟨h1, h2⟩
        unfold isPlusNumeral at hbad
        have h3 : (dropPlus (numeralBody tok)).isEmpty = false := by
          cases hd : dropPlus (numeralBody tok) with
          | nil => exact absurd hd h1
          | cons c t => rfl
        have h4 : (dropPlus (numeralBody tok)).all (isDigitOf (numeralBase tok)) = true :=
          List.all_eq_true.mpr h2
        rw [h3, h4] at hbad
        exact absurd hbad (by decide))
    rw [if_pos]
    rcases hmal with h | ⟨h1, h2⟩
    · exact Or.inl h
    · exact Or.inr ⟨h1, by rw [h2]; rfl⟩

/-- A text is its first token followed by a rest that is empty or starts with a blank, and
the token has no blank. -/
theorem firstToken_split (p : List Char) :
    p = firstToken p ++ SkipCharsNotInSet p SPACE_AND_TAB ∧
    (∀ c ∈ firstToken p, isBlank c = false) ∧
    (∀ b ∈ (SkipCharsNotInSet p SPACE_AND_TAB).head?, isBlank b = true) := by
  unfold firstToken
  rw [SkipCharsNotInSet_eq, span_dropWhile]
  refine ⟨(List.takeWhile_append_dropWhile _ p).symm, ?_, ?_⟩
  · intro c hc
    have := takeWhile_all _ _ c hc
    simpa using this
  · intro b hb
    have := dropWhile_head _ _ b hb
    simpa using this

set_option maxRecDepth 100000 in
/-- C18 (counterexample). The address token `+16` is neither a run of decimal digits nor `0x`
with hexadecimal digits, and PrintMemory with the parameters `+16 1` calls HexDump for the
address 16, which reads memory.  Three more shapes of a malformed address token get
through, each by a quirk of the hand-over to strtoul: with the bare prefix in `0x 4` the
count is read as the address too, and 4 bytes are dumped from address 4; with the second
prefix in `0x0x10 1` one byte is dumped from address 16; and so it is with a vertical tab,
which is white space to strtoul, in front of `16 1`. -/
theorem C18_counterexample :
    (PrintMemory (sampleEnv false) "+16 1".toList (sampleWorld 64 64 []) =
        HexDump (sampleEnv false) 16 1 EOL (sampleWorld 64 64 []) ∧
      Event.readMemory (16 % 2 ^ 32) ∈
        (PrintMemory (sampleEnv false) "+16 1".toList (sampleWorld 64 64 [])).world.calls) ∧
    (PrintMemory (sampleEnv false) "0x 4".toList (sampleWorld 64 64 []) =
        HexDump (sampleEnv false) 4 4 EOL (sampleWorld 64 64 []) ∧
      Event.readMemory (4 % 2 ^ 32) ∈
        (PrintMemory (sampleEnv false) "0x 4".toList (sampleWorld 64 64 [])).world.calls) ∧
    (PrintMemory (sampleEnv false) "0x0x10 1".toList (sampleWorld 64 64 []) =
        HexDump (sampleEnv false) 16 1 EOL (sampleWorld 64 64 []) ∧
      Event.readMemory (16 % 2 ^ 32) ∈
        (PrintMemory (sampleEnv false) "0x0x10 1".toList (sampleWorld 64 64 [])).world.calls) ∧
    (PrintMemory (sampleEnv false) (Char.ofNat 11 :: "16 1".toList) (sampleWorld 64 64 []) =
        HexDump (sampleEnv false) 16 1 EOL (sampleWorld 64 64 []) ∧
      Event.readMemory (16 % 2 ^ 32) ∈
        (PrintMemory (sampleEnv false) (Char.ofNat 11 :: "16 1".toList)
          (sampleWorld 64 64 [])).world.calls) := by
  have key : ∀ (p : List Char) (addr count : Nat), p ≠ [] →
      SkipCharsInSet (SkipCharsNotInSet p SPACE_AND_TAB) SPACE_AND_TAB ≠ [] →
      SkipCharsInSet (SkipCharsNotInSet (SkipCharsInSet (SkipCharsNotInSet p SPACE_AND_TAB)
        SPACE_AND_TAB) SPACE_AND_TAB) SPACE_AND_TAB = [] →
      ParseUnsignedIntArg p = Except.ok addr →
      ParseUnsignedIntArg (SkipCharsInSet (SkipCharsNotInSet p SPACE_AND_TAB) SPACE_AND_TAB) =
        Except.ok count → 1 ≤ count →
      expectedOutputLen count EOL ≤ (sampleWorld 64 64 []).tx.GetFreeCount →
      PrintMemory (sampleEnv false) p (sampleWorld 64 64 []) =
          HexDump (sampleEnv false) addr count EOL (sampleWorld 64 64 []) ∧
        Event.readMemory (addr % 2 ^ 32) ∈
          (PrintMemory (sampleEnv false) p (sampleWorld 64 64 [])).world.calls := by
    intro p addr count h1 h2 h3 ha hc h0 hfree
    have h := PrintMemory_dump (sampleEnv false) p (sampleWorld 64 64 []) addr count h1 h2 h3
      ha hc (by omega)
    refine ⟨h, ?_⟩
    rw [h]
    exact HexDump_reads _ _ _ _ _ h0 hfree
  exact ⟨key _ 16 1 (by decide) (by decide) (by decide) (by decide) (by decide) (by decide)
      (by decide),
    key _ 4 4 (by decide) (by decide) (by decide) (by decide) (by decide) (by decide)
      (by decide),
    key _ 16 1 (by decide) (by decide) (by decide) (by decide) (by decide) (by decide)
      (by decide),
    key _ 16 1 (by decide) (by decide) (by decide) (by decide) (by decide) (by decide)
      (by decide)⟩

/-- C18 (amended). For every parameter string given to PrintMemory in which an argument is
missing or an extra token is present, or in which the address token is not a well-formed
unsigned number with or without a plus sign in front of its digits (decimal digits, or
`0x` followed by at least one hexadecimal digit), or in which ParseUnsignedIntArg rejects
the count, or in which the count parses to 0, PrintMemory reports an error, by printing
`Invalid arguments.` or by raising `Invalid unsigned integer value.`, and HexDump is not
called: the trace of calls is as before, so no memory is read.  Left open are the address
tokens of three shapes: the bare prefix `0x`, a white-space character at the start of the
number, and a second prefix `0x` or `0X` with a hexadecimal digit behind the first.
ParseUnsignedIntArg raises its exception for every other malformed token, and for every
text that begins, directly or right after the prefix `0x`, with a character that is
neither white space, nor a plus sign, nor a digit of the base. -/
theorem C18_print_memory_rejects {σ : Type} (env : Env σ) (p : List Char) (w : World σ)
    (h : p = [] ∨ paramRegion p = [] ∨ paramRegion (paramRegion p) ≠ [] ∨
      (firstToken p ≠ [] ∧ isPlusNumeral (firstToken p) = false ∧
        isSlipShape (firstToken p) = false) ∨
      (∃ what, ParseUnsignedIntArg (paramRegion p) = Except.error what) ∨
      ParseUnsignedIntArg (paramRegion p) = Except.ok 0) :
    (PrintMemory env p w =
        ⟨w.print ("Invalid arguments.".toList ++ EOL), Completion.returned⟩ ∨
      PrintMemory env p w = ⟨w, Completion.threw "Invalid unsigned integer value."⟩) ∧
    (PrintMemory env p w).world.calls = w.calls ∧
    (firstToken p ≠ [] → isPlusNumeral (firstToken p) = false →
      isSlipShape (firstToken p) = false →
      ParseUnsignedIntArg p = Except.error "Invalid unsigned integer value.") ∧
    (∀ (c : Char) (rest : List Char), startsNumber 10 c = false →
      ParseUnsignedIntArg (c :: rest) = Except.error "Invalid unsigned integer value.") ∧
    (∀ (c : Char) (rest : List Char), startsNumber 16 c = false →
      ParseUnsignedIntArg ('0' :: 'x' :: c :: rest) =
        Except.error "Invalid unsigned integer value.") := by
  have hmal : firstToken p ≠ [] → isPlusNumeral (firstToken p) = false →
      isSlipShape (firstToken p) = false →
      ParseUnsignedIntArg p = Except.error ERR_MSG := by
    intro h1 h2 h3
    obtain ⟨hp, hnb, hrest⟩ := firstToken_split p
    have := ParseUnsignedIntArg_malformed (firstToken p) (SkipCharsNotInSet p SPACE_AND_TAB)
      h1 hnb hrest h2 h3
    rw [← hp] at this
    exact this
  have hmain : PrintMemory env p w =
        ⟨w.print ("Invalid arguments.".toList ++ EOL), Completion.returned⟩ ∨
      PrintMemory env p w = ⟨w, Completion.threw "Invalid unsigned integer value."⟩ := by
    unfold paramRegion at h
    unfold PrintMemory
    simp only []
    by_cases h1 : p = [] ∨ SkipCharsInSet (SkipCharsNotInSet p SPACE_AND_TAB) SPACE_AND_TAB = [] ∨
        SkipCharsInSet (SkipCharsNotInSet (SkipCharsInSet (SkipCharsNotInSet p SPACE_AND_TAB)
          SPACE_AND_TAB) SPACE_AND_TAB) SPACE_AND_TAB ≠ []
    · rw [if_pos h1]
      exact Or.inl rfl
    · rw [if_neg h1]
      cases ha : ParseUnsignedIntArg p with
      | error what =>
        rw [ParseUnsignedIntArg_error p what ha]
        exact Or.inr rfl
      | ok addr =>
        simp only []
        cases hc : ParseUnsignedIntArg
            (SkipCharsInSet (SkipCharsNotInSet p SPACE_AND_TAB) SPACE_AND_TAB) with
        | error what =>
          rw [ParseUnsignedIntArg_error _ what hc]
          exact Or.inr rfl
        | ok count =>
          simp only []
          by_cases h0 : count = 0
          · rw [if_pos h0]
            exact Or.inl rfl
          · exfalso
            rcases h with h | h | h | ⟨h2, h3, h4⟩ | ⟨what, h⟩ | h
            · exact h1 (Or.inl h)
            · exact h1 (Or.inr (Or.inl h))
            · exact h1 (Or.inr (Or.inr h))
            · rw [hmal h2 h3 h4] at ha
              exact Except.noConfusion ha
            · rw [hc] at h
              exact Except.noConfusion h
            · rw [hc] at h
              exact h0 (Except.ok.inj h)
  refine ⟨hmain, ?_, hmal, fun c rest => (ParseUnsignedIntArg_junk c rest).1,
    fun c rest => (ParseUnsignedIntArg_junk c rest).2⟩
  rcases hmain with h1 | h1
  · rw [h1]; rfl
  · rw [h1]

set_option maxRecDepth 100000 in
theorem C18_print_memory_rejects_witness :
    (firstToken "12abc 4".toList ≠ [] ∧ isPlusNumeral (firstToken "12abc 4".toList) = false ∧
      isSlipShape (firstToken "12abc 4".toList) = false) ∧
    (PrintMemory (sampleEnv false) "12abc 4".toList (sampleWorld 64 64 []) =
        ⟨(sampleWorld 64 64 []).print ("Invalid arguments.".toList ++ EOL),
          Completion.returned⟩ ∨
      PrintMemory (sampleEnv false) "12abc 4".toList (sampleWorld 64 64 []) =
        ⟨sampleWorld 64 64 [], Completion.threw "Invalid unsigned integer value."⟩) ∧
    (PrintMemory (sampleEnv false) "12abc 4".toList (sampleWorld 64 64 [])).world.calls =
      (sampleWorld 64 64 []).calls :=
  ⟨by decide,
    (C18_print_memory_rejects (sampleEnv false) "12abc 4".toList (sampleWorld 64 64 [])
      (Or.inr (Or.inr (Or.inr (Or.inl (by decide)))))).1,
    (C18_print_memory_rejects (sampleEnv false) "12abc 4".toList (sampleWorld 64 64 [])
      (Or.inr (Or.inr (Or.inr (Or.inl (by decide)))))).2.1⟩

end JtagDue
